import Mathlib

/-!
The scopehal waveform filters and the HyperRAM event-merge decoder.

A shallow embedding of

* `DownsampleFilter::Refresh`      (src/scopeprotocols/DownsampleFilter.cpp)
* `MovingAverageFilter::Refresh`   (src/scopeprotocols/MovingAverageFilter.cpp)
* `HyperRAMDecoder::Refresh`       (src/scopeprotocols/HyperRAMDecoder.cpp)
* `IBISDriverFilter::Refresh`      (src/scopeprotocols/IBISDriverFilter.cpp)
* the `ValidateChannel` functions of the four filters
* the enum tables of `FilterParameter` (src/scopehal/FilterParameter.h)

Conventions.

* `int64_t` values are `Int`, `size_t` values are `Nat`; the conversion of an
  `int64_t` to `size_t` is `toSizeT` (reduction modulo `2^64`), the narrowing of an
  `int64_t` to `int` is `toInt32`.
* The arithmetic on the `int` variables of the source (`latency` in the HyperRAM decoder;
  `kernel_radius`, `kernel_size` and `delta` in the kernel construction of the decimation,
  `DownsampleFilter.buildKernel`) is two's complement arithmetic on 32 bits (`toInt32`),
  and the `int64_t` product of the decimated timescale is reduced to 64 bits (`wrapInt64`).
  Sums and differences of timestamps are exact.
* `float` samples are elements of an arbitrary type `α` carrying the operations
  the code uses; statements about values are made over exact arithmetic.
* A `for` loop over an index range is a left fold over that range (`forLoop`);
  an array store `a[i] = v` is `List.set`.
* An array read `a[i]` is `List.getD a i 0`. The refreshes of the two numeric filters
  are also embedded with their faults (`DownsampleFilter.RefreshChecked`,
  `MovingAverageFilter.RefreshChecked`): a division by zero, a kernel that cannot be
  built and every access outside a vector end the run. Where these run to the end they
  publish what the refreshes without checks publish.
* A filter's published output (`GetData(0)`) is an `Option`: `none` is the null
  output installed by `SetData(NULL, 0)`.
-/

namespace ScopeHal

/-! ## Machine integers and loops -/

/-- Conversion of an `int64_t` to `size_t` (unsigned 64 bit). -/
def toSizeT (x : Int) : Nat := (x % 2 ^ 64).toNat

/-- Conversion of an `int64_t` to `int` (32 bit, two's complement): the value is reduced
modulo `2^32` into the range from `-2^31` to `2^31 - 1`. -/
def toInt32 (x : Int) : Int := (x + 2 ^ 31) % 2 ^ 32 - 2 ^ 31

/-- The loop `for(size_t i = lo; i < hi; i++) s = body(i, s)`. -/
def forLoop {σ : Type} (lo hi : Nat) (body : Nat → σ → σ) (s : σ) : σ :=
  (List.range' lo (hi - lo)).foldl (fun s i => body i s) s

/-! ## Waveforms -/

/-- The fields of `WaveformBase` / `Waveform<S>` that the filters read and write. -/
structure Waveform (α : Type) where
  m_timescale : Int
  m_startTimestamp : Int
  m_startFemtoseconds : Int
  m_triggerPhase : Int
  m_densePacked : Bool
  m_offsets : List Int
  m_durations : List Int
  m_samples : List α
deriving DecidableEq

/-- The three parallel sequences of a waveform have one length. -/
def Waveform.WellFormed {α : Type} (w : Waveform α) : Prop :=
  w.m_offsets.length = w.m_samples.length ∧ w.m_durations.length = w.m_samples.length

/-- Modelled from the spec: the constructor of `AnalogWaveform` (declared in the
waveform header, which is not among the sources). A new waveform has no samples and
is not flagged dense-packed. -/
def Waveform.new {α : Type} : Waveform α :=
  { m_timescale := 0, m_startTimestamp := 0, m_startFemtoseconds := 0, m_triggerPhase := 0,
    m_densePacked := false, m_offsets := [], m_durations := [], m_samples := [] }

/-- The effect of `std::vector::resize(n)`: the first `n` elements are kept and new
elements are value-initialised to `d`. -/
def resizeVec {β : Type} (d : β) (n : Nat) (l : List β) : List β :=
  l.take n ++ List.replicate (n - l.length) d

/-- Modelled from the spec: `Waveform::Resize(n)` (waveform header, not among the
sources), which "reallocates the three parallel sequences to length n". The flag
`m_densePacked` and the time base are left alone. -/
def Waveform.Resize {α : Type} [Zero α] (w : Waveform α) (size : Nat) : Waveform α :=
  { w with
    m_offsets := resizeVec 0 size w.m_offsets
    m_durations := resizeVec 0 size w.m_durations
    m_samples := resizeVec 0 size w.m_samples }

/-- Modelled from the spec: `Waveform::clear()` (waveform header, not among the
sources): empties the three sequences. -/
def Waveform.clear {α : Type} (w : Waveform α) : Waveform α :=
  { w with m_offsets := [], m_durations := [], m_samples := [] }

/-- Modelled from the spec: `Filter::SetupEmptyOutputWaveform(din, stream, clear)`
(Filter.cpp, not among the sources). The filter owns its output stream and reuses it:
the waveform published by the previous refresh (`data`) is taken again, a new one is
made only when there is none, the time base is copied from the input and the samples
are dropped only when `clear` is set. `DownsampleFilter::Refresh` relies on this reuse:
it reads the old length and the old `m_densePacked` flag of what it gets back. -/
def SetupEmptyOutputWaveform {α β : Type} (din : Waveform β) (data : Option (Waveform α))
    (clear : Bool) : Waveform α :=
  let cap := match data with
    | some c => c
    | none => Waveform.new
  let cap := { cap with
    m_timescale := din.m_timescale
    m_startTimestamp := din.m_startTimestamp
    m_startFemtoseconds := din.m_startFemtoseconds }
  if clear then cap.clear else cap

/-! ## DownsampleFilter -/

/-- The convolution kernel of the anti-aliasing path: `kernel_radius` and the
`kernel_size = 2 * kernel_radius + 1` taps. -/
structure Kernel (α : Type) where
  kernel_radius : Int
  kernel : List α

/-- The inner loop of the anti-aliasing path (DownsampleFilter.cpp, 156-165): taps
whose position falls outside the input are skipped. `x` is `delta + kernel_radius`. -/
def convolve {α : Type} [Zero α] [Add α] [Mul α] (samples : List α) (len : Nat)
    (k : Kernel α) (base : Int) : α :=
  forLoop 0 (2 * k.kernel_radius + 1).toNat (fun x conv =>
    let delta : Int := (x : Int) - k.kernel_radius
    let pos : Int := base + delta
    if pos < 0 ∨ pos ≥ (len : Int) then conv
    else conv + samples.getD pos.toNat 0 * k.kernel.getD x 0) 0

/-- One store of the timestamp loops: `cap->m_offsets[i] = din->m_offsets[i*factor] / factor`
and the same for the durations (`int64_t` division truncates). -/
def copyTimestamp {α : Type} (din : Waveform α) (factor : Int) (i : Nat)
    (cap : Waveform α) : Waveform α :=
  { cap with
    m_offsets := cap.m_offsets.set i (Int.tdiv (din.m_offsets.getD (i * toSizeT factor) 0) factor)
    m_durations :=
      cap.m_durations.set i (Int.tdiv (din.m_durations.getD (i * toSizeT factor) 0) factor) }

/-- One store of the dense fill loops: `cap->m_offsets[i] = i; cap->m_durations[i] = 1`. -/
def fillDense {α : Type} (i : Nat) (cap : Waveform α) : Waveform α :=
  { cap with
    m_offsets := cap.m_offsets.set i (i : Int)
    m_durations := cap.m_durations.set i 1 }

/-- The store `cap->m_samples[i] = v`. -/
def storeSample {α : Type} (i : Nat) (v : α) (cap : Waveform α) : Waveform α :=
  { cap with m_samples := cap.m_samples.set i v }

/-- The anti-aliasing path (DownsampleFilter.cpp, 124-169) on the reused output `cap`;
`k` is the kernel of lines 127-145. -/
def DownsampleFilter.antialiasedPath {α : Type} [Zero α] [Add α] [Mul α] (k : Kernel α)
    (din : Waveform α) (factor : Int) (len outlen : Nat) (cap : Waveform α) : Waveform α :=
  let cap := cap.Resize outlen
  forLoop 0 outlen (fun i cap =>
    let cap := copyTimestamp din factor i cap
    let base : Int := ((i * toSizeT factor : Nat) : Int)
    storeSample i (convolve din.m_samples len k base) cap) cap

/-- The path without anti-aliasing (DownsampleFilter.cpp, 175-222) on the reused
output `cap`. -/
def DownsampleFilter.plainPath {α : Type} [Zero α] (din : Waveform α) (factor : Int)
    (outlen : Nat) (cap : Waveform α) : Waveform α :=
  let oldlen := cap.m_samples.length
  let cap := cap.Resize outlen
  if din.m_densePacked then
    let cap :=
      if !cap.m_densePacked then
        forLoop 0 outlen fillDense { cap with m_densePacked := true }
      else if outlen > oldlen then
        forLoop oldlen outlen fillDense cap
      else cap
    forLoop 0 outlen (fun i cap =>
      storeSample i (din.m_samples.getD (i * toSizeT factor) 0) cap) cap
  else
    forLoop 0 outlen (fun i cap =>
      let cap := copyTimestamp din factor i cap
      storeSample i (din.m_samples.getD (i * toSizeT factor) 0) cap) cap

/-- The refresh `DownsampleFilter::Refresh` (DownsampleFilter.cpp, 104-229) on its normal
path: what the refresh publishes when it runs to the end.

* `mkKernel factor` is the Gaussian kernel of lines 127-145, computed there in
  floating point; it is a parameter here. The kernel the source builds, with its `int`
  variables, is `DownsampleFilter.buildKernel`.
* `input` is the waveform on input 0, `none` when `VerifyAllInputsOKAndAnalog()` fails.
* `factor` and `aa` are the two parameters, `data` is the output published before.

The result is the output published afterwards. In `len / factor` and `i * factor` the
factor is converted to `size_t`. The runs that do not reach the end are those of
`DownsampleFilter.RefreshChecked`: a factor of 0 divides by zero at line 118 (here
`len / 0` is 0), with anti-aliasing a kernel whose size does not fit an `int` makes
`kernel.resize` throw, and an access outside a vector is a fault (here a read gives 0).
Where `RefreshChecked` runs to the end it publishes this result, with the timescale
product reduced to `int64_t` (`refreshChecked_plain`, `refreshChecked_antialiased`). -/
def DownsampleFilter.Refresh {α : Type} [Zero α] [Add α] [Mul α] (mkKernel : Int → Kernel α)
    (input : Option (Waveform α)) (factor : Int) (aa : Bool) (data : Option (Waveform α)) :
    Option (Waveform α) :=
  match input with
  | none => none
  | some din =>
    let len := din.m_samples.length
    let outlen := len / toSizeT factor
    let cap := SetupEmptyOutputWaveform din data false
    let cap :=
      if aa then DownsampleFilter.antialiasedPath (mkKernel factor) din factor len outlen cap
      else DownsampleFilter.plainPath din factor outlen cap
    some { cap with
      m_timescale := din.m_timescale * factor
      m_startTimestamp := din.m_startTimestamp
      m_startFemtoseconds := din.m_startFemtoseconds }

/-- A dense-packed input with the given samples and a unit time base. -/
def denseInput {α : Type} (samples : List α) : Waveform α :=
  { m_timescale := 1, m_startTimestamp := 0, m_startFemtoseconds := 0, m_triggerPhase := 0,
    m_densePacked := true,
    m_offsets := (List.range samples.length).map (fun i => (i : Int)),
    m_durations := (List.range samples.length).map (fun _ => 1),
    m_samples := samples }

/-- A kernel used to run the anti-aliasing path on concrete inputs: radius 1, taps
`[0, 1, 0]`. -/
def unitKernel : Int → Kernel Int := fun _ => { kernel_radius := 1, kernel := [0, 1, 0] }

/-! ## MovingAverageFilter -/

/-- The inner loop of the moving average (MovingAverageFilter.cpp, 141-144):
`v = 0; for(j < depth) v += samples[i+j]; v /= depth`. -/
def windowMean {α : Type} [DivisionRing α] (samples : List α) (depth i : Nat) : α :=
  forLoop 0 depth (fun j v => v + samples.getD (i + j) 0) 0 / (depth : α)

/-- The refresh `MovingAverageFilter::Refresh` (MovingAverageFilter.cpp, 112-170), the
published waveform. `input` is the waveform on input 0, `none` when the validity check fails;
`depthParam` is the `int64_t` value of the depth parameter, converted to `size_t` as in
the source. The output is a new waveform on every call. The display range kept in
`m_range` and `m_offset` (lines 152-165) is not part of the published waveform. -/
def MovingAverageFilter.Refresh {α : Type} [DivisionRing α] (input : Option (Waveform α))
    (depthParam : Int) : Option (Waveform α) :=
  match input with
  | none => none
  | some din =>
    let len := din.m_samples.length
    let depth := toSizeT depthParam
    if len < depth then none
    else
      let cap : Waveform α := Waveform.new
      let nsamples := len - depth
      let off := depth / 2
      let cap := cap.Resize nsamples
      let cap := forLoop 0 nsamples (fun i cap =>
        let v := windowMean din.m_samples depth i
        { cap with
          m_offsets := cap.m_offsets.set i (din.m_offsets.getD (i + off) 0)
          m_durations := cap.m_durations.set i (din.m_durations.getD (i + off) 0)
          m_samples := cap.m_samples.set i v }) cap
      some { cap with
        m_timescale := din.m_timescale
        m_startTimestamp := din.m_startTimestamp
        m_startFemtoseconds := din.m_startFemtoseconds }

/-! ## HyperRAMDecoder -/

namespace HyperRAMDecoder

/-- The symbol kinds of `HyperRAMSymbol` (those named in HyperRAMDecoder.cpp). -/
inductive SymbolType where
  | TYPE_SELECT
  | TYPE_CA
  | TYPE_WAIT
  | TYPE_DATA
  | TYPE_DESELECT
  | TYPE_ERROR
deriving DecidableEq

/-- A decoded symbol: `HyperRAMSymbol(m_stype, m_data)`. -/
structure HyperRAMSymbol where
  m_stype : SymbolType
  m_data : Nat
deriving DecidableEq

/-- The decoder states (HyperRAMDecoder.cpp, 113-122). -/
inductive State where
  | STATE_IDLE
  | STATE_DESELECTED
  | STATE_CA
  | STATE_READ_WAIT
  | STATE_READ
  | STATE_WRITE_WAIT
  | STATE_WRITE
deriving DecidableEq

/-- The event kinds (HyperRAMDecoder.cpp, 124-129). -/
inductive EventType where
  | EVENT_CS
  | EVENT_CLK
  | EVENT_RWDS
deriving DecidableEq

/-- The fields of `struct HyperRAMDecoder::CA`. -/
structure CA where
  address : Nat
  read : Bool
  register_space : Bool
  linear : Bool
deriving DecidableEq

/-- The decoding `HyperRAMDecoder::DecodeCA` of a command/address word
(HyperRAMDecoder.cpp, 362-370). -/
def DecodeCA (data : Nat) : CA :=
  { address := ((data &&& 3) ||| ((data >>> 16) &&& 0x3FFFFFFF)) % 2 ^ 32
    read := (data &&& (1 <<< 47)) != 0
    register_space := (data &&& (1 <<< 46)) != 0
    linear := (data &&& (1 <<< 45)) != 0 }

/-- Modelled from the spec: `Filter::GetNextEventTimestamp(wfm, i, len, timestamp)`
(Filter.cpp, not among the sources): the timestamp of the next sample of the channel
after cursor `i`. A channel with no further sample contributes a sentinel, and the
sentinel is the current timestamp: the decoder stops when "all next-change timestamps
equal current timestamp", and its callers test `next_rwds == timestamp` and
`next_clk == timestamp` for "no further edge" (HyperRAMDecoder.cpp, 278 and 300). -/
def GetNextEventTimestamp (wfm : Waveform Bool) (i len : Nat) (timestamp : Int) : Int :=
  if i + 1 < len then wfm.m_offsets.getD (i + 1) 0 else timestamp

/-- The loop of `AdvanceToTimestamp`, at most `fuel` rounds. -/
def advanceLoop (offsets : List Int) (len : Nat) (timestamp : Int) : Nat → Nat → Nat
  | 0, i => i
  | fuel + 1, i =>
    if i + 1 < len ∧ offsets.getD (i + 1) 0 ≤ timestamp then
      advanceLoop offsets len timestamp fuel (i + 1)
    else i

/-- Modelled from the spec: `Filter::AdvanceToTimestamp(wfm, i, len, timestamp)`
(Filter.cpp, not among the sources): "advance every cursor to the last sample
at-or-before the new current timestamp"; the cursor moves forward while the next
sample exists and is not later than `timestamp`. The loop makes at most `len - i`
rounds, which is the fuel given. -/
def AdvanceToTimestamp (wfm : Waveform Bool) (i len : Nat) (timestamp : Int) : Nat :=
  advanceLoop wfm.m_offsets len timestamp (len - i) i

/-- The eleven digital inputs: `clk`, `cs#`, `rwds` and the data lines `dq0..dq7`. -/
structure Inputs where
  clk : Waveform Bool
  csn : Waveform Bool
  rwds : Waveform Bool
  data : List (Waveform Bool)

/-- The local variables of `HyperRAMDecoder::Refresh` (lines 122-144) and the capture
under construction. `event_type` is not initialised in the source; it is first read in
`STATE_CA`, which is entered only after the first selection of an event. `ca_data` is
an `int64_t` that holds at most six bytes. -/
structure Locals where
  state : State
  event_type : EventType
  sym_start : Int
  first : Bool
  latency : Int
  ics : Nat
  iclk : Nat
  irwds : Nat
  idata : List Nat
  timestamp : Int
  ca_data : Nat
  ca_byte : Int
  clk_time : Int
  last_clk : Int
  cap : Waveform HyperRAMSymbol
deriving DecidableEq

/-- The three `push_back` calls that append one symbol to the capture. -/
def pushSymbol (cap : Waveform HyperRAMSymbol) (offset duration : Int) (s : HyperRAMSymbol) :
    Waveform HyperRAMSymbol :=
  { cap with
    m_offsets := cap.m_offsets ++ [offset]
    m_durations := cap.m_durations ++ [duration]
    m_samples := cap.m_samples ++ [s] }

/-- The lambda `deselect` (HyperRAMDecoder.cpp, 159-167). -/
def deselect (l : Locals) : Locals :=
  { l with
    cap := pushSymbol l.cap l.sym_start (l.timestamp - l.sym_start) ⟨SymbolType.TYPE_DESELECT, 0⟩
    sym_start := l.timestamp
    state := State.STATE_DESELECTED }

/-- The sampled data byte (HyperRAMDecoder.cpp, 155-157): bit `i` is the current
sample of line `dq_i`. -/
def curData (inp : Inputs) (idata : List Nat) : Nat :=
  forLoop 0 8 (fun i cur_data =>
    cur_data ||| ((if ((inp.data.getD i Waveform.new).m_samples.getD (idata.getD i 0) false)
      then 1 else 0) <<< i)) 0

/-- The `STATE_CA` branch on a clock event with CS# low (HyperRAMDecoder.cpp, 195-241).
The local `latency` is an `int`: the `int64_t` product `GetIntVal() * 2` is narrowed to
32 bits when it is stored (line 217), and `latency *= 2` (line 220) and `latency -= 2`
(line 222) are formed in `int` (two's complement, 32 bits). -/
def caClock (latencyParam : Int) (cur_rwds : Bool) (cur_data : Nat) (l : Locals) : Locals :=
  let l :=
    if l.first then
      { l with
        first := false
        cap := pushSymbol l.cap l.sym_start (l.timestamp - l.sym_start)
          ⟨SymbolType.TYPE_SELECT, 0⟩ }
    else l
  let l := { l with ca_data := (l.ca_data <<< 8) ||| cur_data, ca_byte := l.ca_byte + 1 }
  if l.ca_byte = 6 then
    let cap := pushSymbol l.cap l.sym_start (l.timestamp - l.sym_start)
      ⟨SymbolType.TYPE_CA, l.ca_data⟩
    let latency := toInt32 (latencyParam * 2)
    let latency := if cur_rwds then toInt32 (latency * 2) else latency
    let latency := toInt32 (latency - 2)
    let ca := DecodeCA l.ca_data
    let state :=
      if ca.read then State.STATE_READ_WAIT
      else if ca.register_space then State.STATE_WRITE else State.STATE_WRITE_WAIT
    { l with cap := cap, sym_start := l.timestamp, latency := latency, state := state }
  else if l.ca_byte = 1 then
    { l with sym_start := l.timestamp }
  else l

/-- The `switch(state)` of one loop iteration (HyperRAMDecoder.cpp, 152-310). The
decrement `latency--` of the two wait states is formed in `int` (two's complement, 32
bits). -/
def fsm (inp : Inputs) (latencyParam : Int) (l : Locals) : Locals :=
  let cur_cs := inp.csn.m_samples.getD l.ics false
  let cur_rwds := inp.rwds.m_samples.getD l.irwds false
  let cur_data := curData inp l.idata
  match l.state with
  | State.STATE_IDLE =>
    if cur_cs then { l with state := State.STATE_DESELECTED } else l
  | State.STATE_DESELECTED =>
    if !cur_cs then
      { l with state := State.STATE_CA, ca_data := 0, ca_byte := 0, sym_start := l.timestamp,
               first := true }
    else l
  | State.STATE_CA =>
    if cur_cs then deselect l
    else if l.event_type = EventType.EVENT_CLK then caClock latencyParam cur_rwds cur_data l
    else l
  | State.STATE_READ_WAIT =>
    if cur_cs then deselect l
    else if l.event_type = EventType.EVENT_CLK then
      let l := { l with latency := toInt32 (l.latency - 1) }
      if l.latency = 0 then
        { l with
          cap := pushSymbol l.cap l.sym_start (l.timestamp - l.sym_start)
            ⟨SymbolType.TYPE_WAIT, 0⟩
          state := State.STATE_READ
          sym_start := l.timestamp }
      else l
    else l
  | State.STATE_WRITE_WAIT =>
    if cur_cs then deselect l
    else if l.event_type = EventType.EVENT_CLK then
      let l := { l with latency := toInt32 (l.latency - 1) }
      if l.latency = 0 then
        { l with
          cap := pushSymbol l.cap l.sym_start (l.timestamp - l.sym_start)
            ⟨SymbolType.TYPE_WAIT, 0⟩
          state := State.STATE_WRITE
          sym_start := l.timestamp }
      else l
    else l
  | State.STATE_READ =>
    if cur_cs then deselect l
    else if l.event_type = EventType.EVENT_RWDS then
      let next_rwds := GetNextEventTimestamp inp.rwds l.irwds inp.rwds.m_samples.length l.timestamp
      let next_cs := GetNextEventTimestamp inp.csn l.ics inp.csn.m_samples.length l.timestamp
      let duration := next_rwds - l.timestamp
      let duration := if next_rwds = l.timestamp ∨ next_rwds > next_cs then l.clk_time else duration
      { l with
        cap := pushSymbol l.cap l.timestamp duration ⟨SymbolType.TYPE_DATA, cur_data⟩
        sym_start := l.timestamp + duration }
    else l
  | State.STATE_WRITE =>
    if cur_cs then deselect l
    else if l.event_type = EventType.EVENT_CLK then
      let next_clk := GetNextEventTimestamp inp.clk l.iclk inp.clk.m_samples.length l.timestamp
      let next_cs := GetNextEventTimestamp inp.csn l.ics inp.csn.m_samples.length l.timestamp
      let sym_end := l.timestamp + Int.tdiv (next_clk - l.timestamp) 2
      let sym_end :=
        if next_clk = l.timestamp ∨ next_clk > next_cs then l.timestamp + Int.tdiv l.clk_time 2
        else sym_end
      { l with
        cap := pushSymbol l.cap l.sym_start (sym_end - l.sym_start) ⟨SymbolType.TYPE_DATA, cur_data⟩
        sym_start := sym_end }
    else l

/-- The selection of the soonest event (HyperRAMDecoder.cpp, 317-329): the start value
is CS#, then CLK and then RWDS take over only when strictly sooner. -/
def soonestEvent (next_cs next_clk next_rwds : Int) : Int × EventType :=
  let r : Int × EventType := (next_cs, EventType.EVENT_CS)
  let r := if next_clk < r.1 then (next_clk, EventType.EVENT_CLK) else r
  if next_rwds < r.1 then (next_rwds, EventType.EVENT_RWDS) else r

/-- The next-event timestamps of CS#, CLK and RWDS at the current cursors
(HyperRAMDecoder.cpp, 313-315). -/
def nextCs (inp : Inputs) (l : Locals) : Int :=
  GetNextEventTimestamp inp.csn l.ics inp.csn.m_samples.length l.timestamp

/-- See `nextCs`. -/
def nextClk (inp : Inputs) (l : Locals) : Int :=
  GetNextEventTimestamp inp.clk l.iclk inp.clk.m_samples.length l.timestamp

/-- See `nextCs`. -/
def nextRwds (inp : Inputs) (l : Locals) : Int :=
  GetNextEventTimestamp inp.rwds l.irwds inp.rwds.m_samples.length l.timestamp

/-- The second half of one loop iteration (HyperRAMDecoder.cpp, 312-356), after the
`switch`: select the soonest event, stop when it is at the current timestamp, else
record the clock interval, move to the new timestamp and advance every cursor. The
flag is `true` when the loop is left by `break`. -/
def advance (inp : Inputs) (l : Locals) : Locals × Bool :=
  let next_cs := nextCs inp l
  let next_clk := nextClk inp l
  let next_rwds := nextRwds inp l
  let sel := soonestEvent next_cs next_clk next_rwds
  let next_timestamp := sel.1
  let l := { l with event_type := sel.2 }
  if next_timestamp = l.timestamp then (l, true)
  else
    let l :=
      if l.event_type = EventType.EVENT_CLK then
        { l with clk_time := next_clk - l.last_clk, last_clk := next_clk }
      else l
    let l := { l with timestamp := next_timestamp }
    let l := { l with
      ics := AdvanceToTimestamp inp.csn l.ics inp.csn.m_samples.length l.timestamp
      iclk := AdvanceToTimestamp inp.clk l.iclk inp.clk.m_samples.length l.timestamp
      irwds := AdvanceToTimestamp inp.rwds l.irwds inp.rwds.m_samples.length l.timestamp }
    let data_timestamp :=
      if l.state = State.STATE_READ ∧ l.event_type = EventType.EVENT_RWDS then
        l.timestamp + Int.tdiv l.clk_time 2
      else l.timestamp
    let idata := forLoop 0 8 (fun i idata =>
      idata.set i (AdvanceToTimestamp (inp.data.getD i Waveform.new) (idata.getD i 0)
        (inp.data.getD i Waveform.new).m_samples.length data_timestamp)) l.idata
    ({ l with idata := idata }, false)

/-- One iteration of the `while(true)` loop (HyperRAMDecoder.cpp, 150-357). -/
def iteration (inp : Inputs) (latencyParam : Int) (l : Locals) : Locals × Bool :=
  advance inp (fsm inp latencyParam l)

/-- The values of the local variables on entry to the loop; the capture takes its time
base from the clock input (HyperRAMDecoder.cpp, 106-144). -/
def initLocals (inp : Inputs) : Locals :=
  { state := State.STATE_IDLE, event_type := EventType.EVENT_CS, sym_start := 0, first := false,
    latency := 0, ics := 0, iclk := 0, irwds := 0, idata := List.replicate 8 0, timestamp := 0,
    ca_data := 0, ca_byte := 0, clk_time := 0, last_clk := 0,
    cap := { m_timescale := inp.clk.m_timescale, m_startTimestamp := inp.clk.m_startTimestamp,
             m_startFemtoseconds := inp.clk.m_startFemtoseconds,
             m_triggerPhase := inp.clk.m_triggerPhase, m_densePacked := false,
             m_offsets := [], m_durations := [], m_samples := [] } }

/-- The `while(true)` loop run for at most `fuel` iterations: `some` of the final values
of the locals when the loop is left by `break`, `none` when the fuel runs out first. -/
def decodeLoop (inp : Inputs) (latencyParam : Int) : Nat → Locals → Option Locals
  | 0, _ => none
  | fuel + 1, l =>
    match iteration inp latencyParam l with
    | (l1, true) => some l1
    | (l1, false) => decodeLoop inp latencyParam fuel l1

/-- The number of iterations granted to the loop: every iteration that does not stop
moves at least one of the CS#, CLK and RWDS cursors forward. -/
def loopFuel (inp : Inputs) : Nat :=
  inp.csn.m_samples.length + inp.clk.m_samples.length + inp.rwds.m_samples.length + 1

/-- The refresh `HyperRAMDecoder::Refresh` (HyperRAMDecoder.cpp, 89-360): the published
capture.
`input` is `none` when `VerifyAllInputsOK()` fails, which publishes the null output. -/
def Refresh (input : Option Inputs) (latencyParam : Int) : Option (Waveform HyperRAMSymbol) :=
  match input with
  | none => none
  | some inp => (decodeLoop inp latencyParam (loopFuel inp) (initLocals inp)).map (fun l => l.cap)

/-- The number of samples still ahead of the CS#, CLK and RWDS cursors. -/
def samplesAhead (inp : Inputs) (l : Locals) : Nat :=
  (inp.csn.m_samples.length - 1 - l.ics) + (inp.clk.m_samples.length - 1 - l.iclk)
    + (inp.rwds.m_samples.length - 1 - l.irwds)

/-- The pending samples of CS#, CLK and RWDS all lie after the current timestamp. -/
def Pending (inp : Inputs) (l : Locals) : Prop :=
  (l.ics + 1 < inp.csn.m_samples.length →
    l.timestamp < inp.csn.m_offsets.getD (l.ics + 1) 0) ∧
  (l.iclk + 1 < inp.clk.m_samples.length →
    l.timestamp < inp.clk.m_offsets.getD (l.iclk + 1) 0) ∧
  (l.irwds + 1 < inp.rwds.m_samples.length →
    l.timestamp < inp.rwds.m_offsets.getD (l.irwds + 1) 0)

/-- A digital waveform given by its offsets and samples (unit durations). -/
def digital (offsets : List Int) (samples : List Bool) : Waveform Bool :=
  { m_timescale := 1, m_startTimestamp := 0, m_startFemtoseconds := 0, m_triggerPhase := 0,
    m_densePacked := false, m_offsets := offsets,
    m_durations := offsets.map (fun _ => 1), m_samples := samples }

/-- A capture in which CS# and CLK change at the same instant 10, RWDS later. -/
def tieCapture : Inputs :=
  { csn := digital [0, 10, 40] [true, false, true]
    clk := digital [0, 10, 20, 30] [false, true, false, true]
    rwds := digital [0, 15, 50] [false, true, false]
    data := List.replicate 8 (digital [0, 50] [false, false]) }

/-- A capture whose clock idles: CS# is high at 10, falls at 20 and rises at 110; the
clock makes six edges from 30 to 80 and has no sample after that; all data lines are
high. -/
def idleClockCapture : Inputs :=
  { csn := digital [0, 10, 20, 110] [false, true, false, true]
    clk := digital [0, 30, 40, 50, 60, 70, 80] [false, true, false, true, false, true, false]
    rwds := digital [0, 200] [false, false]
    data := List.replicate 8 (digital [0, 200] [true, true]) }

/-- The sample of CS# at the cursor, `csn->m_samples[ics]` (HyperRAMDecoder.cpp, 153). -/
def curCs (inp : Inputs) (l : Locals) : Bool := inp.csn.m_samples.getD l.ics false

/-- The sample of RWDS at the cursor, `rwds->m_samples[irwds]` (HyperRAMDecoder.cpp, 154). -/
def curRwds (inp : Inputs) (l : Locals) : Bool := inp.rwds.m_samples.getD l.irwds false

/-- The timestamp the data-line cursors are advanced to at the end of an iteration that
leaves the variables `l`: `data_timestamp` of HyperRAMDecoder.cpp, 348-354. -/
def dataTimestamp (l : Locals) : Int :=
  if l.state = State.STATE_READ ∧ l.event_type = EventType.EVENT_RWDS then
    l.timestamp + Int.tdiv l.clk_time 2
  else l.timestamp

/-- The kinds of the symbols in a capture, in order. -/
def symbolTypes (cap : Waveform HyperRAMSymbol) : List SymbolType :=
  cap.m_samples.map (fun s => s.m_stype)

/-- The local variables on entry to the `j`-th iteration after the one entered with `l`,
when the loop has not been left before. -/
def stateAt (inp : Inputs) (latencyParam : Int) (l : Locals) : Nat → Locals
  | 0 => l
  | j + 1 => (iteration inp latencyParam (stateAt inp latencyParam l j)).1

/-- None of the `j` iterations from the one entered with `l` leaves the loop. -/
def Running (inp : Inputs) (latencyParam : Int) (l : Locals) (j : Nat) : Prop :=
  ∀ i, i < j → (iteration inp latencyParam (stateAt inp latencyParam l i)).2 = false

/-- The number of CLK events among the `j` events selected from the iteration entered
with `l` on: the events that drive the iterations `1, ..., j` after it. -/
def clkEventCount (inp : Inputs) (latencyParam : Int) (l : Locals) : Nat → Nat
  | 0 => 0
  | j + 1 => clkEventCount inp latencyParam l j +
      (if (stateAt inp latencyParam l (j + 1)).event_type = EventType.EVENT_CLK then 1 else 0)

/-- The progress of a command/address phase after `c` clock events with CS# low, as seen
in the variables of the switch; `T0` are the kinds of the symbols emitted before the
transaction. Before the first clock event nothing is emitted; from the first to the
fifth the SELECT symbol is out and `ca_byte` counts the events; after the sixth the CA
symbol is out and the machine is in READ_WAIT, WRITE_WAIT or WRITE. -/
def CaPhase (T0 : List SymbolType) (c : Nat) (l : Locals) : Prop :=
  (c = 0 ∧ l.state = State.STATE_CA ∧ l.first = true ∧ l.ca_byte = 0 ∧
    symbolTypes l.cap = T0) ∨
  (1 ≤ c ∧ c ≤ 5 ∧ l.state = State.STATE_CA ∧ l.first = false ∧ l.ca_byte = (c : Int) ∧
    symbolTypes l.cap = T0 ++ [SymbolType.TYPE_SELECT]) ∨
  (c = 6 ∧ (l.state = State.STATE_READ_WAIT ∨ l.state = State.STATE_WRITE_WAIT ∨
      l.state = State.STATE_WRITE) ∧
    symbolTypes l.cap = T0 ++ [SymbolType.TYPE_SELECT, SymbolType.TYPE_CA])

/-- A read transaction whose chip select rises soon after the last RWDS edge. CS# is high
at 10, falls at 20, rises at 108 and falls again at 112; the clock has edges at
30, 40, ..., 100 and then at 120; RWDS has one edge at 105 and a later sample at 300;
all data lines are high, so the command is a read. Every channel has non-negative,
strictly increasing offsets. -/
def earlyDeselectCapture : Inputs :=
  { csn := digital [0, 10, 20, 108, 112, 400] [false, true, false, true, false, true]
    clk := digital [0, 30, 40, 50, 60, 70, 80, 90, 100, 120, 500]
      [false, true, false, true, false, true, false, true, false, true, false]
    rwds := digital [0, 105, 300] [false, true, false]
    data := List.replicate 8 (digital [0, 600] [true, true]) }

/-- A read transaction in which CS# has a second low sample, at 106, between the RWDS
edges at 105 and 107. -/
def repeatedCsCapture : Inputs :=
  { csn := digital [0, 10, 20, 106, 400] [false, true, false, false, true]
    clk := digital [0, 30, 40, 50, 60, 70, 80, 90, 100, 120, 500]
      [false, true, false, true, false, true, false, true, false, true, false]
    rwds := digital [0, 105, 107, 300] [false, true, false, true]
    data := List.replicate 8 (digital [0, 600] [true, true]) }

/-- A transaction of six clock events only: CS# is high at 10, falls at 20 and rises at
110; the clock has edges at 30, 40, ..., 80 and its next sample at 200; all data lines
are high. -/
def caOnlyCapture : Inputs :=
  { csn := digital [0, 10, 20, 110] [false, true, false, true]
    clk := digital [0, 30, 40, 50, 60, 70, 80, 200]
      [false, true, false, true, false, true, false, true]
    rwds := digital [0, 250] [false, false]
    data := List.replicate 8 (digital [0, 300] [true, true]) }

/-- The local variables on entry to iteration 2 of the decode of `caOnlyCapture`, the
iteration that sees the fall of CS# at 20. -/
def caFallState : Locals := stateAt caOnlyCapture 3 (initLocals caOnlyCapture) 2

/-- The local variables on entry to iteration 11 of the decode of `earlyDeselectCapture`
with latency parameter 2: the iteration of the RWDS event at 105, in state READ. -/
def readEdgeState : Locals :=
  stateAt earlyDeselectCapture 2 (initLocals earlyDeselectCapture) 11

/-- A read whose chip select stays low long after the latency: CS# falls at 20 and rises
at 400; the clock has edges at 30, 40, ..., 100 and a last sample at 450; RWDS stays low;
all data lines are high. -/
def shortWaitCapture : Inputs :=
  { csn := digital [0, 10, 20, 400, 500] [false, true, false, true, true]
    clk := digital [0, 30, 40, 50, 60, 70, 80, 90, 100, 450]
      [false, true, false, true, false, true, false, true, false, true]
    rwds := digital [0, 600] [false, false]
    data := List.replicate 8 (digital [0, 600] [true, true]) }

/-- The local variables on entry to iteration 8 of the decode of `shortWaitCapture` with
latency parameter 2: the iteration of the sixth command/address clock event, at 80. -/
def sixthByteState : Locals := stateAt shortWaitCapture 2 (initLocals shortWaitCapture) 8

/-- A channel with one offset per sample, the offsets non-negative and strictly
increasing. -/
def IncreasingOffsets (w : Waveform Bool) : Prop :=
  w.m_offsets.length = w.m_samples.length ∧ (∀ t, t ∈ w.m_offsets → 0 ≤ t) ∧
    w.m_offsets.Pairwise (fun a b => a < b)

/-- The cursor `i` points at the last sample of `w` whose offset is at or before `T`. -/
def LastAtOrBefore (w : Waveform Bool) (i : Nat) (T : Int) : Prop :=
  i < w.m_samples.length ∧ w.m_offsets.getD i 0 ≤ T ∧
    ∀ k, k < w.m_samples.length → w.m_offsets.getD k 0 ≤ T → k ≤ i

/-- What the loop keeps true of one of the CS#, CLK and RWDS cursors at timestamp `T`:
the cursor is inside the waveform, the next sample (when there is one) is later than
`T`, and the sample at the cursor is at or before `T` unless the cursor still stands on
the first sample. -/
def CursorOK (w : Waveform Bool) (i : Nat) (T : Int) : Prop :=
  i < w.m_samples.length ∧ (i + 1 < w.m_samples.length → T < w.m_offsets.getD (i + 1) 0) ∧
    (w.m_offsets.getD i 0 ≤ T ∨ i = 0)

/-- What the loop keeps true of all its cursors. -/
def CursorsOK (inp : Inputs) (l : Locals) : Prop :=
  CursorOK inp.csn l.ics l.timestamp ∧ CursorOK inp.clk l.iclk l.timestamp ∧
  CursorOK inp.rwds l.irwds l.timestamp ∧ l.idata.length = 8 ∧
  ∀ i, i < 8 → l.idata.getD i 0 < (inp.data.getD i Waveform.new).m_samples.length

/-- A capture whose clock channel starts late: its first sample is at 7, after the first
CS# event at 5. All offsets are non-negative and strictly increasing. -/
def lateClockCapture : Inputs :=
  { csn := digital [0, 5, 50] [true, false, true]
    clk := digital [7, 20, 30] [false, true, false]
    rwds := digital [0, 40, 60] [false, true, false]
    data := List.replicate 8 (digital [0, 70] [false, false]) }

/-- A capture in which CS# is low at every sample while the clock, RWDS and the data
lines toggle. -/
def alwaysSelectedCapture : Inputs :=
  { csn := digital [0, 25, 60] [false, false, false]
    clk := digital [0, 10, 20, 30, 40, 50, 60, 70] [false, true, false, true, false, true, false, true]
    rwds := digital [0, 35, 80] [false, true, false]
    data := List.replicate 8 (digital [0, 15, 90] [true, false, true]) }

/-- The sample of data line `dq_i` at its cursor, `data[i]->m_samples[idata[i]]`
(HyperRAMDecoder.cpp, 157). -/
def dqSample (inp : Inputs) (idata : List Nat) (i : Nat) : Bool :=
  (inp.data.getD i Waveform.new).m_samples.getD (idata.getD i 0) false

/-- The data bytes sampled at the CLK events among the steps 1 to `j` that follow `l`, in
the order of the steps. -/
def caBytes (inp : Inputs) (latencyParam : Int) (l : Locals) : Nat → List Nat
  | 0 => []
  | j + 1 =>
    caBytes inp latencyParam l j ++
      (if (stateAt inp latencyParam l (j + 1)).event_type = EventType.EVENT_CLK then
        [curData inp (stateAt inp latencyParam l (j + 1)).idata]
      else [])

/-- The accumulation of line 208, `ca_data = (ca_data << 8) | cur_data`, over a list of
bytes, starting from 0. -/
def shiftIn (bytes : List Nat) : Nat :=
  bytes.foldl (fun ca_data cur_data => (ca_data <<< 8) ||| cur_data) 0

/-- The 48-bit big-endian concatenation of six bytes: the first byte in bits 47..40, the
last in bits 7..0. -/
def bigEndian48 (bytes : List Nat) : Nat :=
  bytes.getD 0 0 * 2 ^ 40 + bytes.getD 1 0 * 2 ^ 32 + bytes.getD 2 0 * 2 ^ 24
    + bytes.getD 3 0 * 2 ^ 16 + bytes.getD 4 0 * 2 ^ 8 + bytes.getD 5 0

end HyperRAMDecoder

/-! ## Input validation -/

/-- The channel kinds of `OscilloscopeChannel::ChannelType` named in the sources. -/
inductive ChannelType where
  | CHANNEL_TYPE_ANALOG
  | CHANNEL_TYPE_DIGITAL
  | CHANNEL_TYPE_COMPLEX
deriving DecidableEq

/-- What `ValidateChannel` reads of an `OscilloscopeChannel`: its kind, `GetType()`. -/
structure OscilloscopeChannel where
  m_type : ChannelType
deriving DecidableEq

/-- A connection endpoint, `StreamDescriptor`: the channel (`none` is the null pointer)
and the index of the stream. -/
structure StreamDescriptor where
  m_channel : Option OscilloscopeChannel
  m_stream : Nat
deriving DecidableEq

/-- The inputs declared by the constructor of `DownsampleFilter` (DownsampleFilter.cpp, 42). -/
def DownsampleFilter.inputNames : List String := ["RF"]

/-- The inputs declared by the constructor of `MovingAverageFilter`
(MovingAverageFilter.cpp, 40). -/
def MovingAverageFilter.inputNames : List String := ["din"]

/-- The inputs declared by the constructor of `HyperRAMDecoder` (HyperRAMDecoder.cpp, 45-55). -/
def HyperRAMDecoder.inputNames : List String :=
  ["clk", "cs#", "rwds", "dq0", "dq1", "dq2", "dq3", "dq4", "dq5", "dq6", "dq7"]

/-- The inputs declared by the constructor of `IBISDriverFilter` (IBISDriverFilter.cpp, 47-48). -/
def IBISDriverFilter.inputNames : List String := ["data", "clk"]

/-- The member function `DownsampleFilter::ValidateChannel` (DownsampleFilter.cpp, 56-65).
The body assigns to nothing, so the embedding is a function of its two arguments. -/
def DownsampleFilter.ValidateChannel (i : Nat) (stream : StreamDescriptor) : Bool :=
  match stream.m_channel with
  | none => false
  | some ch =>
    if i = 0 ∧ ch.m_type = ChannelType.CHANNEL_TYPE_ANALOG then true
    else false

/-- The member function `MovingAverageFilter::ValidateChannel`
(MovingAverageFilter.cpp, 53-62). -/
def MovingAverageFilter.ValidateChannel (i : Nat) (stream : StreamDescriptor) : Bool :=
  match stream.m_channel with
  | none => false
  | some ch =>
    if i = 0 ∧ ch.m_type = ChannelType.CHANNEL_TYPE_ANALOG then true
    else false

/-- The member function `HyperRAMDecoder::ValidateChannel` (HyperRAMDecoder.cpp, 67-76). -/
def HyperRAMDecoder.ValidateChannel (i : Nat) (stream : StreamDescriptor) : Bool :=
  match stream.m_channel with
  | none => false
  | some ch =>
    if i < 11 ∧ ch.m_type = ChannelType.CHANNEL_TYPE_DIGITAL then true
    else false

/-- The member function `IBISDriverFilter::ValidateChannel` (IBISDriverFilter.cpp, 75-84). -/
def IBISDriverFilter.ValidateChannel (i : Nat) (stream : StreamDescriptor) : Bool :=
  match stream.m_channel with
  | none => false
  | some ch =>
    if i < 2 ∧ ch.m_type = ChannelType.CHANNEL_TYPE_DIGITAL then true
    else false

/-! ## The refreshes as operations on the members of the filter -/

/-- The display unit of an axis (`Unit`); the refreshes only copy it. -/
structure AxisUnit where
  m_type : Nat
deriving DecidableEq

/-- What a refresh reads of input 0: the waveform, and the axis units of the channel
it comes from. -/
structure AnalogInput (α : Type) where
  wfm : Waveform α
  xAxisUnit : AxisUnit
  yAxisUnit : AxisUnit

/-- The members of a `DownsampleFilter`: the two parameters and the waveform published
on stream 0. The voltage range and offset are read from the input on demand
(DownsampleFilter.cpp, 70-78) and are not members. -/
structure DownsampleFilter.Members (α : Type) where
  factor : Int
  aa : Bool
  m_xAxisUnit : AxisUnit
  m_yAxisUnit : AxisUnit
  data : Option (Waveform α)

/-- The refresh `DownsampleFilter::Refresh` as an operation on the members: only the
published waveform is written. -/
def DownsampleFilter.RefreshMembers {α : Type} [Zero α] [Add α] [Mul α]
    (mkKernel : Int → Kernel α) (input : Option (AnalogInput α))
    (m : DownsampleFilter.Members α) : DownsampleFilter.Members α :=
  { m with
    data := (DownsampleFilter.Refresh mkKernel (input.map (fun a => a.wfm)) m.factor m.aa
      m.data) }

/-- The largest finite `float`, `FLT_MAX`. -/
def FLT_MAX {α : Type} [DivisionRing α] : α := 2 ^ 128 - 2 ^ 104

/-- The smallest positive normalised `float`, `FLT_MIN`. -/
def FLT_MIN {α : Type} [DivisionRing α] : α := 1 / 2 ^ 126

/-- The members of a `MovingAverageFilter`: the depth parameter, the display range
`m_range`, `m_offset`, the member `m_min` read at line 165, the axis units and the
waveform published on stream 0. -/
structure MovingAverageFilter.Members (α : Type) where
  depth : Int
  m_range : α
  m_offset : α
  m_min : α
  m_xAxisUnit : AxisUnit
  m_yAxisUnit : AxisUnit
  data : Option (Waveform α)

/-- The bounds loop of `MovingAverageFilter::Refresh` (lines 154-163): the least and the
greatest output sample, starting from `FLT_MAX` and `-FLT_MAX`. -/
def MovingAverageFilter.bounds {α : Type} [LinearOrderedField α] (samples : List α)
    (nsamples : Nat) : α × α :=
  forLoop 0 nsamples (fun i b =>
    let v := samples.getD i 0
    (min b.1 v, max b.2 v)) (FLT_MAX, -FLT_MAX)

/-- The refresh `MovingAverageFilter::Refresh` (MovingAverageFilter.cpp, 112-170) as an
operation on the members. `input` is `none` when `VerifyAllInputsOKAndAnalog()` fails.
After the two early exits the axis units are copied from the input, the waveform is
published, and the display range is computed when `m_range` is still 0. -/
def MovingAverageFilter.RefreshMembers {α : Type} [LinearOrderedField α]
    (input : Option (AnalogInput α)) (m : MovingAverageFilter.Members α) :
    MovingAverageFilter.Members α :=
  match input with
  | none => { m with data := none }
  | some a =>
    let len := a.wfm.m_samples.length
    let depth := toSizeT m.depth
    if len < depth then { m with data := none }
    else
      let m := { m with m_xAxisUnit := a.xAxisUnit, m_yAxisUnit := a.yAxisUnit }
      let out := MovingAverageFilter.Refresh (some a.wfm) m.depth
      let m := { m with data := out }
      if m.m_range = 0 then
        let b := MovingAverageFilter.bounds ((out.map (fun w => w.m_samples)).getD [])
          (len - depth)
        { m with
          m_range := (b.2 - b.1) * (105 / 100)
          m_offset := -((b.2 - b.1) / 2 + m.m_min) }
      else m

/-- The members of a `HyperRAMDecoder`: the latency parameter and the capture published
on stream 0. -/
structure HyperRAMDecoder.Members where
  latency : Int
  m_xAxisUnit : AxisUnit
  m_yAxisUnit : AxisUnit
  data : Option (Waveform HyperRAMDecoder.HyperRAMSymbol)

/-- The refresh `HyperRAMDecoder::Refresh` as an operation on the members: only the
published capture is written. -/
def HyperRAMDecoder.RefreshMembers (input : Option HyperRAMDecoder.Inputs)
    (m : HyperRAMDecoder.Members) : HyperRAMDecoder.Members :=
  { m with data := HyperRAMDecoder.Refresh input m.latency }

/-! ## FilterParameter: the enum tables -/

namespace FilterParameter

/-- The two enum tables of a `FilterParameter` (FilterParameter.h, 160-161):
`std::map<std::string, int> m_forwardEnumMap` and
`std::map<int, std::string> m_reverseEnumMap`, each a finite map with at most one entry
for a key. -/
structure EnumMaps where
  m_forwardEnumMap : String → Option Int
  m_reverseEnumMap : Int → Option String

/-- The tables of a new parameter: both maps are empty. -/
def EnumMaps.empty : EnumMaps :=
  { m_forwardEnumMap := fun _ => none, m_reverseEnumMap := fun _ => none }

/-- The member function `AddEnumValue` (FilterParameter.h, 112-117):
`m_forwardEnumMap[name] = value; m_reverseEnumMap[value] = name`. The assignment through
`operator[]` inserts the key or overwrites its entry. -/
def AddEnumValue (p : EnumMaps) (name : String) (value : Int) : EnumMaps :=
  { m_forwardEnumMap := fun n => if n = name then some value else p.m_forwardEnumMap n
    m_reverseEnumMap := fun v => if v = value then some name else p.m_reverseEnumMap v }

/-- The member function `ClearEnumValues` (FilterParameter.h, 131-136). -/
def ClearEnumValues (_p : EnumMaps) : EnumMaps := EnumMaps.empty

/-- A call of one of the two member functions that write the tables. -/
inductive Call where
  | add (name : String) (value : Int)
  | clear

/-- The effect of one call. -/
def Call.run (p : EnumMaps) : Call → EnumMaps
  | Call.add name value => AddEnumValue p name value
  | Call.clear => ClearEnumValues p

/-- The effect of a sequence of calls on a parameter. -/
def runCalls (p : EnumMaps) (calls : List Call) : EnumMaps :=
  calls.foldl Call.run p

/-- The two tables are inverse to each other: forward maps `n` to `v` exactly when
reverse maps `v` to `n`. -/
def Inverse (p : EnumMaps) : Prop :=
  ∀ n v, p.m_forwardEnumMap n = some v ↔ p.m_reverseEnumMap v = some n

end FilterParameter

/-! ## DownsampleFilter: the anti-aliasing kernel -/

/-- The functions and the constant of the C math library that the kernel construction
calls: `sqrt`, `log`, `exp`, `ceil` and `M_PI`. -/
structure MathFns (α : Type) where
  sqrt : α → α
  log : α → α
  exp : α → α
  ceil : α → Int
  pi : α

/-- The standard deviation of the kernel (DownsampleFilter.cpp, 127-128):
`cutoff_period = factor; sigma = cutoff_period / sqrt(2 * log(2))`. -/
def DownsampleFilter.sigma {α : Type} [DivisionRing α] (fn : MathFns α) (factor : Int) : α :=
  let cutoff_period : α := (factor : α)
  cutoff_period / fn.sqrt (2 * fn.log 2)

/-- The tap written at index `x` by the loop of lines 136-140, before the normalisation:
`delta = x - kernel_radius; kernel[x] = alpha * exp(-delta*delta/(2*sigma))`. The product
`-delta*delta` is formed in `int` and divided by the `float` `2*sigma`; here the product
is exact. The product on 32 bits is in `DownsampleFilter.tapStore`; the two agree while
`|delta| <= 46340`. -/
def DownsampleFilter.rawTap {α : Type} [DivisionRing α] (fn : MathFns α) (sigma alpha : α)
    (kernel_radius : Int) (x : Nat) : α :=
  let delta : Int := (x : Int) - kernel_radius
  alpha * fn.exp (((-delta * delta : Int) : α) / (2 * sigma))

/-- The kernel built by `DownsampleFilter::Refresh` (DownsampleFilter.cpp, 126-145) for a
decimation factor, over a field `α` with the math functions `fn` in place of `float`
arithmetic, and with exact integers for `kernel_radius`, `kernel_size` and `delta`. The
construction with the 32-bit `int` variables of the source is
`DownsampleFilter.buildKernel`; it returns this kernel while the radius is at most 46340,
which over the reals is the case for the factors 1 to 18187
(`buildKernel_eq_gaussianKernel`, `buildKernel_real_gaussian`). -/
def DownsampleFilter.gaussianKernel {α : Type} [DivisionRing α] (fn : MathFns α)
    (factor : Int) : Kernel α :=
  let sigma : α := DownsampleFilter.sigma fn factor
  let kernel_radius : Int := fn.ceil (3 * sigma)
  let kernel_size : Int := kernel_radius * 2 + 1
  let kernel : List α := resizeVec 0 kernel_size.toNat []
  let alpha : α := 1 / (sigma * fn.sqrt (2 * fn.pi))
  let kernel := forLoop 0 kernel_size.toNat (fun x kernel =>
    kernel.set x (DownsampleFilter.rawTap fn sigma alpha kernel_radius x)) kernel
  let sum : α := kernel.foldl (fun sum k => sum + k) 0
  let kernel := forLoop 0 kernel_size.toNat (fun i kernel =>
    kernel.set i (kernel.getD i 0 / sum)) kernel
  { kernel_radius := kernel_radius, kernel := kernel }

/-! ## IBISDriverFilter -/

/-- Conversion of a `size_t` to `int64_t` (two's complement). -/
def toInt64 (n : Nat) : Int :=
  if n % 2 ^ 64 < 2 ^ 63 then ((n % 2 ^ 64 : Nat) : Int) else ((n % 2 ^ 64 : Nat) : Int) - 2 ^ 64

/-- The number of femtoseconds in a second, `FS_PER_SECOND` (declared in a header that is
not among the sources). -/
def FS_PER_SECOND : Nat := 10 ^ 15

namespace IBISDriverFilter

/-- The ways in which a run of the refresh leaves defined behaviour. -/
inductive Fault where
  | outOfBounds
  | divisionByZero
deriving DecidableEq

/-- Modelled from the spec: a set of voltage-vs-time curves of the model-file collaborator
(`VTCurves`, declared in the IBIS parser, which is not among the sources). The filter
reads the two fixture values and calls "propagation delay per corner" and "interpolate
voltage at time t for corner c"; the two queries are functions of the curve set. The time
passed to `InterpolateVoltage` is the relative timestamp in femtoseconds (the source
multiplies it by `SECONDS_PER_FS` first). -/
structure VTCurves (α : Type) where
  m_fixtureResistance : α
  m_fixtureVoltage : α
  GetPropagationDelay : Int → Int
  InterpolateVoltage : Int → Int → α

/-- The kind of a model; the filter offers `TYPE_OUTPUT` and `TYPE_IO` models only
(IBISDriverFilter.cpp, 147), every other kind is one constructor here. -/
inductive ModelType where
  | TYPE_OUTPUT
  | TYPE_IO
  | TYPE_OTHER
deriving DecidableEq

/-- Modelled from the spec: a characterization record of the model-file collaborator
(`IBISModel`): its kind and, per termination load, the rising and the falling curves. -/
structure IBISModel (α : Type) where
  m_type : ModelType
  m_rising : List (VTCurves α)
  m_falling : List (VTCurves α)

/-- The members of an `IBISDriverFilter` that its member functions read and write: the
selected model (`none` is the null pointer), the models of the parser, the integer values
of the sample-rate, termination and corner parameters, the enum tables of the model-name
and termination parameters, the tracked extremes and display range, and the waveform
published on stream 0. -/
structure Members (α : Type) where
  m_model : Option (IBISModel α)
  m_parser_models : List (String × IBISModel α)
  sampleRate : Int
  termination : Int
  corner : Int
  modelNames : FilterParameter.EnumMaps
  termNames : FilterParameter.EnumMaps
  m_vmax : α
  m_vmin : α
  m_range : α
  m_offset : α
  data : Option (Waveform α)

/-- The member function `ClearSweeps` (IBISDriverFilter.cpp, 117-123). -/
def ClearSweeps {α : Type} [DivisionRing α] (m : Members α) : Members α :=
  { m with m_vmax := FLT_MIN, m_vmin := FLT_MAX, m_range := 1, m_offset := 0 }

/-- The loop `for(i < names.size()) AddEnumValue(names[i], i)` (lines 156-157, 173-178). -/
def addNames (names : List String) (p : FilterParameter.EnumMaps) : FilterParameter.EnumMaps :=
  forLoop 0 names.length (fun i p => FilterParameter.AddEnumValue p (names.getD i "") (i : Int)) p

/-- The member function `OnFnameChanged` (IBISDriverFilter.cpp, 134-163). `loaded` is what
the parser holds after `m_parser.Load(path)`, in the order of its map. The selected model
is reset to null, the names of the output and I/O models are sorted and become the
values of the model-name parameter, and the tracked extremes are reset. -/
def OnFnameChanged {α : Type} [DivisionRing α] (loaded : List (String × IBISModel α))
    (m : Members α) : Members α :=
  let m := { m with m_parser_models := loaded }
  let m := { m with m_model := none }
  let names := (loaded.filter (fun it =>
    !(it.2.m_type ≠ ModelType.TYPE_OUTPUT ∧ it.2.m_type ≠ ModelType.TYPE_IO))).map (fun it => it.1)
  let names := names.mergeSort (fun a b => decide (a ≤ b))
  let m := { m with modelNames := addNames names (FilterParameter.ClearEnumValues m.modelNames) }
  ClearSweeps m

/-- The member function `OnModelChanged` (IBISDriverFilter.cpp, 165-182). `selected` is the
string value of the model-name parameter and `prettyName` the name made of the two fixture
values (line 176). The model is looked up in the parser; a name the parser does not hold
yields a null pointer, which line 173 dereferences. -/
def OnModelChanged {α : Type} [DivisionRing α] (selected : String) (prettyName : α → α → String)
    (m : Members α) : Except Fault (Members α) :=
  match (m.m_parser_models.find? (fun it => it.1 = selected)).map (fun it => it.2) with
  | none => Except.error Fault.outOfBounds
  | some model =>
    let m := { m with m_model := some model }
    let names := model.m_rising.map (fun w => prettyName w.m_fixtureResistance w.m_fixtureVoltage)
    let m := { m with termNames := addNames names (FilterParameter.ClearEnumValues m.termNames) }
    Except.ok (ClearSweeps m)

/-- What the refresh reads of its two inputs: the data waveform `din`, and `samples`, the
data sampled on every clock edge by `SampleOnAnyEdges(din, clkin, samples)` (line 197; the
sampling helper is not among the sources). -/
structure SampledInput where
  din : Waveform Bool
  samples : Waveform Bool

/-- The search for the falling-edge curve set (IBISDriverFilter.cpp, 228-237): the index
of the first falling set that passes the test of lines 231-233, counted from `t`, or the
number of sets when none passes. -/
def fallingLoop {α : Type} [LinearOrderedField α] (rising : VTCurves α) :
    List (VTCurves α) → Nat → Nat
  | [], t => t
  | f :: fs, t =>
    if f.m_fixtureResistance - rising.m_fixtureResistance < 1 / 100 ∧
        f.m_fixtureVoltage - rising.m_fixtureVoltage < 1 / 100 then t
    else fallingLoop rising fs (t + 1)

/-- The value of `fallingTerm` after the loop of lines 228-237. -/
def findFallingTerm {α : Type} [LinearOrderedField α] (model : IBISModel α)
    (rising : VTCurves α) : Nat :=
  fallingLoop rising model.m_falling 0

/-- The locals of the edge search (IBISDriverFilter.cpp, 246-258). -/
structure Edges where
  last : Bool
  edgeDirections : List Bool
  edgeTimestamps : List Int
deriving DecidableEq

/-- The edge search (IBISDriverFilter.cpp, 246-258): every sample that differs from the
one before it is a transition, recorded with its direction and its offset. -/
def findEdges (samples : Waveform Bool) (len : Nat) (first : Bool) : Edges :=
  forLoop 1 len (fun i e =>
    let b := samples.m_samples.getD i false
    if b ≠ e.last then
      { last := b, edgeDirections := e.edgeDirections ++ [b],
        edgeTimestamps := e.edgeTimestamps ++ [samples.m_offsets.getD i 0] }
    else e) { last := first, edgeDirections := [], edgeTimestamps := [] }

/-- What the output loop carries from one tick to the next: the edge cursor, the output
waveform and the tracked extremes. -/
structure Tick (α : Type) where
  iedge : Nat
  cap : Waveform α
  m_vmax : α
  m_vmin : α

/-- The time of output tick `i`, `tnow = cap->m_timescale*i + cap->m_triggerPhase`
(line 276); the sum is formed in `size_t` and stored in an `int64_t`. -/
def tickTime {α : Type} (cap : Waveform α) (i : Nat) : Int :=
  toInt64 (toSizeT cap.m_timescale * i + toSizeT cap.m_triggerPhase)

/-- The edge cursor used at a tick (IBISDriverFilter.cpp, 279-294): it moves on by one
when there is a next edge and the tick is not before the delayed time of that edge. -/
def nextEdge (e : Edges) (rising_delay falling_delay : Int) (tnow : Int) (iedge : Nat) : Nat :=
  if iedge + 1 < e.edgeTimestamps.length then
    let tnextedge := e.edgeTimestamps.getD (iedge + 1) 0
    let tdelayed :=
      if e.edgeDirections.getD (iedge + 1) false then tnextedge + rising_delay
      else tnextedge + falling_delay
    if tnow ≥ tdelayed then iedge + 1 else iedge
  else iedge

/-- One round of the output loop (IBISDriverFilter.cpp, 269-308). -/
def tick {α : Type} [LinearOrderedField α] (rising falling : VTCurves α) (corner : Int)
    (e : Edges) (i : Nat) (s : Tick α) : Tick α :=
  let cap := fillDense i s.cap
  let tnow := tickTime cap i
  let iedge := nextEdge e (rising.GetPropagationDelay corner)
    (falling.GetPropagationDelay corner) tnow s.iedge
  let relative_timestamp := tnow - e.edgeTimestamps.getD iedge 0
  let v :=
    if e.edgeDirections.getD iedge false then rising.InterpolateVoltage corner relative_timestamp
    else falling.InterpolateVoltage corner relative_timestamp
  { iedge := iedge, cap := storeSample i v cap, m_vmax := max s.m_vmax v,
    m_vmin := min s.m_vmin v }

/-- The output loop run for the first `n` ticks. -/
def ticks {α : Type} [LinearOrderedField α] (rising falling : VTCurves α) (corner : Int)
    (e : Edges) (n : Nat) (s : Tick α) : Tick α :=
  forLoop 0 n (tick rising falling corner e) s

/-- The index `len-1` of line 220, computed in `size_t`: it wraps to `2^64 - 1` when
`len` is 0. -/
def lastIndex (len : Nat) : Nat := if len = 0 then 2 ^ 64 - 1 else len - 1

/-- The refresh `IBISDriverFilter::Refresh` (IBISDriverFilter.cpp, 184-312) as an operation
on the members. `input` is `none` when `VerifyAllInputsOK()` fails. A read of a vector
outside its bounds and a division by zero end the run with a fault; the reads checked
are those that an input with three sequences of one length can take out of bounds:
`samples.m_offsets[0]`, the two reads at `len-1`, `samples.m_samples[0]`,
`m_rising[risingTerm]` and `m_falling[fallingTerm]`. `SetupEmptyOutputWaveform(din, 0)`
is called with the default of its third argument, which clears the reused output. -/
def Refresh {α : Type} [LinearOrderedField α] (input : Option SampledInput) (m : Members α) :
    Except Fault (Members α) :=
  match input, m.m_model with
  | none, _ => Except.ok { m with data := none }
  | some _, none => Except.ok { m with data := none }
  | some inp, some model =>
    let rate := toSizeT m.sampleRate
    if rate = 0 then Except.ok { m with data := none }
    else
      let samplePeriod := FS_PER_SECOND / rate
      let cap : Waveform α := SetupEmptyOutputWaveform inp.din m.data true
      let cap := { cap with m_timescale := (samplePeriod : Int), m_densePacked := true }
      let len := inp.samples.m_samples.length
      match inp.samples.m_offsets[0]? with
      | none => Except.error Fault.outOfBounds
      | some capstart =>
        let cap := { cap with m_triggerPhase := capstart }
        match inp.samples.m_offsets[lastIndex len]?, inp.samples.m_durations[lastIndex len]? with
        | none, _ => Except.error Fault.outOfBounds
        | some _, none => Except.error Fault.outOfBounds
        | some lastOffset, some lastDuration =>
          if samplePeriod = 0 then Except.error Fault.divisionByZero
          else
            let caplen := toSizeT (lastOffset + lastDuration - capstart) / samplePeriod
            let cap := cap.Resize caplen
            match model.m_rising[toSizeT m.termination]? with
            | none => Except.error Fault.outOfBounds
            | some rising =>
              match model.m_falling[findFallingTerm model rising]? with
              | none => Except.error Fault.outOfBounds
              | some falling =>
                match inp.samples.m_samples[0]? with
                | none => Except.error Fault.outOfBounds
                | some first =>
                  let e := findEdges inp.samples len first
                  if e.edgeTimestamps.isEmpty then Except.ok { m with data := none }
                  else
                    let s := ticks rising falling m.corner e caplen
                      { iedge := 0, cap := cap, m_vmax := m.m_vmax, m_vmin := m.m_vmin }
                    Except.ok { m with
                      m_vmax := s.m_vmax
                      m_vmin := s.m_vmin
                      m_range := (s.m_vmax - s.m_vmin) * (105 / 100)
                      m_offset := -((s.m_vmax - s.m_vmin) / 2 + s.m_vmin)
                      data := some s.cap }

/-- The transition the spec names for a tick at `tnow`: the transition with the greatest
index whose delayed time (edge timestamp plus the rising or the falling delay, by its
direction) is at or before `tnow`, and the first transition when none has arrived. -/
def mostRecentlyArrived (e : Edges) (rising_delay falling_delay : Int) (tnow : Int) : Nat :=
  (List.range e.edgeTimestamps.length).foldl (fun best k =>
    if e.edgeTimestamps.getD k 0
        + (if e.edgeDirections.getD k false then rising_delay else falling_delay) ≤ tnow
    then k else best) 0

/-- The voltage the spec names for a tick at `tnow`: the value of the curve of the
transition that most recently arrived, at the time since that transition. -/
def specVoltage {α : Type} (rising falling : VTCurves α) (corner : Int) (e : Edges)
    (tnow : Int) : α :=
  let k := mostRecentlyArrived e (rising.GetPropagationDelay corner)
    (falling.GetPropagationDelay corner) tnow
  if e.edgeDirections.getD k false then
    rising.InterpolateVoltage corner (tnow - e.edgeTimestamps.getD k 0)
  else falling.InterpolateVoltage corner (tnow - e.edgeTimestamps.getD k 0)

/-- A curve set with the given fixture and delay whose voltage at relative time `t` is
`level + slope * t`. -/
def lineCurves (r v : ℚ) (delay : Int) (level slope : ℚ) : VTCurves ℚ :=
  { m_fixtureResistance := r, m_fixtureVoltage := v, GetPropagationDelay := fun _ => delay,
    InterpolateVoltage := fun _ t => level + slope * (t : ℚ) }

/-- A filter after `ClearSweeps` with the given model selected, termination 0, corner 1
and the given sample rate. -/
def membersOf (model : IBISModel ℚ) (rate : Int) : Members ℚ :=
  ClearSweeps
    { m_model := some model, m_parser_models := [], sampleRate := rate, termination := 0,
      corner := 1, modelNames := FilterParameter.EnumMaps.empty,
      termNames := FilterParameter.EnumMaps.empty, m_vmax := 0, m_vmin := 0, m_range := 0,
      m_offset := 0, data := none }

/-- A push-pull model with one termination: the rising curve starts at 3000 and the
falling curve at 0, both without delay. -/
def pushPull : IBISModel ℚ :=
  { m_type := ModelType.TYPE_OUTPUT
    m_rising := [lineCurves 50 0 0 3000 1]
    m_falling := [lineCurves 50 0 0 0 (-1)] }

/-- Sampled data with transitions at 100 (rising), 130 (falling) and 160 (rising), lasting
until 300. -/
def burstInput : SampledInput :=
  { din := HyperRAMDecoder.digital [0, 100, 130, 160] [false, true, false, true]
    samples :=
      { m_timescale := 1, m_startTimestamp := 0, m_startFemtoseconds := 0, m_triggerPhase := 0,
        m_densePacked := false, m_offsets := [0, 100, 130, 160],
        m_durations := [100, 30, 30, 140], m_samples := [false, true, false, true] } }

/-- What a run of the refresh shows from outside: a fault, the null output, or the
samples of the published waveform. -/
inductive Outcome (α : Type) where
  | fault (f : Fault)
  | null
  | samples (l : List α)
deriving DecidableEq

/-- The outcome of a run of the refresh. -/
def emitted {α : Type} : Except Fault (Members α) → Outcome α
  | Except.error f => Outcome.fault f
  | Except.ok m =>
    match m.data with
    | none => Outcome.null
    | some w => Outcome.samples w.m_samples

/-- The tracked maximum and minimum after a run of the refresh that ends without a fault. -/
def extremes {α : Type} : Except Fault (Members α) → Option (α × α)
  | Except.error _ => none
  | Except.ok m => some (m.m_vmax, m.m_vmin)

/-- What `SampleOnAnyEdges` leaves when the clock has no edge: no sample at all. -/
def noEdgeInput : SampledInput :=
  { din := HyperRAMDecoder.digital [0, 100] [false, true], samples := Waveform.new }

/-- Sampled data that stays low: two samples, no transition. -/
def steadyInput : SampledInput :=
  { din := HyperRAMDecoder.digital [0, 100] [false, false]
    samples := HyperRAMDecoder.digital [0, 100] [false, false] }

/-- A model whose curves stay below zero: the rising curve is at -1, the falling curve
at -2. -/
def negativeRail : IBISModel ℚ :=
  { m_type := ModelType.TYPE_OUTPUT
    m_rising := [lineCurves 50 0 0 (-1) 0]
    m_falling := [lineCurves 50 0 0 (-2) 0] }

/-- The rising curve set of `mixedFixtures`: 50 ohm to 3.3 V. -/
def risingSet : VTCurves ℚ := lineCurves 50 (33 / 10) 0 3000 1

/-- A falling curve set with another fixture, 0 ohm to 0 V, whose voltage is 7. -/
def farFalling : VTCurves ℚ := lineCurves 0 0 0 7 0

/-- The falling curve set with the fixture of `risingSet`. -/
def nearFalling : VTCurves ℚ := lineCurves 50 (33 / 10) 0 0 (-1)

/-- A model whose falling sets are not in the order of the rising sets: the falling set
with the fixture of the rising set comes second. -/
def mixedFixtures : IBISModel ℚ :=
  { m_type := ModelType.TYPE_OUTPUT
    m_rising := [risingSet]
    m_falling := [farFalling, nearFalling] }

end IBISDriverFilter

/-! ## The order of the offsets -/

/-- The offsets are non-decreasing: every offset is at most every later one. -/
def NonDecreasing (l : List Int) : Prop := l.Pairwise (fun a b => a ≤ b)

/-- The ordering invariant of an input: non-negative, non-decreasing offsets. -/
def OrderedOffsets {α : Type} (w : Waveform α) : Prop :=
  (∀ t, t ∈ w.m_offsets → 0 ≤ t) ∧ NonDecreasing w.m_offsets

/-- A waveform of six samples that is not dense-packed: offsets 0, 10, ..., 50. -/
def sparseSix : Waveform Int :=
  { m_timescale := 1, m_startTimestamp := 0, m_startFemtoseconds := 0, m_triggerPhase := 0,
    m_densePacked := false, m_offsets := [0, 10, 20, 30, 40, 50],
    m_durations := [10, 10, 10, 10, 10, 10], m_samples := [1, 2, 3, 4, 5, 6] }

/-- Three refreshes of one `DownsampleFilter` with factor 2: without anti-aliasing on a
dense input of six samples, with anti-aliasing on `sparseSix`, and without anti-aliasing
on a dense input of ten samples. -/
def threeRefreshes : Option (Waveform Int) :=
  DownsampleFilter.Refresh unitKernel (some (denseInput [0, 1, 2, 3, 4, 5, 6, 7, 8, 9])) 2 false
    (DownsampleFilter.Refresh unitKernel (some sparseSix) 2 true
      (DownsampleFilter.Refresh unitKernel (some (denseInput [0, 1, 2, 3, 4, 5])) 2 false none))

/-! ## The numeric filters with the faults of the source -/

/-- The ways in which a run of `DownsampleFilter::Refresh` or of
`MovingAverageFilter::Refresh` leaves its normal path:

* `divisionByZero`: an integer division by zero (`len / factor`, DownsampleFilter.cpp
  line 118, raises SIGFPE);
* `floatToInt`: the conversion to `int` of a `float` outside the range of `int`
  (`int kernel_radius = ceil(3*sigma)`, line 129), which is undefined;
* `lengthError`: `std::vector::resize` with a size beyond `max_size()` (line 134, where
  a negative `int` is converted to `size_t`), which throws `std::length_error`;
* `outOfBounds`: an access outside a vector. -/
inductive RunFault where
  | divisionByZero
  | floatToInt
  | lengthError
  | outOfBounds
deriving DecidableEq

/-- Two's complement reduction to `int64_t`: the value of an `int64_t` product. -/
def wrapInt64 (x : Int) : Int := (x + 2 ^ 63) % 2 ^ 64 - 2 ^ 63

/-- The read `v[i]` with a `size_t` index. -/
def readAt {β : Type} (v : List β) (i : Nat) : Except RunFault β :=
  match v[i]? with
  | some x => Except.ok x
  | none => Except.error RunFault.outOfBounds

/-- The store `v[i] = x` with a `size_t` index. -/
def storeAt {β : Type} (v : List β) (i : Nat) (x : β) : Except RunFault (List β) :=
  if i < v.length then Except.ok (v.set i x) else Except.error RunFault.outOfBounds

/-- The read `v[i]` with a signed index (`int` or `ssize_t`): `operator[]` converts the
index to `size_t`, so a negative index is beyond every vector. -/
def readAtSigned {β : Type} (v : List β) (i : Int) : Except RunFault β :=
  if i < 0 then Except.error RunFault.outOfBounds else readAt v i.toNat

/-- A loop body run over a list of indices; the first fault ends the run. -/
def runOver {σ : Type} (body : Nat → σ → Except RunFault σ) : List Nat → σ → Except RunFault σ
  | [], s => Except.ok s
  | i :: is, s =>
    match body i s with
    | Except.ok t => runOver body is t
    | Except.error e => Except.error e

/-- The loop `for(size_t i = lo; i < hi; i++) s = body(i, s)` with a body that can fault. -/
def forLoopM {σ : Type} (lo hi : Nat) (body : Nat → σ → Except RunFault σ) (s : σ) :
    Except RunFault σ :=
  runOver body (List.range' lo (hi - lo)) s

/-- One iteration of the loop of lines 136-140: `int delta = x - kernel_radius;
kernel[x] = alpha * exp(-delta*delta/(2*sigma))`. The difference, the negation and the
product are formed in `int` (two's complement, 32 bits). -/
def DownsampleFilter.tapStore {α : Type} [DivisionRing α] (fn : MathFns α) (sigma alpha : α)
    (kernel_radius : Int) (x : Nat) (kernel : List α) : Except RunFault (List α) :=
  let delta : Int := toInt32 ((x : Int) - kernel_radius)
  storeAt kernel x
    (alpha * fn.exp (((toInt32 (toInt32 (-delta) * delta) : Int) : α) / (2 * sigma)))

/-- One iteration of the loop of lines 144-145: `kernel[i] /= sum`. -/
def DownsampleFilter.tapNormalise {α : Type} [DivisionRing α] (sum : α) (i : Nat)
    (kernel : List α) : Except RunFault (List α) :=
  match readAt kernel i with
  | Except.error e => Except.error e
  | Except.ok v => storeAt kernel i (v / sum)

/-- The construction of the kernel (DownsampleFilter.cpp, 127-145) with the 32-bit `int`
variables of the source.

* Line 129 converts `ceil(3*sigma)` to `int`; a value outside the range of `int` is the
  fault `floatToInt`.
* Line 132 forms `kernel_size = kernel_radius*2 + 1` in `int`: from a radius of `2^30` on
  the value wraps to a negative number.
* Line 134 converts `kernel_size` to `size_t` for `kernel.resize`: a negative size becomes
  a size of at least `2^64 - 2^31` elements and `resize` throws (`lengthError`). -/
def DownsampleFilter.buildKernel {α : Type} [DivisionRing α] (fn : MathFns α) (factor : Int) :
    Except RunFault (Kernel α) :=
  let sigma : α := DownsampleFilter.sigma fn factor
  let c : Int := fn.ceil (3 * sigma)
  if c < -2 ^ 31 ∨ 2 ^ 31 ≤ c then Except.error RunFault.floatToInt
  else
    let kernel_radius : Int := c
    let kernel_size : Int := toInt32 (kernel_radius * 2 + 1)
    if kernel_size < 0 then Except.error RunFault.lengthError
    else
      let kernel : List α := resizeVec 0 kernel_size.toNat []
      let alpha : α := 1 / (sigma * fn.sqrt (2 * fn.pi))
      match forLoopM 0 kernel_size.toNat
          (DownsampleFilter.tapStore fn sigma alpha kernel_radius) kernel with
      | Except.error e => Except.error e
      | Except.ok kernel =>
        let sum : α := kernel.foldl (fun sum k => sum + k) 0
        match forLoopM 0 kernel_size.toNat (DownsampleFilter.tapNormalise sum) kernel with
        | Except.error e => Except.error e
        | Except.ok kernel => Except.ok { kernel_radius := kernel_radius, kernel := kernel }

/-- The inner loop of the anti-aliasing path (DownsampleFilter.cpp, 156-165) with its reads
checked: `for(ssize_t delta = -kernel_radius; delta <= kernel_radius; delta++)`, where
`-kernel_radius` is formed in `int`; iteration `n` has `delta = -kernel_radius + n`. -/
def DownsampleFilter.convolveChecked {α : Type} [Zero α] [Add α] [Mul α] (samples : List α)
    (len : Nat) (k : Kernel α) (base : Int) : Except RunFault α :=
  let first : Int := toInt32 (-k.kernel_radius)
  forLoopM 0 (k.kernel_radius - first + 1).toNat (fun n conv =>
    let delta : Int := first + (n : Int)
    let pos : Int := base + delta
    if pos < 0 ∨ pos ≥ (len : Int) then Except.ok conv
    else
      match readAtSigned samples pos with
      | Except.error e => Except.error e
      | Except.ok s =>
        match readAtSigned k.kernel (delta + k.kernel_radius) with
        | Except.error e => Except.error e
        | Except.ok t => Except.ok (conv + s * t)) 0

/-- The two stores of lines 152-153 (and 218-219) with their accesses checked. -/
def copyTimestampChecked {α : Type} (din : Waveform α) (factor : Int) (i : Nat)
    (cap : Waveform α) : Except RunFault (Waveform α) :=
  match readAt din.m_offsets (i * toSizeT factor) with
  | Except.error e => Except.error e
  | Except.ok o =>
    match storeAt cap.m_offsets i (Int.tdiv o factor) with
    | Except.error e => Except.error e
    | Except.ok offsets =>
      match readAt din.m_durations (i * toSizeT factor) with
      | Except.error e => Except.error e
      | Except.ok d =>
        match storeAt cap.m_durations i (Int.tdiv d factor) with
        | Except.error e => Except.error e
        | Except.ok durations =>
          Except.ok { cap with m_offsets := offsets, m_durations := durations }

/-- The two stores of the dense fill loops (lines 188-189, 198-199), checked. -/
def fillDenseChecked {α : Type} (i : Nat) (cap : Waveform α) : Except RunFault (Waveform α) :=
  match storeAt cap.m_offsets i (i : Int) with
  | Except.error e => Except.error e
  | Except.ok offsets =>
    match storeAt cap.m_durations i 1 with
    | Except.error e => Except.error e
    | Except.ok durations =>
      Except.ok { cap with m_offsets := offsets, m_durations := durations }

/-- The store `cap->m_samples[i] = v`, checked. -/
def storeSampleChecked {α : Type} (i : Nat) (v : α) (cap : Waveform α) :
    Except RunFault (Waveform α) :=
  match storeAt cap.m_samples i v with
  | Except.error e => Except.error e
  | Except.ok samples => Except.ok { cap with m_samples := samples }

/-- The loop of the anti-aliasing path (DownsampleFilter.cpp, 149-169) on the output
already resized, with every access checked. -/
def DownsampleFilter.antialiasedLoopChecked {α : Type} [Zero α] [Add α] [Mul α]
    (k : Kernel α) (din : Waveform α) (factor : Int) (len outlen : Nat) (cap : Waveform α) :
    Except RunFault (Waveform α) :=
  forLoopM 0 outlen (fun i cap =>
    match copyTimestampChecked din factor i cap with
    | Except.error e => Except.error e
    | Except.ok cap =>
      let base : Int := ((i * toSizeT factor : Nat) : Int)
      match DownsampleFilter.convolveChecked din.m_samples len k base with
      | Except.error e => Except.error e
      | Except.ok conv => storeSampleChecked i conv cap) cap

/-- The path without anti-aliasing (DownsampleFilter.cpp, 175-222) with every access
checked. -/
def DownsampleFilter.plainPathChecked {α : Type} [Zero α] (din : Waveform α) (factor : Int)
    (outlen : Nat) (cap : Waveform α) : Except RunFault (Waveform α) :=
  let oldlen := cap.m_samples.length
  let cap := cap.Resize outlen
  if din.m_densePacked then
    match (if !cap.m_densePacked then
        forLoopM 0 outlen fillDenseChecked { cap with m_densePacked := true }
      else if outlen > oldlen then
        forLoopM oldlen outlen fillDenseChecked cap
      else Except.ok cap) with
    | Except.error e => Except.error e
    | Except.ok cap =>
      forLoopM 0 outlen (fun i cap =>
        match readAt din.m_samples (i * toSizeT factor) with
        | Except.error e => Except.error e
        | Except.ok v => storeSampleChecked i v cap) cap
  else
    forLoopM 0 outlen (fun i cap =>
      match copyTimestampChecked din factor i cap with
      | Except.error e => Except.error e
      | Except.ok cap =>
        match readAt din.m_samples (i * toSizeT factor) with
        | Except.error e => Except.error e
        | Except.ok v => storeSampleChecked i v cap) cap

/-- The refresh `DownsampleFilter::Refresh` (DownsampleFilter.cpp, 104-229) with the faults
of the source: the result is the output published, or the fault that ends the run.

* `fn` are the C math functions the kernel construction calls.
* Line 118 divides by the factor converted to `size_t`: a factor of 0 is the fault
  `divisionByZero`.
* With anti-aliasing the output is resized (line 124) and the kernel is built
  (`buildKernel`, lines 127-145) before the loop of lines 149-169 runs; a kernel that
  cannot be built ends the run.
* Every read and store of a vector is checked.
* Line 226 forms `din->m_timescale * factor` in `int64_t` (`wrapInt64`). -/
def DownsampleFilter.RefreshChecked {α : Type} [DivisionRing α] (fn : MathFns α)
    (input : Option (Waveform α)) (factor : Int) (aa : Bool) (data : Option (Waveform α)) :
    Except RunFault (Option (Waveform α)) :=
  match input with
  | none => Except.ok none
  | some din =>
    let len := din.m_samples.length
    if toSizeT factor = 0 then Except.error RunFault.divisionByZero
    else
      let outlen := len / toSizeT factor
      let cap := SetupEmptyOutputWaveform din data false
      match (if aa then
          match DownsampleFilter.buildKernel fn factor with
          | Except.error e => Except.error e
          | Except.ok k =>
            DownsampleFilter.antialiasedLoopChecked k din factor len outlen (cap.Resize outlen)
        else DownsampleFilter.plainPathChecked din factor outlen cap) with
      | Except.error e => Except.error e
      | Except.ok cap =>
        Except.ok (some { cap with
          m_timescale := wrapInt64 (din.m_timescale * factor)
          m_startTimestamp := din.m_startTimestamp
          m_startFemtoseconds := din.m_startFemtoseconds })

/-- The inner loop of the moving average (MovingAverageFilter.cpp, 141-144) with its
reads checked. -/
def windowMeanChecked {α : Type} [DivisionRing α] (samples : List α) (depth i : Nat) :
    Except RunFault α :=
  match forLoopM 0 depth (fun j v =>
      match readAt samples (i + j) with
      | Except.error e => Except.error e
      | Except.ok s => Except.ok (v + s)) 0 with
  | Except.error e => Except.error e
  | Except.ok v => Except.ok (v / (depth : α))

/-- The refresh `MovingAverageFilter::Refresh` (MovingAverageFilter.cpp, 112-150 and
167-170) with every read and store of a vector checked: the published waveform, or the
fault that ends the run. -/
def MovingAverageFilter.RefreshChecked {α : Type} [DivisionRing α]
    (input : Option (Waveform α)) (depthParam : Int) : Except RunFault (Option (Waveform α)) :=
  match input with
  | none => Except.ok none
  | some din =>
    let len := din.m_samples.length
    let depth := toSizeT depthParam
    if len < depth then Except.ok none
    else
      let cap : Waveform α := Waveform.new
      let nsamples := len - depth
      let off := depth / 2
      let cap := cap.Resize nsamples
      match forLoopM 0 nsamples (fun i cap =>
          match windowMeanChecked din.m_samples depth i with
          | Except.error e => Except.error e
          | Except.ok v =>
            match readAt din.m_offsets (i + off) with
            | Except.error e => Except.error e
            | Except.ok o =>
              match storeAt cap.m_offsets i o with
              | Except.error e => Except.error e
              | Except.ok offsets =>
                match readAt din.m_durations (i + off) with
                | Except.error e => Except.error e
                | Except.ok d =>
                  match storeAt cap.m_durations i d with
                  | Except.error e => Except.error e
                  | Except.ok durations =>
                    match storeAt cap.m_samples i v with
                    | Except.error e => Except.error e
                    | Except.ok samples =>
                      Except.ok { cap with
                        m_offsets := offsets, m_durations := durations, m_samples := samples })
          cap with
      | Except.error e => Except.error e
      | Except.ok cap =>
        Except.ok (some { cap with
          m_timescale := din.m_timescale
          m_startTimestamp := din.m_startTimestamp
          m_startFemtoseconds := din.m_startFemtoseconds })

/-- The three sequences of the output have `n` elements. -/
def Waveform.Sized {α : Type} (n : Nat) (w : Waveform α) : Prop :=
  w.m_offsets.length = n ∧ w.m_durations.length = n ∧ w.m_samples.length = n

/-- A waveform of four samples that is not dense-packed: offsets 0,3,6,9 and durations
1,2,3,1. -/
def sparseFour {α : Type} (a b c d : α) : Waveform α :=
  { m_timescale := 5, m_startTimestamp := 7, m_startFemtoseconds := 11, m_triggerPhase := 0,
    m_densePacked := false, m_offsets := [0, 3, 6, 9], m_durations := [1, 2, 3, 1],
    m_samples := [a, b, c, d] }

/-- Math functions over the rationals used to run the refresh on concrete inputs: the
radius is 1 for every factor. -/
def unitMath : MathFns ℚ :=
  { sqrt := fun x => x, log := fun x => x, exp := fun _ => 1, ceil := fun _ => 1, pi := 3 }

/-- The fault that ended a run, if any. -/
def faultOf {ε β : Type} : Except ε β → Option ε
  | Except.error e => some e
  | Except.ok _ => none

/-! # Theorems -/

/-! ## Loops and stores -/

theorem toSizeT_natCast (n : Nat) (h : n < 2 ^ 63) : toSizeT (n : Int) = n := by
  unfold toSizeT
  have h2 : ((n : Int)) % 2 ^ 64 = n := by
    apply Int.emod_eq_of_lt
    · exact Int.natCast_nonneg n
    · have : n < 2 ^ 64 := by omega
      exact_mod_cast this
  rw [h2]
  exact Int.toNat_natCast n

theorem resizeVec_length {β : Type} (d : β) (n : Nat) (l : List β) :
    (resizeVec d n l).length = n := by
  unfold resizeVec
  simp only [List.length_append, List.length_take, List.length_replicate]
  omega

theorem forLoop_proj {σ τ : Type} (p : σ → τ) (body : Nat → σ → σ) (g : Nat → τ → τ)
    (h : ∀ i s, p (body i s) = g i (p s)) (lo hi : Nat) (s : σ) :
    p (forLoop lo hi body s) = forLoop lo hi g (p s) := by
  unfold forLoop
  generalize List.range' lo (hi - lo) = is
  induction is generalizing s with
  | nil => rfl
  | cons i is ih => simp only [List.foldl_cons]; rw [ih, h]

theorem forLoop_const {σ : Type} (lo hi : Nat) (s : σ) :
    forLoop lo hi (fun _ t => t) s = s := by
  unfold forLoop
  generalize List.range' lo (hi - lo) = is
  induction is generalizing s with
  | nil => rfl
  | cons i is ih => simp only [List.foldl_cons]; exact ih s

theorem forLoop_set_length {β : Type} (f : Nat → β) (lo hi : Nat) (l : List β) :
    (forLoop lo hi (fun i l => l.set i (f i)) l).length = l.length := by
  unfold forLoop
  generalize List.range' lo (hi - lo) = is
  induction is generalizing l with
  | nil => rfl
  | cons i is ih => simp only [List.foldl_cons]; rw [ih, List.length_set]

theorem foldl_set_range' {β : Type} (f : Nat → β) (n lo : Nat) (l : List β) (j : Nat) :
    ((List.range' lo n).foldl (fun l i => l.set i (f i)) l)[j]? =
      if lo ≤ j ∧ j < lo + n then (if j < l.length then some (f j) else none) else l[j]? := by
  induction n generalizing lo l with
  | zero =>
    have : ¬ (lo ≤ j ∧ j < lo) := by omega
    simp [this]
  | succ n ih =>
    rw [List.range'_succ, List.foldl_cons, ih, List.length_set, List.getElem?_set]
    by_cases h1 : lo = j
    · subst h1
      have c1 : ¬ (lo + 1 ≤ lo ∧ lo < lo + 1 + n) := by omega
      have c2 : lo ≤ lo ∧ lo < lo + (n + 1) := by omega
      simp [c1, c2]
    · by_cases h2 : lo + 1 ≤ j ∧ j < lo + 1 + n
      · have c2 : lo ≤ j ∧ j < lo + (n + 1) := by omega
        simp [h2, c2]
      · have c2 : ¬ (lo ≤ j ∧ j < lo + (n + 1)) := by omega
        simp [h1, h2, c2]

theorem forLoop_set_getElem? {β : Type} (f : Nat → β) (lo hi : Nat) (l : List β) (j : Nat) :
    (forLoop lo hi (fun i l => l.set i (f i)) l)[j]? =
      if lo ≤ j ∧ j < hi then (if j < l.length then some (f j) else none) else l[j]? := by
  unfold forLoop
  rw [foldl_set_range']
  by_cases h : lo ≤ j ∧ j < hi
  · have : lo ≤ j ∧ j < lo + (hi - lo) := by omega
    simp [h, this]
  · have : ¬ (lo ≤ j ∧ j < lo + (hi - lo)) := by omega
    simp [h, this]

/-- A loop that stores `f i` at every index below `n` of an array of length `n`. -/
theorem forLoop_set_full {β : Type} (f : Nat → β) (n : Nat) (l : List β) (hl : l.length = n)
    (j : Nat) (hj : j < n) :
    (forLoop 0 n (fun i l => l.set i (f i)) l)[j]? = some (f j) := by
  rw [forLoop_set_getElem?]
  have : 0 ≤ j ∧ j < n := by omega
  simp [this, hl, hj]

theorem forLoop_keep {σ τ : Type} (p : σ → τ) (body : Nat → σ → σ)
    (h : ∀ i s, p (body i s) = p s) (lo hi : Nat) (s : σ) :
    p (forLoop lo hi body s) = p s :=
  (forLoop_proj p body (fun _ t => t) h lo hi s).trans (forLoop_const lo hi _)

/-! ## DownsampleFilter: the loops field by field -/

theorem stampLoop_offsets {α : Type} (din : Waveform α) (factor : Int) (v : Nat → α)
    (lo hi : Nat) (cap : Waveform α) :
    (forLoop lo hi (fun i cap => storeSample i (v i) (copyTimestamp din factor i cap)) cap).m_offsets
      = forLoop lo hi (fun i l =>
          l.set i (Int.tdiv (din.m_offsets.getD (i * toSizeT factor) 0) factor)) cap.m_offsets := by
  apply forLoop_proj (fun w : Waveform α => w.m_offsets)
  intro i s; rfl

theorem stampLoop_durations {α : Type} (din : Waveform α) (factor : Int) (v : Nat → α)
    (lo hi : Nat) (cap : Waveform α) :
    (forLoop lo hi (fun i cap =>
        storeSample i (v i) (copyTimestamp din factor i cap)) cap).m_durations
      = forLoop lo hi (fun i l =>
          l.set i (Int.tdiv (din.m_durations.getD (i * toSizeT factor) 0) factor))
          cap.m_durations := by
  apply forLoop_proj (fun w : Waveform α => w.m_durations)
  intro i s; rfl

theorem stampLoop_samples {α : Type} (din : Waveform α) (factor : Int) (v : Nat → α)
    (lo hi : Nat) (cap : Waveform α) :
    (forLoop lo hi (fun i cap => storeSample i (v i) (copyTimestamp din factor i cap)) cap).m_samples
      = forLoop lo hi (fun i l => l.set i (v i)) cap.m_samples := by
  apply forLoop_proj (fun w : Waveform α => w.m_samples)
  intro i s; rfl

theorem stampLoop_densePacked {α : Type} (din : Waveform α) (factor : Int) (v : Nat → α)
    (lo hi : Nat) (cap : Waveform α) :
    (forLoop lo hi (fun i cap =>
        storeSample i (v i) (copyTimestamp din factor i cap)) cap).m_densePacked
      = cap.m_densePacked := by
  apply forLoop_keep (fun w : Waveform α => w.m_densePacked)
  intro i s; rfl

theorem storeLoop_samples {α : Type} (v : Nat → α) (lo hi : Nat) (cap : Waveform α) :
    (forLoop lo hi (fun i cap => storeSample i (v i) cap) cap).m_samples
      = forLoop lo hi (fun i l => l.set i (v i)) cap.m_samples := by
  apply forLoop_proj (fun w : Waveform α => w.m_samples)
  intro i s; rfl

theorem storeLoop_offsets {α : Type} (v : Nat → α) (lo hi : Nat) (cap : Waveform α) :
    (forLoop lo hi (fun i cap => storeSample i (v i) cap) cap).m_offsets = cap.m_offsets := by
  apply forLoop_keep (fun w : Waveform α => w.m_offsets)
  intro i s; rfl

theorem storeLoop_durations {α : Type} (v : Nat → α) (lo hi : Nat) (cap : Waveform α) :
    (forLoop lo hi (fun i cap => storeSample i (v i) cap) cap).m_durations = cap.m_durations := by
  apply forLoop_keep (fun w : Waveform α => w.m_durations)
  intro i s; rfl

theorem storeLoop_densePacked {α : Type} (v : Nat → α) (lo hi : Nat) (cap : Waveform α) :
    (forLoop lo hi (fun i cap => storeSample i (v i) cap) cap).m_densePacked
      = cap.m_densePacked := by
  apply forLoop_keep (fun w : Waveform α => w.m_densePacked)
  intro i s; rfl

theorem fillLoop_offsets {α : Type} (lo hi : Nat) (cap : Waveform α) :
    (forLoop lo hi fillDense cap).m_offsets
      = forLoop lo hi (fun i l => l.set i (i : Int)) cap.m_offsets := by
  apply forLoop_proj (fun w : Waveform α => w.m_offsets)
  intro i s; rfl

theorem fillLoop_durations {α : Type} (lo hi : Nat) (cap : Waveform α) :
    (forLoop lo hi fillDense cap).m_durations
      = forLoop lo hi (fun i l => l.set i (1 : Int)) cap.m_durations := by
  apply forLoop_proj (fun w : Waveform α => w.m_durations)
  intro i s; rfl

theorem fillLoop_samples {α : Type} (lo hi : Nat) (cap : Waveform α) :
    (forLoop lo hi fillDense cap).m_samples = cap.m_samples := by
  apply forLoop_keep (fun w : Waveform α => w.m_samples)
  intro i s; rfl

theorem fillLoop_densePacked {α : Type} (lo hi : Nat) (cap : Waveform α) :
    (forLoop lo hi fillDense cap).m_densePacked = cap.m_densePacked := by
  apply forLoop_keep (fun w : Waveform α => w.m_densePacked)
  intro i s; rfl

/-! ## DownsampleFilter: the two paths field by field -/

theorem antialiasedPath_offsets {α : Type} [Zero α] [Add α] [Mul α]
    (k : Kernel α) (din : Waveform α) (factor : Int)
    (len outlen : Nat) (cap : Waveform α) :
    (DownsampleFilter.antialiasedPath k din factor len outlen cap).m_offsets
      = forLoop 0 outlen (fun i l =>
          l.set i (Int.tdiv (din.m_offsets.getD (i * toSizeT factor) 0) factor))
          (resizeVec 0 outlen cap.m_offsets) :=
  stampLoop_offsets din factor _ 0 outlen (cap.Resize outlen)

theorem antialiasedPath_durations {α : Type} [Zero α] [Add α] [Mul α]
    (k : Kernel α) (din : Waveform α) (factor : Int)
    (len outlen : Nat) (cap : Waveform α) :
    (DownsampleFilter.antialiasedPath k din factor len outlen cap).m_durations
      = forLoop 0 outlen (fun i l =>
          l.set i (Int.tdiv (din.m_durations.getD (i * toSizeT factor) 0) factor))
          (resizeVec 0 outlen cap.m_durations) :=
  stampLoop_durations din factor _ 0 outlen (cap.Resize outlen)

theorem antialiasedPath_samples {α : Type} [Zero α] [Add α] [Mul α]
    (k : Kernel α) (din : Waveform α) (factor : Int)
    (len outlen : Nat) (cap : Waveform α) :
    (DownsampleFilter.antialiasedPath k din factor len outlen cap).m_samples
      = forLoop 0 outlen (fun i l =>
          l.set i (convolve din.m_samples len k ((i * toSizeT factor : Nat) : Int)))
          (resizeVec 0 outlen cap.m_samples) :=
  stampLoop_samples din factor _ 0 outlen (cap.Resize outlen)

theorem antialiasedPath_densePacked {α : Type} [Zero α] [Add α] [Mul α]
    (k : Kernel α) (din : Waveform α) (factor : Int)
    (len outlen : Nat) (cap : Waveform α) :
    (DownsampleFilter.antialiasedPath k din factor len outlen cap).m_densePacked
      = cap.m_densePacked :=
  stampLoop_densePacked din factor _ 0 outlen (cap.Resize outlen)

theorem plainPath_sparse_offsets {α : Type} [Zero α]
    (din : Waveform α) (factor : Int) (outlen : Nat)
    (cap : Waveform α) (hd : din.m_densePacked = false) :
    (DownsampleFilter.plainPath din factor outlen cap).m_offsets
      = forLoop 0 outlen (fun i l =>
          l.set i (Int.tdiv (din.m_offsets.getD (i * toSizeT factor) 0) factor))
          (resizeVec 0 outlen cap.m_offsets) := by
  unfold DownsampleFilter.plainPath
  simp only [hd]
  exact stampLoop_offsets din factor _ 0 outlen (cap.Resize outlen)

theorem plainPath_sparse_durations {α : Type} [Zero α]
    (din : Waveform α) (factor : Int) (outlen : Nat)
    (cap : Waveform α) (hd : din.m_densePacked = false) :
    (DownsampleFilter.plainPath din factor outlen cap).m_durations
      = forLoop 0 outlen (fun i l =>
          l.set i (Int.tdiv (din.m_durations.getD (i * toSizeT factor) 0) factor))
          (resizeVec 0 outlen cap.m_durations) := by
  unfold DownsampleFilter.plainPath
  simp only [hd]
  exact stampLoop_durations din factor _ 0 outlen (cap.Resize outlen)

/-- On the path without anti-aliasing the samples are the strided input samples, for a
dense-packed input and for any other. -/
theorem plainPath_samples {α : Type} [Zero α]
    (din : Waveform α) (factor : Int) (outlen : Nat) (cap : Waveform α) :
    (DownsampleFilter.plainPath din factor outlen cap).m_samples
      = forLoop 0 outlen (fun i l => l.set i (din.m_samples.getD (i * toSizeT factor) 0))
          (resizeVec 0 outlen cap.m_samples) := by
  unfold DownsampleFilter.plainPath
  cases hd : din.m_densePacked
  · simp only [Bool.false_eq_true, if_false]
    exact stampLoop_samples din factor _ 0 outlen (cap.Resize outlen)
  · simp only [if_true]
    rw [storeLoop_samples]
    split_ifs
    · rw [fillLoop_samples]; rfl
    · rw [fillLoop_samples]; rfl
    · rfl

/-- The timestamps left by the dense branch of the path without anti-aliasing. -/
theorem plainPath_dense_offsets {α : Type} [Zero α]
    (din : Waveform α) (factor : Int) (outlen : Nat)
    (cap : Waveform α) (hd : din.m_densePacked = true) :
    (DownsampleFilter.plainPath din factor outlen cap).m_offsets
      = if cap.m_densePacked = false then
          forLoop 0 outlen (fun i l => l.set i (i : Int)) (resizeVec 0 outlen cap.m_offsets)
        else if outlen > cap.m_samples.length then
          forLoop cap.m_samples.length outlen (fun i l => l.set i (i : Int))
            (resizeVec 0 outlen cap.m_offsets)
        else resizeVec 0 outlen cap.m_offsets := by
  unfold DownsampleFilter.plainPath
  simp only [hd, if_true]
  rw [storeLoop_offsets]
  cases hc : cap.m_densePacked
  · simp [Waveform.Resize, hc, fillLoop_offsets]
  · by_cases hlen : outlen > cap.m_samples.length
    · simp [Waveform.Resize, hc, hlen, fillLoop_offsets]
    · simp [Waveform.Resize, hc, hlen]

theorem plainPath_dense_durations {α : Type} [Zero α]
    (din : Waveform α) (factor : Int) (outlen : Nat)
    (cap : Waveform α) (hd : din.m_densePacked = true) :
    (DownsampleFilter.plainPath din factor outlen cap).m_durations
      = if cap.m_densePacked = false then
          forLoop 0 outlen (fun i l => l.set i (1 : Int)) (resizeVec 0 outlen cap.m_durations)
        else if outlen > cap.m_samples.length then
          forLoop cap.m_samples.length outlen (fun i l => l.set i (1 : Int))
            (resizeVec 0 outlen cap.m_durations)
        else resizeVec 0 outlen cap.m_durations := by
  unfold DownsampleFilter.plainPath
  simp only [hd, if_true]
  rw [storeLoop_durations]
  cases hc : cap.m_densePacked
  · simp [Waveform.Resize, hc, fillLoop_durations]
  · by_cases hlen : outlen > cap.m_samples.length
    · simp [Waveform.Resize, hc, hlen, fillLoop_durations]
    · simp [Waveform.Resize, hc, hlen]

theorem plainPath_dense_densePacked {α : Type} [Zero α]
    (din : Waveform α) (factor : Int) (outlen : Nat)
    (cap : Waveform α) (hd : din.m_densePacked = true) :
    (DownsampleFilter.plainPath din factor outlen cap).m_densePacked = true := by
  unfold DownsampleFilter.plainPath
  simp only [hd, if_true]
  rw [storeLoop_densePacked]
  cases hc : cap.m_densePacked
  · simp [Waveform.Resize, hc, fillLoop_densePacked]
  · by_cases hlen : outlen > cap.m_samples.length
    · simp [Waveform.Resize, hc, hlen, fillLoop_densePacked]
    · simp [Waveform.Resize, hc, hlen]

/-- Every path leaves the three sequences with `outlen` elements. -/
theorem paths_lengths {α : Type} [Zero α] [Add α] [Mul α]
    (k : Kernel α) (din : Waveform α) (factor : Int) (len outlen : Nat)
    (cap : Waveform α) (aa : Bool) :
    let out := if aa then DownsampleFilter.antialiasedPath k din factor len outlen cap
      else DownsampleFilter.plainPath din factor outlen cap
    out.m_samples.length = outlen ∧ out.m_offsets.length = outlen ∧
      out.m_durations.length = outlen := by
  cases aa
  · simp only [Bool.false_eq_true, if_false]
    refine ⟨?_, ?_, ?_⟩
    · rw [plainPath_samples, forLoop_set_length, resizeVec_length]
    · cases hd : din.m_densePacked
      · rw [plainPath_sparse_offsets _ _ _ _ hd, forLoop_set_length, resizeVec_length]
      · rw [plainPath_dense_offsets _ _ _ _ hd]
        split_ifs <;> simp [forLoop_set_length, resizeVec_length]
    · cases hd : din.m_densePacked
      · rw [plainPath_sparse_durations _ _ _ _ hd, forLoop_set_length, resizeVec_length]
      · rw [plainPath_dense_durations _ _ _ _ hd]
        split_ifs <;> simp [forLoop_set_length, resizeVec_length]
  · simp only [if_true]
    refine ⟨?_, ?_, ?_⟩
    · rw [antialiasedPath_samples, forLoop_set_length, resizeVec_length]
    · rw [antialiasedPath_offsets, forLoop_set_length, resizeVec_length]
    · rw [antialiasedPath_durations, forLoop_set_length, resizeVec_length]

/-! ## DownsampleFilter: the refresh as a whole -/

/-- The refresh of a valid input publishes the waveform left by the path taken, with
the time base of lines 225-228. -/
theorem downsample_refresh_eq {α : Type} [Zero α] [Add α] [Mul α]
    (mkKernel : Int → Kernel α) (din : Waveform α) (factor : Int) (aa : Bool)
    (data : Option (Waveform α)) :
    DownsampleFilter.Refresh mkKernel (some din) factor aa data =
      some { (if aa then DownsampleFilter.antialiasedPath (mkKernel factor) din factor
                din.m_samples.length (din.m_samples.length / toSizeT factor)
                (SetupEmptyOutputWaveform din data false)
              else DownsampleFilter.plainPath din factor (din.m_samples.length / toSizeT factor)
                (SetupEmptyOutputWaveform din data false)) with
        m_timescale := din.m_timescale * factor
        m_startTimestamp := din.m_startTimestamp
        m_startFemtoseconds := din.m_startFemtoseconds } := rfl

theorem strided_index_lt (L F i : Nat) (hi : i < L / F) : i * F < L := by
  have hF : 0 < F := by
    rcases Nat.eq_zero_or_pos F with h | h
    · subst h; simp at hi
    · exact h
  have h1 : (i + 1) * F ≤ L := (Nat.le_div_iff_mul_le hF).mp hi
  have h2 : i * F + F = (i + 1) * F := by ring
  omega

/-- On its normal path the refresh leaves the three sequences with floor(L/F) elements,
for every kernel, with anti-aliasing and without it, whatever the reused output was. -/
theorem refresh_lengths {α : Type} [Zero α] [Add α] [Mul α]
    (mkKernel : Int → Kernel α) (din : Waveform α) (F : Nat) (hmax : F < 2 ^ 63)
    (aa : Bool) (data : Option (Waveform α)) :
    ∃ out, DownsampleFilter.Refresh mkKernel (some din) (F : Int) aa data = some out ∧
      out.m_samples.length = din.m_samples.length / F ∧
      out.m_offsets.length = din.m_samples.length / F ∧
      out.m_durations.length = din.m_samples.length / F := by
  refine ⟨_, downsample_refresh_eq mkKernel din F aa data, ?_⟩
  have h := paths_lengths (mkKernel F) din F din.m_samples.length
    (din.m_samples.length / toSizeT F) (SetupEmptyOutputWaveform din data false) aa
  rw [toSizeT_natCast F hmax] at h ⊢
  exact h

/-- C2: with anti-aliasing disabled and a factor F >= 1, output sample i is input sample
i*F for every i < floor(L/F), for a dense-packed input and for any other; factor 2 on
the values 0,1,2,3,4,5 gives 0,2,4. -/
theorem downsample_plain_samples {α : Type} [Zero α] [Add α] [Mul α]
    (mkKernel : Int → Kernel α) (din : Waveform α) (F : Nat) (_hF : 1 ≤ F) (hmax : F < 2 ^ 63)
    (data : Option (Waveform α)) :
    (∃ out, DownsampleFilter.Refresh mkKernel (some din) (F : Int) false data = some out ∧
      ∀ i, i < din.m_samples.length / F →
        i * F < din.m_samples.length ∧ out.m_samples[i]? = din.m_samples[i * F]?) ∧
    (DownsampleFilter.Refresh (fun _ => (⟨1, [0, 1, 0]⟩ : Kernel ℚ))
        (some (denseInput [0, 1, 2, 3, 4, 5])) 2 false none).map (fun w => w.m_samples)
      = some [0, 2, 4] := by
  refine ⟨⟨_, downsample_refresh_eq mkKernel din F false data, ?_⟩, ?_⟩
  · intro i hi
    have hlt := strided_index_lt _ _ _ hi
    refine ⟨hlt, ?_⟩
    show (DownsampleFilter.plainPath din F (din.m_samples.length / toSizeT F)
      (SetupEmptyOutputWaveform din data false)).m_samples[i]? = _
    rw [plainPath_samples, toSizeT_natCast F hmax,
      forLoop_set_full _ _ _ (resizeVec_length _ _ _) i hi, List.getD_eq_getElem?_getD,
      List.getElem?_eq_getElem hlt]
    rfl
  · rfl

/-- Witness of C2: the sample at index 1 of the scenario. -/
theorem downsample_plain_samples_witness :
    (1 ≤ 2 ∧ 2 < 2 ^ 63) ∧
    ((∃ out, DownsampleFilter.Refresh unitKernel (some (denseInput [0, 1, 2, 3, 4, 5]))
        ((2 : Nat) : Int) false none = some out ∧
      ∀ i, i < (denseInput [(0 : Int), 1, 2, 3, 4, 5]).m_samples.length / 2 →
        i * 2 < (denseInput [(0 : Int), 1, 2, 3, 4, 5]).m_samples.length ∧
        out.m_samples[i]? = (denseInput [(0 : Int), 1, 2, 3, 4, 5]).m_samples[i * 2]?) ∧
    (DownsampleFilter.Refresh (fun _ => (⟨1, [0, 1, 0]⟩ : Kernel ℚ))
        (some (denseInput [0, 1, 2, 3, 4, 5])) 2 false none).map (fun w => w.m_samples)
      = some [0, 2, 4]) :=
  ⟨by decide, downsample_plain_samples unitKernel (denseInput [0, 1, 2, 3, 4, 5]) 2
    (by decide) (by decide) none⟩

/-- C3, the code at a failing run: three refreshes of one filter on the same dense-packed
input of six samples with factor 2, first without anti-aliasing, then with it, then
without it again. The reused output is still flagged dense-packed after the second
refresh, so the third one leaves the durations written by the second: the output is
flagged dense-packed with offsets 0,1,2 and durations 0,0,0, for every kernel. -/
theorem downsample_dense_flag_stale (mkKernel : Int → Kernel Int) :
    (DownsampleFilter.Refresh mkKernel (some (denseInput [0, 1, 2, 3, 4, 5])) 2 false
      (DownsampleFilter.Refresh mkKernel (some (denseInput [0, 1, 2, 3, 4, 5])) 2 true
        (DownsampleFilter.Refresh mkKernel (some (denseInput [0, 1, 2, 3, 4, 5])) 2 false
          none))).map (fun w => (w.m_densePacked, w.m_offsets, w.m_durations))
      = some (true, [0, 1, 2], [0, 0, 0]) := by
  rfl

/-- On its normal path, with anti-aliasing, and without it when the input is not
dense-packed, the refresh stores at index i the input offset and duration at index i*F
divided by F with truncating integer division, for every i < floor(L/F) and every kernel. -/
theorem refresh_timestamps {α : Type} [Zero α] [Add α] [Mul α]
    (mkKernel : Int → Kernel α) (din : Waveform α) (hwf : din.WellFormed) (F : Nat)
    (hmax : F < 2 ^ 63) (aa : Bool) (data : Option (Waveform α))
    (hpath : aa = true ∨ din.m_densePacked = false) (i : Nat)
    (hi : i < din.m_samples.length / F) :
    ∃ out a d, DownsampleFilter.Refresh mkKernel (some din) (F : Int) aa data = some out ∧
      din.m_offsets[i * F]? = some a ∧ din.m_durations[i * F]? = some d ∧
      out.m_offsets[i]? = some (Int.tdiv a F) ∧ out.m_durations[i]? = some (Int.tdiv d F) ∧
      (2 ≤ F → d = 1 → out.m_durations[i]? = some 0) := by
  have hlt := strided_index_lt _ _ _ hi
  have ho : i * F < din.m_offsets.length := by rw [hwf.1]; exact hlt
  have hd : i * F < din.m_durations.length := by rw [hwf.2]; exact hlt
  have hoff : (DownsampleFilter.Refresh mkKernel (some din) (F : Int) aa data).map
      (fun w => w.m_offsets[i]?) = some (some (Int.tdiv (din.m_offsets[i * F]) F)) := by
    rw [downsample_refresh_eq]
    simp only [Option.map_some']
    rcases hpath with h | h
    · subst h
      simp only [if_true]
      rw [antialiasedPath_offsets, toSizeT_natCast F hmax,
        forLoop_set_full _ _ _ (resizeVec_length _ _ _) i hi, List.getD_eq_getElem?_getD,
        List.getElem?_eq_getElem ho]
      rfl
    · cases aa
      · simp only [Bool.false_eq_true, if_false]
        rw [plainPath_sparse_offsets _ _ _ _ h, toSizeT_natCast F hmax,
          forLoop_set_full _ _ _ (resizeVec_length _ _ _) i hi, List.getD_eq_getElem?_getD,
          List.getElem?_eq_getElem ho]
        rfl
      · simp only [if_true]
        rw [antialiasedPath_offsets, toSizeT_natCast F hmax,
          forLoop_set_full _ _ _ (resizeVec_length _ _ _) i hi, List.getD_eq_getElem?_getD,
          List.getElem?_eq_getElem ho]
        rfl
  have hdur : (DownsampleFilter.Refresh mkKernel (some din) (F : Int) aa data).map
      (fun w => w.m_durations[i]?) = some (some (Int.tdiv (din.m_durations[i * F]) F)) := by
    rw [downsample_refresh_eq]
    simp only [Option.map_some']
    rcases hpath with h | h
    · subst h
      simp only [if_true]
      rw [antialiasedPath_durations, toSizeT_natCast F hmax,
        forLoop_set_full _ _ _ (resizeVec_length _ _ _) i hi, List.getD_eq_getElem?_getD,
        List.getElem?_eq_getElem hd]
      rfl
    · cases aa
      · simp only [Bool.false_eq_true, if_false]
        rw [plainPath_sparse_durations _ _ _ _ h, toSizeT_natCast F hmax,
          forLoop_set_full _ _ _ (resizeVec_length _ _ _) i hi, List.getD_eq_getElem?_getD,
          List.getElem?_eq_getElem hd]
        rfl
      · simp only [if_true]
        rw [antialiasedPath_durations, toSizeT_natCast F hmax,
          forLoop_set_full _ _ _ (resizeVec_length _ _ _) i hi, List.getD_eq_getElem?_getD,
          List.getElem?_eq_getElem hd]
        rfl
  rw [downsample_refresh_eq] at hoff hdur
  simp only [Option.map_some', Option.some.injEq] at hoff hdur
  refine ⟨_, din.m_offsets[i * F], din.m_durations[i * F],
    downsample_refresh_eq mkKernel din F aa data, List.getElem?_eq_getElem ho,
    List.getElem?_eq_getElem hd, hoff, hdur, ?_⟩
  intro h2 h1
  rw [hdur, h1]
  have : Int.tdiv 1 (F : Int) = 0 := by
    apply Int.tdiv_eq_zero_of_lt (by decide)
    exact_mod_cast h2
  rw [this]

/-! ## MovingAverageFilter -/

/-- The refresh of a valid input that is long enough publishes a new waveform whose
sequences are written by one loop over `len - depth` indices. -/
theorem movingAverage_refresh_eq {α : Type} [DivisionRing α] (din : Waveform α)
    (depthParam : Int) (h : toSizeT depthParam ≤ din.m_samples.length) :
    ∃ out, MovingAverageFilter.Refresh (some din) depthParam = some out ∧
      out.m_samples = forLoop 0 (din.m_samples.length - toSizeT depthParam)
        (fun i l => l.set i (windowMean din.m_samples (toSizeT depthParam) i))
        (resizeVec 0 (din.m_samples.length - toSizeT depthParam) []) ∧
      out.m_offsets = forLoop 0 (din.m_samples.length - toSizeT depthParam)
        (fun i l => l.set i (din.m_offsets.getD (i + toSizeT depthParam / 2) 0))
        (resizeVec 0 (din.m_samples.length - toSizeT depthParam) []) ∧
      out.m_durations = forLoop 0 (din.m_samples.length - toSizeT depthParam)
        (fun i l => l.set i (din.m_durations.getD (i + toSizeT depthParam / 2) 0))
        (resizeVec 0 (din.m_samples.length - toSizeT depthParam) []) := by
  have hlt : ¬ din.m_samples.length < toSizeT depthParam := by omega
  unfold MovingAverageFilter.Refresh
  simp only [hlt, if_false]
  refine ⟨_, rfl, ?_, ?_, ?_⟩
  · apply forLoop_proj (fun w : Waveform α => w.m_samples)
    intro i s; rfl
  · apply forLoop_proj (fun w : Waveform α => w.m_offsets)
    intro i s; rfl
  · apply forLoop_proj (fun w : Waveform α => w.m_durations)
    intro i s; rfl

/-- The accumulation loop of the window is the sum of the window. -/
theorem window_fold_eq_sum {α : Type} [DivisionRing α] (samples : List α) (depth i : Nat)
    (h : i + depth ≤ samples.length) :
    forLoop 0 depth (fun j v => v + samples.getD (i + j) 0) 0
      = ((samples.drop i).take depth).sum := by
  have hw : (samples.drop i).take depth
      = (List.range' 0 depth).map (fun j => samples.getD (i + j) 0) := by
    apply List.ext_getElem
    · simp only [List.length_take, List.length_drop, List.length_map, List.length_range']
      omega
    · intro n h1 h2
      simp only [List.length_map, List.length_range'] at h2
      simp only [List.getElem_take, List.getElem_drop, List.getElem_map, List.getElem_range',
        Nat.zero_add, Nat.one_mul]
      rw [List.getD_eq_getElem?_getD, List.getElem?_eq_getElem (by omega)]
      rfl
  rw [hw]
  unfold forLoop
  simp only [Nat.sub_zero]
  generalize List.range' 0 depth = js
  have gen : ∀ (js : List Nat) (a : α),
      js.foldl (fun v j => v + samples.getD (i + j) 0) a
        = a + (js.map (fun j => samples.getD (i + j) 0)).sum := by
    intro js
    induction js with
    | nil => intro a; simp
    | cons j js ih => intro a; simp only [List.foldl_cons, List.map_cons, List.sum_cons]; rw [ih, add_assoc]
  rw [gen, zero_add]

/-- C6: for an input of length L and a depth D, the refresh publishes an output of
exactly L - D samples, offsets and durations when D <= L, and the null output when
D > L. -/
theorem movingAverage_output_length {α : Type} [DivisionRing α] (din : Waveform α) (D : Nat)
    (hmax : D < 2 ^ 63) :
    (D ≤ din.m_samples.length →
      ∃ out, MovingAverageFilter.Refresh (some din) (D : Int) = some out ∧
        out.m_samples.length = din.m_samples.length - D ∧
        out.m_offsets.length = din.m_samples.length - D ∧
        out.m_durations.length = din.m_samples.length - D) ∧
    (din.m_samples.length < D → MovingAverageFilter.Refresh (some din) (D : Int) = none) := by
  constructor
  · intro hle
    have h : toSizeT (D : Int) ≤ din.m_samples.length := by rw [toSizeT_natCast D hmax]; exact hle
    obtain ⟨out, ho, hs, hoff, hdur⟩ := movingAverage_refresh_eq din (D : Int) h
    rw [toSizeT_natCast D hmax] at hs hoff hdur
    refine ⟨out, ho, ?_, ?_, ?_⟩
    · rw [hs, forLoop_set_length, resizeVec_length]
    · rw [hoff, forLoop_set_length, resizeVec_length]
    · rw [hdur, forLoop_set_length, resizeVec_length]
  · intro hlt
    unfold MovingAverageFilter.Refresh
    simp only [toSizeT_natCast D hmax, hlt, if_true]

/-- Witness of C6: five samples with depth 3. -/
theorem movingAverage_output_length_witness :
    (3 < 2 ^ 63) ∧
    ((3 ≤ (denseInput [(1 : ℚ), 2, 3, 4, 5]).m_samples.length →
      ∃ out, MovingAverageFilter.Refresh (some (denseInput [(1 : ℚ), 2, 3, 4, 5]))
          ((3 : Nat) : Int) = some out ∧
        out.m_samples.length = (denseInput [(1 : ℚ), 2, 3, 4, 5]).m_samples.length - 3 ∧
        out.m_offsets.length = (denseInput [(1 : ℚ), 2, 3, 4, 5]).m_samples.length - 3 ∧
        out.m_durations.length = (denseInput [(1 : ℚ), 2, 3, 4, 5]).m_samples.length - 3) ∧
    ((denseInput [(1 : ℚ), 2, 3, 4, 5]).m_samples.length < 3 →
      MovingAverageFilter.Refresh (some (denseInput [(1 : ℚ), 2, 3, 4, 5])) ((3 : Nat) : Int)
        = none)) :=
  ⟨by decide, movingAverage_output_length (denseInput [(1 : ℚ), 2, 3, 4, 5]) 3 (by decide)⟩

/-- C7: for a depth D >= 1 and an input of length L >= D, output sample i (i < L - D) is
the arithmetic mean of the D input samples i, ..., i+D-1, over the rationals; depth 3
over 1,2,3,4,5 gives exactly 2,3. -/
theorem movingAverage_sample_mean (din : Waveform ℚ) (D : Nat) (_hD : 1 ≤ D)
    (hmax : D < 2 ^ 63) (hDL : D ≤ din.m_samples.length) (i : Nat)
    (hi : i < din.m_samples.length - D) :
    (∃ out, MovingAverageFilter.Refresh (some din) (D : Int) = some out ∧
      ((din.m_samples.drop i).take D).length = D ∧
      out.m_samples[i]? = some (((din.m_samples.drop i).take D).sum / (D : ℚ))) ∧
    (MovingAverageFilter.Refresh (some (denseInput [(1 : ℚ), 2, 3, 4, 5])) 3).map
      (fun w => w.m_samples) = some [2, 3] := by
  constructor
  · have h : toSizeT (D : Int) ≤ din.m_samples.length := by rw [toSizeT_natCast D hmax]; exact hDL
    obtain ⟨out, ho, hs, -, -⟩ := movingAverage_refresh_eq din (D : Int) h
    rw [toSizeT_natCast D hmax] at hs
    refine ⟨out, ho, ?_, ?_⟩
    · simp only [List.length_take, List.length_drop]; omega
    · rw [hs, forLoop_set_full _ _ _ (resizeVec_length _ _ _) i hi]
      unfold windowMean
      rw [window_fold_eq_sum _ _ _ (by omega)]
  · have h3 : toSizeT 3 = 3 := by decide
    simp only [MovingAverageFilter.Refresh, h3, denseInput, windowMean, forLoop,
      Waveform.Resize, Waveform.new, resizeVec, List.length_cons, List.length_nil]
    norm_num [List.range', List.getD, List.replicate, List.set]

/-- Witness of C7: the window at index 1 of the scenario. -/
theorem movingAverage_sample_mean_witness :
    (1 ≤ 3 ∧ 3 < 2 ^ 63 ∧ 3 ≤ (denseInput [(1 : ℚ), 2, 3, 4, 5]).m_samples.length ∧
      1 < (denseInput [(1 : ℚ), 2, 3, 4, 5]).m_samples.length - 3) ∧
    ((∃ out, MovingAverageFilter.Refresh (some (denseInput [(1 : ℚ), 2, 3, 4, 5]))
          ((3 : Nat) : Int) = some out ∧
      (((denseInput [(1 : ℚ), 2, 3, 4, 5]).m_samples.drop 1).take 3).length = 3 ∧
      out.m_samples[1]? = some ((((denseInput [(1 : ℚ), 2, 3, 4, 5]).m_samples.drop 1).take 3).sum
        / ((3 : Nat) : ℚ))) ∧
    (MovingAverageFilter.Refresh (some (denseInput [(1 : ℚ), 2, 3, 4, 5])) 3).map
      (fun w => w.m_samples) = some [2, 3]) :=
  ⟨by decide, movingAverage_sample_mean (denseInput [(1 : ℚ), 2, 3, 4, 5]) 3 (by decide)
    (by decide) (by decide) 1 (by decide)⟩

/-- C8: for a depth D <= L and every i < L - D, output offset i and output duration i
are the input offset and duration at index i + D/2 (integer division); with input
offsets 0,1,2,3,4 and depth 3 the output offsets are 1,2. -/
theorem movingAverage_timestamps_centered {α : Type} [DivisionRing α] (din : Waveform α)
    (hwf : din.WellFormed) (D : Nat) (hmax : D < 2 ^ 63) (hDL : D ≤ din.m_samples.length)
    (i : Nat) (hi : i < din.m_samples.length - D) :
    (∃ out, MovingAverageFilter.Refresh (some din) (D : Int) = some out ∧
      i + D / 2 < din.m_samples.length ∧
      out.m_offsets[i]? = din.m_offsets[i + D / 2]? ∧
      out.m_durations[i]? = din.m_durations[i + D / 2]?) ∧
    (MovingAverageFilter.Refresh (some (denseInput [(1 : ℚ), 2, 3, 4, 5])) 3).map
      (fun w => w.m_offsets) = some [1, 2] := by
  constructor
  · have h : toSizeT (D : Int) ≤ din.m_samples.length := by rw [toSizeT_natCast D hmax]; exact hDL
    obtain ⟨out, ho, -, hoff, hdur⟩ := movingAverage_refresh_eq din (D : Int) h
    rw [toSizeT_natCast D hmax] at hoff hdur
    have hlt : i + D / 2 < din.m_samples.length := by
      have : D / 2 ≤ D := Nat.div_le_self D 2
      omega
    refine ⟨out, ho, hlt, ?_, ?_⟩
    · rw [hoff, forLoop_set_full _ _ _ (resizeVec_length _ _ _) i hi, List.getD_eq_getElem?_getD,
        List.getElem?_eq_getElem (by rw [hwf.1]; exact hlt)]
      rfl
    · rw [hdur, forLoop_set_full _ _ _ (resizeVec_length _ _ _) i hi, List.getD_eq_getElem?_getD,
        List.getElem?_eq_getElem (by rw [hwf.2]; exact hlt)]
      rfl
  · rfl

/-- Witness of C8: index 1 of the scenario. -/
theorem movingAverage_timestamps_centered_witness :
    ((denseInput [(1 : ℚ), 2, 3, 4, 5]).WellFormed ∧ 3 < 2 ^ 63 ∧
      3 ≤ (denseInput [(1 : ℚ), 2, 3, 4, 5]).m_samples.length ∧
      1 < (denseInput [(1 : ℚ), 2, 3, 4, 5]).m_samples.length - 3) ∧
    ((∃ out, MovingAverageFilter.Refresh (some (denseInput [(1 : ℚ), 2, 3, 4, 5]))
          ((3 : Nat) : Int) = some out ∧
      1 + 3 / 2 < (denseInput [(1 : ℚ), 2, 3, 4, 5]).m_samples.length ∧
      out.m_offsets[1]? = (denseInput [(1 : ℚ), 2, 3, 4, 5]).m_offsets[1 + 3 / 2]? ∧
      out.m_durations[1]? = (denseInput [(1 : ℚ), 2, 3, 4, 5]).m_durations[1 + 3 / 2]?) ∧
    (MovingAverageFilter.Refresh (some (denseInput [(1 : ℚ), 2, 3, 4, 5])) 3).map
      (fun w => w.m_offsets) = some [1, 2]) :=
  ⟨⟨⟨rfl, rfl⟩, by decide, by decide, by decide⟩,
    movingAverage_timestamps_centered (denseInput [(1 : ℚ), 2, 3, 4, 5]) ⟨rfl, rfl⟩ 3
      (by decide) (by decide) 1 (by decide)⟩

namespace HyperRAMDecoder

/-! ## HyperRAMDecoder: selection of the next event -/

theorem deselect_cursors (l : Locals) :
    (deselect l).timestamp = l.timestamp ∧ (deselect l).ics = l.ics ∧
      (deselect l).iclk = l.iclk ∧ (deselect l).irwds = l.irwds := ⟨rfl, rfl, rfl, rfl⟩

theorem caClock_cursors (latencyParam : Int) (cur_rwds : Bool) (cur_data : Nat) (l : Locals) :
    (caClock latencyParam cur_rwds cur_data l).timestamp = l.timestamp ∧
      (caClock latencyParam cur_rwds cur_data l).ics = l.ics ∧
      (caClock latencyParam cur_rwds cur_data l).iclk = l.iclk ∧
      (caClock latencyParam cur_rwds cur_data l).irwds = l.irwds := by
  unfold caClock
  dsimp only
  split_ifs <;> exact ⟨rfl, rfl, rfl, rfl⟩

/-- The `switch` moves no cursor and leaves the current timestamp alone. -/
theorem fsm_cursors (inp : Inputs) (latencyParam : Int) (l : Locals) :
    (fsm inp latencyParam l).timestamp = l.timestamp ∧ (fsm inp latencyParam l).ics = l.ics ∧
      (fsm inp latencyParam l).iclk = l.iclk ∧ (fsm inp latencyParam l).irwds = l.irwds := by
  unfold fsm
  dsimp only
  split <;> split_ifs <;>
    first
      | exact ⟨rfl, rfl, rfl, rfl⟩
      | exact deselect_cursors _
      | exact caClock_cursors _ _ _ _

theorem soonestEvent_fst (a b c : Int) : (soonestEvent a b c).1 = min a (min b c) := by
  unfold soonestEvent
  dsimp only
  split_ifs <;> simp only [] <;> omega

theorem soonestEvent_snd (a b c : Int) :
    ((soonestEvent a b c).2 = EventType.EVENT_CS ↔ a ≤ b ∧ a ≤ c) ∧
    ((soonestEvent a b c).2 = EventType.EVENT_CLK ↔ b < a ∧ b ≤ c) ∧
    ((soonestEvent a b c).2 = EventType.EVENT_RWDS ↔ c < a ∧ c < b) := by
  unfold soonestEvent
  dsimp only
  split_ifs with h1 h2 h2 <;> simp only [] at * <;> simp <;> omega

theorem advance_stop_iff (inp : Inputs) (l : Locals) :
    (advance inp l).2 = true ↔
      (soonestEvent (nextCs inp l) (nextClk inp l) (nextRwds inp l)).1 = l.timestamp := by
  unfold advance
  dsimp only
  split_ifs with h <;> simp [h]

theorem advance_timestamp (inp : Inputs) (l : Locals) :
    (advance inp l).1.timestamp
      = (soonestEvent (nextCs inp l) (nextClk inp l) (nextRwds inp l)).1 := by
  unfold advance
  dsimp only
  split_ifs with h <;> first | exact h.symm | rfl

theorem advance_event_type (inp : Inputs) (l : Locals) :
    (advance inp l).1.event_type
      = (soonestEvent (nextCs inp l) (nextClk inp l) (nextRwds inp l)).2 := by
  unfold advance
  dsimp only
  split_ifs with h <;> rfl

theorem next_of_has_sample (wfm : Waveform Bool) (i : Nat) (timestamp t : Int)
    (h : i + 1 < wfm.m_samples.length) (ht : wfm.m_offsets[i + 1]? = some t) :
    GetNextEventTimestamp wfm i wfm.m_samples.length timestamp = t := by
  unfold GetNextEventTimestamp
  rw [if_pos h, List.getD_eq_getElem?_getD, ht]
  rfl

theorem next_of_exhausted (wfm : Waveform Bool) (i : Nat) (timestamp : Int)
    (h : ¬ i + 1 < wfm.m_samples.length) :
    GetNextEventTimestamp wfm i wfm.m_samples.length timestamp = timestamp := by
  unfold GetNextEventTimestamp
  rw [if_neg h]

/-- C9: at a step at which CS#, CLK and RWDS each have a further sample, with
timestamps tcs, tclk and trwds, the current timestamp after the step is the minimum of
the three and the event type is the channel that attains it, ties going to CS# before
CLK before RWDS: the event is CS# when tcs is a minimum, CLK when tclk is a minimum
strictly below tcs, and RWDS when trwds is strictly below both. The step is a function
of the inputs and the local variables, so equal inputs give equal event sequences. -/
theorem hyperram_soonest_event (inp : Inputs) (latencyParam : Int) (l : Locals)
    (tcs tclk trwds : Int)
    (hcs : l.ics + 1 < inp.csn.m_samples.length) (hclk : l.iclk + 1 < inp.clk.m_samples.length)
    (hrwds : l.irwds + 1 < inp.rwds.m_samples.length)
    (htcs : inp.csn.m_offsets[l.ics + 1]? = some tcs)
    (htclk : inp.clk.m_offsets[l.iclk + 1]? = some tclk)
    (htrwds : inp.rwds.m_offsets[l.irwds + 1]? = some trwds) :
    (iteration inp latencyParam l).1.timestamp = min tcs (min tclk trwds) ∧
    ((iteration inp latencyParam l).1.event_type = EventType.EVENT_CS ↔
      tcs ≤ tclk ∧ tcs ≤ trwds) ∧
    ((iteration inp latencyParam l).1.event_type = EventType.EVENT_CLK ↔
      tclk < tcs ∧ tclk ≤ trwds) ∧
    ((iteration inp latencyParam l).1.event_type = EventType.EVENT_RWDS ↔
      trwds < tcs ∧ trwds < tclk) := by
  obtain ⟨ht, hi1, hi2, hi3⟩ := fsm_cursors inp latencyParam l
  have e1 : nextCs inp (fsm inp latencyParam l) = tcs := by
    unfold nextCs; rw [hi1]; exact next_of_has_sample _ _ _ _ hcs htcs
  have e2 : nextClk inp (fsm inp latencyParam l) = tclk := by
    unfold nextClk; rw [hi2]; exact next_of_has_sample _ _ _ _ hclk htclk
  have e3 : nextRwds inp (fsm inp latencyParam l) = trwds := by
    unfold nextRwds; rw [hi3]; exact next_of_has_sample _ _ _ _ hrwds htrwds
  unfold iteration
  rw [advance_timestamp, advance_event_type, e1, e2, e3, soonestEvent_fst]
  exact ⟨rfl, soonestEvent_snd tcs tclk trwds⟩

/-- Witness of C9: the first step on `tieCapture`; CS# and CLK tie at 10 and CS# wins. -/
theorem hyperram_soonest_event_witness :
    (iteration tieCapture 3 (initLocals tieCapture)).1.timestamp = min 10 (min 10 15) ∧
    ((iteration tieCapture 3 (initLocals tieCapture)).1.event_type = EventType.EVENT_CS ↔
      (10 : Int) ≤ 10 ∧ (10 : Int) ≤ 15) ∧
    ((iteration tieCapture 3 (initLocals tieCapture)).1.event_type = EventType.EVENT_CLK ↔
      (10 : Int) < 10 ∧ (10 : Int) ≤ 15) ∧
    ((iteration tieCapture 3 (initLocals tieCapture)).1.event_type = EventType.EVENT_RWDS ↔
      (15 : Int) < 10 ∧ (15 : Int) < 10) :=
  hyperram_soonest_event tieCapture 3 (initLocals tieCapture) 10 10 15
    (by decide) (by decide) (by decide) rfl rfl rfl

/-! ## HyperRAMDecoder: the loop is left within the fuel granted -/

theorem advanceLoop_ge (offsets : List Int) (len : Nat) (timestamp : Int) (fuel i : Nat) :
    i ≤ advanceLoop offsets len timestamp fuel i := by
  induction fuel generalizing i with
  | zero => exact Nat.le_refl i
  | succ n ih =>
    unfold advanceLoop
    split_ifs
    · exact Nat.le_trans (Nat.le_succ i) (ih (i + 1))
    · exact Nat.le_refl i

theorem AdvanceToTimestamp_ge (wfm : Waveform Bool) (i len : Nat) (timestamp : Int) :
    i ≤ AdvanceToTimestamp wfm i len timestamp :=
  advanceLoop_ge _ _ _ _ _

/-- A cursor whose next sample is not later than the target moves forward. -/
theorem AdvanceToTimestamp_gt (wfm : Waveform Bool) (i len : Nat) (timestamp : Int)
    (h : i + 1 < len) (ht : wfm.m_offsets.getD (i + 1) 0 ≤ timestamp) :
    i + 1 ≤ AdvanceToTimestamp wfm i len timestamp := by
  unfold AdvanceToTimestamp
  obtain ⟨n, hn⟩ : ∃ n, len - i = n + 1 := ⟨len - i - 1, by omega⟩
  rw [hn]
  unfold advanceLoop
  rw [if_pos ⟨h, ht⟩]
  exact advanceLoop_ge _ _ _ _ _

/-- When the loop goes on, the CS#, CLK and RWDS cursors are advanced to the selected
timestamp. -/
theorem advance_continue_cursors (inp : Inputs) (l : Locals) (h : (advance inp l).2 = false) :
    (advance inp l).1.ics = AdvanceToTimestamp inp.csn l.ics inp.csn.m_samples.length
        (soonestEvent (nextCs inp l) (nextClk inp l) (nextRwds inp l)).1 ∧
    (advance inp l).1.iclk = AdvanceToTimestamp inp.clk l.iclk inp.clk.m_samples.length
        (soonestEvent (nextCs inp l) (nextClk inp l) (nextRwds inp l)).1 ∧
    (advance inp l).1.irwds = AdvanceToTimestamp inp.rwds l.irwds inp.rwds.m_samples.length
        (soonestEvent (nextCs inp l) (nextClk inp l) (nextRwds inp l)).1 := by
  have hne : ¬ (soonestEvent (nextCs inp l) (nextClk inp l) (nextRwds inp l)).1 = l.timestamp := by
    intro he
    have := (advance_stop_iff inp l).mpr he
    rw [h] at this
    exact Bool.false_ne_true this
  unfold advance
  dsimp only
  rw [if_neg hne]
  split_ifs <;> exact ⟨rfl, rfl, rfl⟩

/-- The soonest event is not later than the next sample of any channel that has one. -/
theorem soonest_le_next (inp : Inputs) (l : Locals) :
    (l.ics + 1 < inp.csn.m_samples.length →
      (soonestEvent (nextCs inp l) (nextClk inp l) (nextRwds inp l)).1
        ≤ inp.csn.m_offsets.getD (l.ics + 1) 0) ∧
    (l.iclk + 1 < inp.clk.m_samples.length →
      (soonestEvent (nextCs inp l) (nextClk inp l) (nextRwds inp l)).1
        ≤ inp.clk.m_offsets.getD (l.iclk + 1) 0) ∧
    (l.irwds + 1 < inp.rwds.m_samples.length →
      (soonestEvent (nextCs inp l) (nextClk inp l) (nextRwds inp l)).1
        ≤ inp.rwds.m_offsets.getD (l.irwds + 1) 0) := by
  rw [soonestEvent_fst]
  refine ⟨fun h => ?_, fun h => ?_, fun h => ?_⟩
  · have : nextCs inp l = inp.csn.m_offsets.getD (l.ics + 1) 0 := by
      unfold nextCs GetNextEventTimestamp; rw [if_pos h]
    rw [← this]; exact min_le_left _ _
  · have : nextClk inp l = inp.clk.m_offsets.getD (l.iclk + 1) 0 := by
      unfold nextClk GetNextEventTimestamp; rw [if_pos h]
    rw [← this]; exact le_trans (min_le_right _ _) (min_le_left _ _)
  · have : nextRwds inp l = inp.rwds.m_offsets.getD (l.irwds + 1) 0 := by
      unfold nextRwds GetNextEventTimestamp; rw [if_pos h]
    rw [← this]; exact le_trans (min_le_right _ _) (min_le_right _ _)

/-- The soonest event differs from the current timestamp only when it is the next
sample of a channel that has one. -/
theorem soonest_attained (inp : Inputs) (l : Locals)
    (hne : (soonestEvent (nextCs inp l) (nextClk inp l) (nextRwds inp l)).1 ≠ l.timestamp) :
    (l.ics + 1 < inp.csn.m_samples.length ∧
      inp.csn.m_offsets.getD (l.ics + 1) 0
        = (soonestEvent (nextCs inp l) (nextClk inp l) (nextRwds inp l)).1) ∨
    (l.iclk + 1 < inp.clk.m_samples.length ∧
      inp.clk.m_offsets.getD (l.iclk + 1) 0
        = (soonestEvent (nextCs inp l) (nextClk inp l) (nextRwds inp l)).1) ∨
    (l.irwds + 1 < inp.rwds.m_samples.length ∧
      inp.rwds.m_offsets.getD (l.irwds + 1) 0
        = (soonestEvent (nextCs inp l) (nextClk inp l) (nextRwds inp l)).1) := by
  rw [soonestEvent_fst] at hne ⊢
  have k1 : nextCs inp l = if l.ics + 1 < inp.csn.m_samples.length
      then inp.csn.m_offsets.getD (l.ics + 1) 0 else l.timestamp := rfl
  have k2 : nextClk inp l = if l.iclk + 1 < inp.clk.m_samples.length
      then inp.clk.m_offsets.getD (l.iclk + 1) 0 else l.timestamp := rfl
  have k3 : nextRwds inp l = if l.irwds + 1 < inp.rwds.m_samples.length
      then inp.rwds.m_offsets.getD (l.irwds + 1) 0 else l.timestamp := rfl
  generalize nextCs inp l = a at *
  generalize nextClk inp l = b at *
  generalize nextRwds inp l = c at *
  rcases min_choice a (min b c) with h | h
  · rw [h] at hne ⊢
    left
    by_cases b1 : l.ics + 1 < inp.csn.m_samples.length
    · rw [if_pos b1] at k1; exact ⟨b1, k1.symm⟩
    · rw [if_neg b1] at k1; exact absurd k1 hne
  · rw [h] at hne ⊢
    rcases min_choice b c with h2 | h2
    · rw [h2] at hne ⊢
      right; left
      by_cases b2 : l.iclk + 1 < inp.clk.m_samples.length
      · rw [if_pos b2] at k2; exact ⟨b2, k2.symm⟩
      · rw [if_neg b2] at k2; exact absurd k2 hne
    · rw [h2] at hne ⊢
      right; right
      by_cases b3 : l.irwds + 1 < inp.rwds.m_samples.length
      · rw [if_pos b3] at k3; exact ⟨b3, k3.symm⟩
      · rw [if_neg b3] at k3; exact absurd k3 hne

/-- A selection that does not stop moves the cursor of the selected channel forward and
moves no cursor back, so the number of samples ahead of the three cursors drops. -/
theorem advance_measure_decreases (inp : Inputs) (l : Locals)
    (h : (advance inp l).2 = false) :
    samplesAhead inp (advance inp l).1 < samplesAhead inp l := by
  obtain ⟨c1, c2, c3⟩ := advance_continue_cursors inp l h
  have hne : (soonestEvent (nextCs inp l) (nextClk inp l) (nextRwds inp l)).1 ≠ l.timestamp := by
    intro he
    have := (advance_stop_iff inp l).mpr he
    rw [h] at this
    exact Bool.false_ne_true this
  have hatt := soonest_attained inp l hne
  unfold samplesAhead
  rw [c1, c2, c3]
  generalize (soonestEvent (nextCs inp l) (nextClk inp l) (nextRwds inp l)).1 = T at hatt
  have g1 := AdvanceToTimestamp_ge inp.csn l.ics inp.csn.m_samples.length T
  have g2 := AdvanceToTimestamp_ge inp.clk l.iclk inp.clk.m_samples.length T
  have g3 := AdvanceToTimestamp_ge inp.rwds l.irwds inp.rwds.m_samples.length T
  rcases hatt with ⟨b, e⟩ | ⟨b, e⟩ | ⟨b, e⟩
  · have := AdvanceToTimestamp_gt inp.csn l.ics inp.csn.m_samples.length T b (le_of_eq e)
    omega
  · have := AdvanceToTimestamp_gt inp.clk l.iclk inp.clk.m_samples.length T b (le_of_eq e)
    omega
  · have := AdvanceToTimestamp_gt inp.rwds l.irwds inp.rwds.m_samples.length T b (le_of_eq e)
    omega

/-- An iteration that does not stop lowers the number of samples ahead of the cursors. -/
theorem iteration_measure_decreases (inp : Inputs) (latencyParam : Int) (l : Locals)
    (h : (iteration inp latencyParam l).2 = false) :
    samplesAhead inp (iteration inp latencyParam l).1 < samplesAhead inp l := by
  obtain ⟨-, hi1, hi2, hi3⟩ := fsm_cursors inp latencyParam l
  have e : samplesAhead inp (fsm inp latencyParam l) = samplesAhead inp l := by
    unfold samplesAhead; rw [hi1, hi2, hi3]
  rw [← e]
  exact advance_measure_decreases inp (fsm inp latencyParam l) h

/-- The loop is left by `break` whenever the fuel exceeds the number of samples ahead
of the CS#, CLK and RWDS cursors. -/
theorem decodeLoop_isSome (inp : Inputs) (latencyParam : Int) (fuel : Nat) (l : Locals)
    (h : samplesAhead inp l < fuel) :
    ∃ r, decodeLoop inp latencyParam fuel l = some r := by
  induction fuel generalizing l with
  | zero => exact absurd h (Nat.not_lt_zero _)
  | succ n ih =>
    unfold decodeLoop
    cases hit : iteration inp latencyParam l with
    | mk l1 stop =>
      cases stop with
      | true => exact ⟨l1, rfl⟩
      | false =>
        have hd := iteration_measure_decreases inp latencyParam l (by rw [hit])
        rw [hit] at hd
        have hd1 : samplesAhead inp l1 < samplesAhead inp l := hd
        exact ih l1 (by omega)

/-- On valid inputs the refresh publishes a capture: the loop never runs out of the
fuel it is given. -/
theorem refresh_isSome (inp : Inputs) (latencyParam : Int) :
    ∃ w, Refresh (some inp) latencyParam = some w := by
  have h : samplesAhead inp (initLocals inp) < loopFuel inp := by
    unfold samplesAhead loopFuel initLocals
    dsimp only
    omega
  obtain ⟨r, hr⟩ := decodeLoop_isSome inp latencyParam (loopFuel inp) (initLocals inp) h
  exact ⟨r.cap, by unfold Refresh; simp only [hr, Option.map_some']⟩

theorem advanceLoop_post (offsets : List Int) (len : Nat) (timestamp : Int) (fuel i : Nat)
    (hf : len - i ≤ fuel) (h : advanceLoop offsets len timestamp fuel i + 1 < len) :
    timestamp < offsets.getD (advanceLoop offsets len timestamp fuel i + 1) 0 := by
  induction fuel generalizing i with
  | zero =>
    unfold advanceLoop at h
    omega
  | succ n ih =>
    unfold advanceLoop at h ⊢
    by_cases c : i + 1 < len ∧ offsets.getD (i + 1) 0 ≤ timestamp
    · rw [if_pos c] at h ⊢
      exact ih (i + 1) (by omega) h
    · rw [if_neg c] at h ⊢
      by_contra hle
      exact c ⟨h, by omega⟩

/-- After `AdvanceToTimestamp` the next sample of the channel, when there is one, is
later than the target. -/
theorem AdvanceToTimestamp_post (wfm : Waveform Bool) (i len : Nat) (timestamp : Int)
    (h : AdvanceToTimestamp wfm i len timestamp + 1 < len) :
    timestamp < wfm.m_offsets.getD (AdvanceToTimestamp wfm i len timestamp + 1) 0 :=
  advanceLoop_post _ _ _ _ _ (Nat.le_refl _) h

/-- Every iteration that goes on leaves the pending samples after the new timestamp. -/
theorem pending_of_continue (inp : Inputs) (latencyParam : Int) (l : Locals)
    (h : (iteration inp latencyParam l).2 = false) :
    Pending inp (iteration inp latencyParam l).1 := by
  unfold iteration at h ⊢
  obtain ⟨c1, c2, c3⟩ := advance_continue_cursors inp _ h
  have ht := advance_timestamp inp (fsm inp latencyParam l)
  unfold Pending
  rw [c1, c2, c3, ht]
  exact ⟨AdvanceToTimestamp_post _ _ _ _, AdvanceToTimestamp_post _ _ _ _,
    AdvanceToTimestamp_post _ _ _ _⟩

/-- On entry to the loop the pending samples lie after timestamp 0 when the second
sample of each channel has a positive offset. -/
theorem pending_init (inp : Inputs)
    (h1 : 1 < inp.csn.m_samples.length → 0 < inp.csn.m_offsets.getD 1 0)
    (h2 : 1 < inp.clk.m_samples.length → 0 < inp.clk.m_offsets.getD 1 0)
    (h3 : 1 < inp.rwds.m_samples.length → 0 < inp.rwds.m_offsets.getD 1 0) :
    Pending inp (initLocals inp) := ⟨h1, h2, h3⟩

/-- C10 as stated fails on `idleClockCapture`: the loop is left at timestamp 80, when the
clock has no further sample, although CS# still has a sample at 110; the capture then
holds SELECT and CA only, and the rise of CS# is never decoded. -/
theorem hyperram_stops_with_samples_left :
    ∃ l, decodeLoop idleClockCapture 3 (loopFuel idleClockCapture)
        (initLocals idleClockCapture) = some l ∧
      l.timestamp = 80 ∧ l.ics + 1 < idleClockCapture.csn.m_samples.length ∧
      idleClockCapture.csn.m_offsets[l.ics + 1]? = some 110 ∧
      l.cap.m_samples.map (fun s => s.m_stype)
        = [SymbolType.TYPE_SELECT, SymbolType.TYPE_CA] :=
  ⟨_, rfl, rfl, by decide, rfl, rfl⟩

/-- C10 as amended: in a loop state whose pending CS#, CLK and RWDS samples lie after the
current timestamp (`Pending`: every state left by an iteration that goes on, and the
entry state of a capture whose second samples have positive offsets), the loop stops
exactly when at least one of the three channels has no further sample: such a channel
contributes the current timestamp, which is then the soonest event. When the loop does
not stop, all three channels have a further sample and the new current timestamp is the
earliest of them, later than the old one. -/
theorem hyperram_loop_stop_condition (inp : Inputs) (latencyParam : Int) (l : Locals)
    (hpend : Pending inp l) :
    ((iteration inp latencyParam l).2 = true ↔
      (¬ l.ics + 1 < inp.csn.m_samples.length ∨ ¬ l.iclk + 1 < inp.clk.m_samples.length ∨
        ¬ l.irwds + 1 < inp.rwds.m_samples.length)) ∧
    ((iteration inp latencyParam l).2 = false →
      l.timestamp < (iteration inp latencyParam l).1.timestamp ∧
      (iteration inp latencyParam l).1.timestamp =
        min (inp.csn.m_offsets.getD (l.ics + 1) 0)
          (min (inp.clk.m_offsets.getD (l.iclk + 1) 0)
            (inp.rwds.m_offsets.getD (l.irwds + 1) 0))) := by
  obtain ⟨hcs, hclk, hrwds⟩ := hpend
  obtain ⟨ht, hi1, hi2, hi3⟩ := fsm_cursors inp latencyParam l
  have e1 : nextCs inp (fsm inp latencyParam l) =
      if l.ics + 1 < inp.csn.m_samples.length then inp.csn.m_offsets.getD (l.ics + 1) 0
      else l.timestamp := by
    unfold nextCs GetNextEventTimestamp; rw [hi1, ht]
  have e2 : nextClk inp (fsm inp latencyParam l) =
      if l.iclk + 1 < inp.clk.m_samples.length then inp.clk.m_offsets.getD (l.iclk + 1) 0
      else l.timestamp := by
    unfold nextClk GetNextEventTimestamp; rw [hi2, ht]
  have e3 : nextRwds inp (fsm inp latencyParam l) =
      if l.irwds + 1 < inp.rwds.m_samples.length then inp.rwds.m_offsets.getD (l.irwds + 1) 0
      else l.timestamp := by
    unfold nextRwds GetNextEventTimestamp; rw [hi3, ht]
  have hstop := advance_stop_iff inp (fsm inp latencyParam l)
  have hts := advance_timestamp inp (fsm inp latencyParam l)
  rw [soonestEvent_fst, e1, e2, e3] at hstop hts
  rw [ht] at hstop
  unfold iteration
  have hb : (advance inp (fsm inp latencyParam l)).2 = false ↔
      ¬ (advance inp (fsm inp latencyParam l)).2 = true := by simp
  rw [hb, hstop, hts]
  clear hstop hts hb e1 e2 e3
  by_cases c1 : l.ics + 1 < inp.csn.m_samples.length <;>
  by_cases c2 : l.iclk + 1 < inp.clk.m_samples.length <;>
  by_cases c3 : l.irwds + 1 < inp.rwds.m_samples.length <;>
  simp only [c1, c2, c3, if_true, if_false, not_true_eq_false, not_false_eq_true, or_false,
    or_true, false_or, true_or, iff_true, iff_false] <;>
  (try have h1 := hcs c1) <;> (try have h2 := hclk c2) <;> (try have h3 := hrwds c3) <;>
  simp only [min_def] <;> split_ifs <;> refine ⟨?_, fun hne => ?_⟩ <;>
  first
    | omega
    | exact ⟨by omega, trivial⟩

/-- Witness of amended C10: the first step on `idleClockCapture`, where all three
channels have a further sample after timestamp 0. -/
theorem hyperram_loop_stop_condition_witness :
    Pending idleClockCapture (initLocals idleClockCapture) ∧
    ((iteration idleClockCapture 3 (initLocals idleClockCapture)).2 = true ↔
      (¬ (initLocals idleClockCapture).ics + 1 < idleClockCapture.csn.m_samples.length ∨
        ¬ (initLocals idleClockCapture).iclk + 1 < idleClockCapture.clk.m_samples.length ∨
        ¬ (initLocals idleClockCapture).irwds + 1 < idleClockCapture.rwds.m_samples.length)) ∧
    ((iteration idleClockCapture 3 (initLocals idleClockCapture)).2 = false →
      (initLocals idleClockCapture).timestamp
        < (iteration idleClockCapture 3 (initLocals idleClockCapture)).1.timestamp ∧
      (iteration idleClockCapture 3 (initLocals idleClockCapture)).1.timestamp =
        min (idleClockCapture.csn.m_offsets.getD ((initLocals idleClockCapture).ics + 1) 0)
          (min (idleClockCapture.clk.m_offsets.getD ((initLocals idleClockCapture).iclk + 1) 0)
            (idleClockCapture.rwds.m_offsets.getD
              ((initLocals idleClockCapture).irwds + 1) 0))) :=
  ⟨pending_init idleClockCapture (fun _ => by decide) (fun _ => by decide) (fun _ => by decide),
    hyperram_loop_stop_condition idleClockCapture 3 (initLocals idleClockCapture)
      (pending_init idleClockCapture (fun _ => by decide) (fun _ => by decide)
        (fun _ => by decide))⟩

/-! ## HyperRAMDecoder: the fallback end of a DATA symbol -/

/-- C11, the code at a failing input: `earlyDeselectCapture` has non-negative, strictly
increasing offsets on every channel, and the decode with latency parameter 2 emits
SELECT, CA, WAIT, DATA, DESELECT, SELECT with offsets 20, 30, 80, 105, 115, 112. The
DATA symbol at 105 gets the fallback duration 10, which puts the start of the next symbol
at 115; CS# rises at 108, so the DESELECT is placed at 115, and the SELECT of the next
transaction, whose CS# falls at 112, has a smaller offset than the DESELECT before it. -/
theorem hyperram_offsets_decrease :
    (IncreasingOffsets earlyDeselectCapture.csn ∧ IncreasingOffsets earlyDeselectCapture.clk ∧
      IncreasingOffsets earlyDeselectCapture.rwds ∧
      ∀ d, d ∈ earlyDeselectCapture.data → IncreasingOffsets d) ∧
    (Refresh (some earlyDeselectCapture) 2).map (fun w => (symbolTypes w, w.m_offsets))
      = some ([SymbolType.TYPE_SELECT, SymbolType.TYPE_CA, SymbolType.TYPE_WAIT,
          SymbolType.TYPE_DATA, SymbolType.TYPE_DESELECT, SymbolType.TYPE_SELECT],
        [20, 30, 80, 105, 115, 112]) := by
  refine ⟨⟨⟨rfl, by decide, by decide⟩, ⟨rfl, by decide, by decide⟩,
    ⟨rfl, by decide, by decide⟩, ?_⟩, rfl⟩
  intro d hd
  have : d = digital [0, 600] [true, true] := by
    simp only [earlyDeselectCapture, List.mem_replicate] at hd
    exact hd.2
  rw [this]
  exact ⟨rfl, by decide, by decide⟩

/-- C12, the code at a failing input: on `earlyDeselectCapture` the decode with latency
parameter 2 emits six symbols with durations 10, 50, 20, 10, -7, 8. The DESELECT emitted
when CS# rises at 108, three ticks after the RWDS edge at 105 whose DATA symbol got the
fallback duration 10, starts at 115 and has duration 108 - 115 = -7. -/
theorem hyperram_negative_duration :
    (Refresh (some earlyDeselectCapture) 2).map
        (fun w => (symbolTypes w, w.m_offsets, w.m_durations))
      = some ([SymbolType.TYPE_SELECT, SymbolType.TYPE_CA, SymbolType.TYPE_WAIT,
          SymbolType.TYPE_DATA, SymbolType.TYPE_DESELECT, SymbolType.TYPE_SELECT],
        [20, 30, 80, 105, 115, 112], [10, 50, 20, 10, -7, 8]) := by
  rfl

/-- C13, the code at a failing input: on `repeatedCsCapture` the decode with latency
parameter 2 emits SELECT, CA, WAIT and three DATA symbols. The first DATA symbol, at the
RWDS edge at 105, gets the fallback duration 10 because the next CS# sample (106, still
low) is earlier than the next RWDS edge (107); it ends at 115, after the start 107 of the
DATA symbol that follows it: two consecutive symbols overlap and the second one is not a
DESELECT. -/
theorem hyperram_data_overlap :
    (Refresh (some repeatedCsCapture) 2).map
        (fun w => (symbolTypes w, w.m_offsets, w.m_durations))
      = some ([SymbolType.TYPE_SELECT, SymbolType.TYPE_CA, SymbolType.TYPE_WAIT,
          SymbolType.TYPE_DATA, SymbolType.TYPE_DATA, SymbolType.TYPE_DATA],
        [20, 30, 80, 105, 107, 300], [10, 50, 20, 10, 193, 20]) ∧
    ¬ ((105 : Int) + 10 ≤ 107) := by
  constructor
  · rfl
  · decide

/-! ## HyperRAMDecoder: single steps of the state machine -/

/-- The selection of the next event and the advance of the cursors leave the state, the
symbol start, the command/address accumulator, the latency count and the capture alone. -/
theorem advance_keeps (inp : Inputs) (l : Locals) :
    (advance inp l).1.state = l.state ∧ (advance inp l).1.sym_start = l.sym_start ∧
    (advance inp l).1.first = l.first ∧ (advance inp l).1.latency = l.latency ∧
    (advance inp l).1.ca_data = l.ca_data ∧ (advance inp l).1.ca_byte = l.ca_byte ∧
    (advance inp l).1.cap = l.cap := by
  unfold advance
  dsimp only
  split_ifs <;> exact ⟨rfl, rfl, rfl, rfl, rfl, rfl, rfl⟩

/-- In the five states of a transaction a sample of CS# that is high runs `deselect`. -/
theorem fsm_cs_high (inp : Inputs) (latencyParam : Int) (l : Locals)
    (hstate : l.state = State.STATE_CA ∨ l.state = State.STATE_READ_WAIT ∨
      l.state = State.STATE_WRITE_WAIT ∨ l.state = State.STATE_READ ∨
      l.state = State.STATE_WRITE)
    (hcs : curCs inp l = true) :
    fsm inp latencyParam l = deselect l := by
  unfold curCs at hcs
  unfold fsm
  dsimp only
  rcases hstate with h | h | h | h | h <;> rw [h] <;> simp only [hcs, if_true]

/-- C14: in each of the states CA, READ_WAIT, WRITE_WAIT, READ and WRITE, a step at
which CS# is sampled high appends, whatever the event type, exactly one symbol, a
DESELECT with offset `sym_start` and duration `timestamp - sym_start`, and leaves the
machine in DESELECTED with `sym_start` equal to the timestamp of the step; the rest of
the iteration changes none of this. -/
theorem hyperram_deselect_step (inp : Inputs) (latencyParam : Int) (l : Locals)
    (hstate : l.state = State.STATE_CA ∨ l.state = State.STATE_READ_WAIT ∨
      l.state = State.STATE_WRITE_WAIT ∨ l.state = State.STATE_READ ∨
      l.state = State.STATE_WRITE)
    (hcs : curCs inp l = true) :
    (iteration inp latencyParam l).1.cap.m_samples
      = l.cap.m_samples ++ [⟨SymbolType.TYPE_DESELECT, 0⟩] ∧
    (iteration inp latencyParam l).1.cap.m_offsets = l.cap.m_offsets ++ [l.sym_start] ∧
    (iteration inp latencyParam l).1.cap.m_durations
      = l.cap.m_durations ++ [l.timestamp - l.sym_start] ∧
    (iteration inp latencyParam l).1.state = State.STATE_DESELECTED ∧
    (iteration inp latencyParam l).1.sym_start = l.timestamp := by
  obtain ⟨k1, k2, -, -, -, -, k7⟩ := advance_keeps inp (fsm inp latencyParam l)
  unfold iteration
  rw [k1, k2, k7, fsm_cs_high inp latencyParam l hstate hcs]
  exact ⟨rfl, rfl, rfl, rfl, rfl⟩

set_option maxRecDepth 20000 in
/-- Witness for C14 on `caOnlyCapture`: iteration 9 of the decode runs in READ_WAIT with
CS# sampled high at 110; it leaves the machine in DESELECTED with `sym_start` at the
timestamp of the step. -/
theorem hyperram_deselect_step_witness :
    (stateAt caOnlyCapture 3 (initLocals caOnlyCapture) 9).state = State.STATE_READ_WAIT ∧
    curCs caOnlyCapture (stateAt caOnlyCapture 3 (initLocals caOnlyCapture) 9) = true ∧
    (iteration caOnlyCapture 3
        (stateAt caOnlyCapture 3 (initLocals caOnlyCapture) 9)).1.state
      = State.STATE_DESELECTED ∧
    (iteration caOnlyCapture 3
        (stateAt caOnlyCapture 3 (initLocals caOnlyCapture) 9)).1.sym_start
      = (stateAt caOnlyCapture 3 (initLocals caOnlyCapture) 9).timestamp :=
  ⟨rfl, rfl,
    (hyperram_deselect_step caOnlyCapture 3
      (stateAt caOnlyCapture 3 (initLocals caOnlyCapture) 9)
      (Or.inr (Or.inl rfl)) rfl).2.2.2⟩

/-! ## HyperRAMDecoder: the branches of the switch with CS# low -/

theorem fsm_deselected_low (inp : Inputs) (latencyParam : Int) (l : Locals)
    (hstate : l.state = State.STATE_DESELECTED) (hcs : curCs inp l = false) :
    fsm inp latencyParam l =
      { l with state := State.STATE_CA, ca_data := 0, ca_byte := 0, sym_start := l.timestamp,
               first := true } := by
  unfold curCs at hcs
  unfold fsm
  dsimp only
  rw [hstate]
  simp only [hcs, Bool.not_false, if_true]

theorem fsm_ca_low_clk (inp : Inputs) (latencyParam : Int) (l : Locals)
    (hstate : l.state = State.STATE_CA) (hcs : curCs inp l = false)
    (hev : l.event_type = EventType.EVENT_CLK) :
    fsm inp latencyParam l = caClock latencyParam (curRwds inp l) (curData inp l.idata) l := by
  unfold curCs at hcs
  unfold fsm curRwds
  dsimp only
  rw [hstate]
  simp only [hcs, hev, Bool.false_eq_true, if_false, if_true]

/-- With CS# low, an event other than CLK changes nothing in the states CA, READ_WAIT,
WRITE_WAIT and WRITE. -/
theorem fsm_low_not_clk (inp : Inputs) (latencyParam : Int) (l : Locals)
    (hstate : l.state = State.STATE_CA ∨ l.state = State.STATE_READ_WAIT ∨
      l.state = State.STATE_WRITE_WAIT ∨ l.state = State.STATE_WRITE)
    (hcs : curCs inp l = false) (hev : l.event_type ≠ EventType.EVENT_CLK) :
    fsm inp latencyParam l = l := by
  unfold curCs at hcs
  unfold fsm
  dsimp only
  rcases hstate with h | h | h | h <;> rw [h] <;>
    simp only [hcs, hev, Bool.false_eq_true, if_false]

/-- The wait states on a CLK event with CS# low (HyperRAMDecoder.cpp, 250-262). -/
theorem fsm_wait_low_clk (inp : Inputs) (latencyParam : Int) (l : Locals)
    (hstate : l.state = State.STATE_READ_WAIT ∨ l.state = State.STATE_WRITE_WAIT)
    (hcs : curCs inp l = false) (hev : l.event_type = EventType.EVENT_CLK) :
    fsm inp latencyParam l =
      if toInt32 (l.latency - 1) = 0 then
        { l with
          latency := toInt32 (l.latency - 1)
          cap := pushSymbol l.cap l.sym_start (l.timestamp - l.sym_start)
            ⟨SymbolType.TYPE_WAIT, 0⟩
          state := if l.state = State.STATE_READ_WAIT then State.STATE_READ
            else State.STATE_WRITE
          sym_start := l.timestamp }
      else { l with latency := toInt32 (l.latency - 1) } := by
  unfold curCs at hcs
  unfold fsm
  dsimp only
  rcases hstate with h | h
  · rw [h]
    simp only [hcs, hev, Bool.false_eq_true, if_false, if_true]
  · rw [h]
    simp only [hcs, hev, Bool.false_eq_true, if_false, if_true]
    rfl

/-- The kinds of the symbols in the capture, in order. -/
theorem symbolTypes_push (cap : Waveform HyperRAMSymbol) (o d : Int) (s : HyperRAMSymbol) :
    symbolTypes (pushSymbol cap o d s) = symbolTypes cap ++ [s.m_stype] := by
  unfold symbolTypes pushSymbol
  simp

/-- What the first clock event of the command/address phase does. -/
theorem caClock_first (latencyParam : Int) (r : Bool) (x : Nat) (l : Locals)
    (hf : l.first = true) (hb : l.ca_byte = 0) :
    (caClock latencyParam r x l).state = l.state ∧
    (caClock latencyParam r x l).first = false ∧
    (caClock latencyParam r x l).ca_byte = 1 ∧
    symbolTypes (caClock latencyParam r x l).cap
      = symbolTypes l.cap ++ [SymbolType.TYPE_SELECT] := by
  unfold caClock
  simp only [hf, hb, if_true]
  norm_num
  exact symbolTypes_push _ _ _ _

/-- What the second to fifth clock events of the command/address phase do. -/
theorem caClock_mid (latencyParam : Int) (r : Bool) (x : Nat) (l : Locals)
    (hf : l.first = false) (hb1 : 1 ≤ l.ca_byte) (hb2 : l.ca_byte ≤ 4) :
    (caClock latencyParam r x l).state = l.state ∧
    (caClock latencyParam r x l).first = false ∧
    (caClock latencyParam r x l).ca_byte = l.ca_byte + 1 ∧
    (caClock latencyParam r x l).cap = l.cap := by
  have h6 : ¬ l.ca_byte + 1 = 6 := by omega
  have h1 : ¬ l.ca_byte + 1 = 1 := by omega
  unfold caClock
  simp only [hf, Bool.false_eq_true, if_false, h6, h1]
  exact ⟨trivial, trivial, trivial, trivial⟩

/-- What the sixth clock event of the command/address phase does. -/
theorem caClock_sixth (latencyParam : Int) (r : Bool) (x : Nat) (l : Locals)
    (hf : l.first = false) (hb : l.ca_byte = 5) :
    caClock latencyParam r x l =
      { l with
        ca_data := (l.ca_data <<< 8) ||| x
        ca_byte := 6
        cap := pushSymbol l.cap l.sym_start (l.timestamp - l.sym_start)
          ⟨SymbolType.TYPE_CA, (l.ca_data <<< 8) ||| x⟩
        sym_start := l.timestamp
        latency := toInt32 ((if r then toInt32 (toInt32 (latencyParam * 2) * 2)
          else toInt32 (latencyParam * 2)) - 2)
        state := if (DecodeCA ((l.ca_data <<< 8) ||| x)).read then State.STATE_READ_WAIT
          else if (DecodeCA ((l.ca_data <<< 8) ||| x)).register_space then State.STATE_WRITE
          else State.STATE_WRITE_WAIT } := by
  unfold caClock
  simp only [hf, hb, Bool.false_eq_true, if_false]
  norm_num

/-! ## HyperRAMDecoder: runs of the loop -/

/-- The variables the switch works on are, on entry to an iteration, those left by the
switch of the iteration before. -/
theorem stateAt_succ_fields (inp : Inputs) (latencyParam : Int) (l : Locals) (j : Nat) :
    (stateAt inp latencyParam l (j + 1)).state
      = (fsm inp latencyParam (stateAt inp latencyParam l j)).state ∧
    (stateAt inp latencyParam l (j + 1)).sym_start
      = (fsm inp latencyParam (stateAt inp latencyParam l j)).sym_start ∧
    (stateAt inp latencyParam l (j + 1)).first
      = (fsm inp latencyParam (stateAt inp latencyParam l j)).first ∧
    (stateAt inp latencyParam l (j + 1)).latency
      = (fsm inp latencyParam (stateAt inp latencyParam l j)).latency ∧
    (stateAt inp latencyParam l (j + 1)).ca_data
      = (fsm inp latencyParam (stateAt inp latencyParam l j)).ca_data ∧
    (stateAt inp latencyParam l (j + 1)).ca_byte
      = (fsm inp latencyParam (stateAt inp latencyParam l j)).ca_byte ∧
    (stateAt inp latencyParam l (j + 1)).cap
      = (fsm inp latencyParam (stateAt inp latencyParam l j)).cap :=
  advance_keeps inp (fsm inp latencyParam (stateAt inp latencyParam l j))

theorem clkEventCount_le (inp : Inputs) (latencyParam : Int) (l : Locals) (j : Nat) :
    clkEventCount inp latencyParam l j ≤ j := by
  induction j with
  | zero => exact Nat.le_refl 0
  | succ j ih =>
    unfold clkEventCount
    split_ifs <;> omega

theorem clkEventCount_mono (inp : Inputs) (latencyParam : Int) (l : Locals) (i j : Nat)
    (h : i ≤ j) : clkEventCount inp latencyParam l i ≤ clkEventCount inp latencyParam l j := by
  induction j with
  | zero =>
    have : i = 0 := by omega
    rw [this]
  | succ j ih =>
    rcases Nat.eq_or_lt_of_le h with e | e
    · rw [e]
    · have := ih (by omega)
      have hs : clkEventCount inp latencyParam l (j + 1) =
          clkEventCount inp latencyParam l j +
            (if (stateAt inp latencyParam l (j + 1)).event_type = EventType.EVENT_CLK
              then 1 else 0) := rfl
      omega

/-- The progress of the command/address phase after `c` clock events, in terms of the
variables of the switch; `T0` are the symbol kinds emitted before the transaction. -/
theorem caPhase_step (inp : Inputs) (latencyParam : Int) (T0 : List SymbolType) (c : Nat)
    (l : Locals) (h : CaPhase T0 c l) (hcs : curCs inp l = false)
    (hc : c + (if l.event_type = EventType.EVENT_CLK then 1 else 0) ≤ 6) :
    CaPhase T0 (c + (if l.event_type = EventType.EVENT_CLK then 1 else 0))
      (fsm inp latencyParam l) := by
  by_cases hev : l.event_type = EventType.EVENT_CLK
  · rw [if_pos hev] at hc ⊢
    rcases h with ⟨h0, hs, hf, hb, ht⟩ | ⟨h1, h5, hs, hf, hb, ht⟩ | ⟨h6, -, -⟩
    · rw [fsm_ca_low_clk inp latencyParam l hs hcs hev]
      obtain ⟨a1, a2, a3, a4⟩ :=
        caClock_first latencyParam (curRwds inp l) (curData inp l.idata) l hf hb
      right; left
      refine ⟨by omega, by omega, by rw [a1, hs], a2, ?_, by rw [a4, ht]⟩
      rw [a3, h0]; rfl
    · by_cases h4 : c ≤ 4
      · rw [fsm_ca_low_clk inp latencyParam l hs hcs hev]
        obtain ⟨a1, a2, a3, a4⟩ :=
          caClock_mid latencyParam (curRwds inp l) (curData inp l.idata) l hf
            (by rw [hb]; exact_mod_cast h1) (by rw [hb]; exact_mod_cast h4)
        right; left
        refine ⟨by omega, by omega, by rw [a1, hs], a2, ?_, by rw [a4, ht]⟩
        rw [a3, hb]; push_cast; ring
      · have h5' : c = 5 := by omega
        rw [fsm_ca_low_clk inp latencyParam l hs hcs hev,
          caClock_sixth latencyParam (curRwds inp l) (curData inp l.idata) l hf
            (by rw [hb, h5']; rfl)]
        right; right
        refine ⟨by omega, ?_, ?_⟩
        · dsimp only
          split_ifs
          · left; rfl
          · right; right; rfl
          · right; left; rfl
        · dsimp only
          rw [symbolTypes_push, ht]
          simp
    · omega
  · rw [if_neg hev] at hc ⊢
    rcases h with ⟨h0, hs, hf, hb, ht⟩ | ⟨h1, h5, hs, hf, hb, ht⟩ | ⟨h6, hs, ht⟩
    · rw [fsm_low_not_clk inp latencyParam l (Or.inl hs) hcs hev]
      left; exact ⟨h0, hs, hf, hb, ht⟩
    · rw [fsm_low_not_clk inp latencyParam l (Or.inl hs) hcs hev]
      right; left; exact ⟨h1, h5, hs, hf, hb, ht⟩
    · rw [fsm_low_not_clk inp latencyParam l (Or.inr hs) hcs hev]
      right; right; exact ⟨h6, hs, ht⟩

/-- The progress of the command/address phase depends only on the variables of the
switch. -/
theorem caPhase_congr (T0 : List SymbolType) (c : Nat) (a b : Locals)
    (h1 : a.state = b.state) (h2 : a.first = b.first) (h3 : a.ca_byte = b.ca_byte)
    (h4 : a.cap = b.cap) (h : CaPhase T0 c b) : CaPhase T0 c a := by
  unfold CaPhase at h ⊢
  rw [h1, h2, h3, h4]
  exact h

/-- While CS# stays low after its fall, the command/address phase has progressed by the
number of clock events seen so far. -/
theorem caPhase_run (inp : Inputs) (latencyParam : Int) (l : Locals) (m : Nat)
    (hstate : l.state = State.STATE_DESELECTED) (hfall : curCs inp l = false)
    (hlow : ∀ j, 1 ≤ j → j ≤ m → curCs inp (stateAt inp latencyParam l j) = false)
    (hsix : clkEventCount inp latencyParam l m ≤ 6) (j : Nat) (hj : j ≤ m) :
    CaPhase (symbolTypes l.cap) (clkEventCount inp latencyParam l j)
      (stateAt inp latencyParam l (j + 1)) := by
  induction j with
  | zero =>
    obtain ⟨k1, -, k3, -, -, k6, k7⟩ := stateAt_succ_fields inp latencyParam l 0
    apply caPhase_congr _ _ _ _ k1 k3 k6 k7
    show CaPhase _ 0 (fsm inp latencyParam l)
    rw [fsm_deselected_low inp latencyParam l hstate hfall]
    left
    exact ⟨rfl, rfl, rfl, rfl, rfl⟩
  | succ j ih =>
    have ih' := ih (by omega)
    obtain ⟨k1, -, k3, -, -, k6, k7⟩ := stateAt_succ_fields inp latencyParam l (j + 1)
    apply caPhase_congr _ _ _ _ k1 k3 k6 k7
    have hmono := clkEventCount_mono inp latencyParam l (j + 1) m hj
    have hs : clkEventCount inp latencyParam l (j + 1) =
        clkEventCount inp latencyParam l j +
          (if (stateAt inp latencyParam l (j + 1)).event_type = EventType.EVENT_CLK
            then 1 else 0) := rfl
    rw [hs]
    exact caPhase_step inp latencyParam _ _ _ ih' (hlow (j + 1) (by omega) hj)
      (by rw [← hs]; omega)

/-- C15: a transaction that starts in DESELECTED (CS# has been sampled high) with CS#
sampled low, sees exactly six CLK events in the following `m` steps, all with CS# low,
and then a step with CS# high, the loop not stopping before that step, emits exactly
three symbols, SELECT, CA and DESELECT in this order, and no WAIT or DATA symbol, and
ends in DESELECTED, for every value of the data lines, of RWDS and of the latency
parameter. -/
theorem hyperram_ca_only_transaction (inp : Inputs) (latencyParam : Int) (l : Locals)
    (m : Nat) (hstate : l.state = State.STATE_DESELECTED) (hfall : curCs inp l = false)
    (hlow : ∀ j, 1 ≤ j → j ≤ m → curCs inp (stateAt inp latencyParam l j) = false)
    (hsix : clkEventCount inp latencyParam l m = 6)
    (hrise : curCs inp (stateAt inp latencyParam l (m + 1)) = true)
    (_hrun : Running inp latencyParam l (m + 1)) :
    symbolTypes (iteration inp latencyParam (stateAt inp latencyParam l (m + 1))).1.cap
      = symbolTypes l.cap
        ++ [SymbolType.TYPE_SELECT, SymbolType.TYPE_CA, SymbolType.TYPE_DESELECT] ∧
    (iteration inp latencyParam (stateAt inp latencyParam l (m + 1))).1.state
      = State.STATE_DESELECTED := by
  have hph := caPhase_run inp latencyParam l m hstate hfall hlow (by omega) m (Nat.le_refl m)
  rw [hsix] at hph
  rcases hph with ⟨h0, -⟩ | ⟨-, h5, -⟩ | ⟨-, hs, ht⟩
  · omega
  · omega
  · have hst : (stateAt inp latencyParam l (m + 1)).state = State.STATE_CA ∨
        (stateAt inp latencyParam l (m + 1)).state = State.STATE_READ_WAIT ∨
        (stateAt inp latencyParam l (m + 1)).state = State.STATE_WRITE_WAIT ∨
        (stateAt inp latencyParam l (m + 1)).state = State.STATE_READ ∨
        (stateAt inp latencyParam l (m + 1)).state = State.STATE_WRITE := by
      rcases hs with h | h | h
      · right; left; exact h
      · right; right; left; exact h
      · right; right; right; right; exact h
    obtain ⟨k1, -, -, -, -, -, k7⟩ :=
      advance_keeps inp (fsm inp latencyParam (stateAt inp latencyParam l (m + 1)))
    unfold iteration
    rw [k1, k7, fsm_cs_high inp latencyParam _ hst hrise]
    refine ⟨?_, rfl⟩
    show symbolTypes (pushSymbol _ _ _ _) = _
    rw [symbolTypes_push, ht]
    simp

set_option maxRecDepth 20000 in
/-- Witness for C15 on `caOnlyCapture`: from the fall of CS# at 20, six steps with CS# low
hold the six CLK events and the seventh step sees CS# high; the transaction emits SELECT,
CA, DESELECT. -/
theorem hyperram_ca_only_transaction_witness :
    clkEventCount caOnlyCapture 3 caFallState 6 = 6 ∧
    symbolTypes (iteration caOnlyCapture 3 (stateAt caOnlyCapture 3 caFallState 7)).1.cap
      = symbolTypes caFallState.cap
        ++ [SymbolType.TYPE_SELECT, SymbolType.TYPE_CA, SymbolType.TYPE_DESELECT] ∧
    (iteration caOnlyCapture 3 (stateAt caOnlyCapture 3 caFallState 7)).1.state
      = State.STATE_DESELECTED :=
  ⟨rfl, hyperram_ca_only_transaction caOnlyCapture 3 caFallState 6 rfl rfl
    (by intro j h1 h2; interval_cases j <;> rfl) rfl rfl
    (by intro i hi; interval_cases i <;> rfl)⟩

end HyperRAMDecoder

theorem toInt32_of_range (x : Int) (h1 : -2 ^ 31 ≤ x) (h2 : x < 2 ^ 31) : toInt32 x = x := by
  unfold toInt32
  have : (x + 2 ^ 31) % 2 ^ 32 = x + 2 ^ 31 := by
    apply Int.emod_eq_of_lt <;> omega
  rw [this]
  omega

namespace HyperRAMDecoder

/-- The state in which the sixth clock event of the command/address phase leaves the
machine, and the latency count it loads. -/
theorem fsm_sixth_byte (inp : Inputs) (latencyParam : Int) (l : Locals)
    (hstate : l.state = State.STATE_CA) (hcs : curCs inp l = false)
    (hev : l.event_type = EventType.EVENT_CLK) (hf : l.first = false) (hb : l.ca_byte = 5)
    (hN1 : 2 ≤ (if curRwds inp l then 4 * latencyParam else 2 * latencyParam))
    (hN2 : (if curRwds inp l then 4 * latencyParam else 2 * latencyParam) < 2 ^ 31) :
    (fsm inp latencyParam l).state =
      (if (DecodeCA ((l.ca_data <<< 8) ||| curData inp l.idata)).read
        then State.STATE_READ_WAIT
        else if (DecodeCA ((l.ca_data <<< 8) ||| curData inp l.idata)).register_space
          then State.STATE_WRITE else State.STATE_WRITE_WAIT) ∧
    (fsm inp latencyParam l).latency =
      (if curRwds inp l then 4 * latencyParam - 2 else 2 * latencyParam - 2) ∧
    (fsm inp latencyParam l).sym_start = l.timestamp := by
  rw [fsm_ca_low_clk inp latencyParam l hstate hcs hev,
    caClock_sixth latencyParam (curRwds inp l) (curData inp l.idata) l hf hb]
  refine ⟨rfl, ?_, rfl⟩
  dsimp only
  split_ifs at hN1 hN2 ⊢
  · rw [toInt32_of_range (latencyParam * 2) (by omega) (by omega),
      toInt32_of_range (latencyParam * 2 * 2) (by omega) (by omega),
      toInt32_of_range (latencyParam * 2 * 2 - 2) (by omega) (by omega)]
    ring
  · rw [toInt32_of_range (latencyParam * 2) (by omega) (by omega),
      toInt32_of_range (latencyParam * 2 - 2) (by omega) (by omega)]
    ring

/-- While CS# stays low and fewer than `L0` clock events have been seen since the latency
count `L0` was loaded, the machine waits: the state, the capture and the symbol start
are those left by the sixth command/address byte and the count has dropped by the
number of clock events. -/
theorem wait_run (inp : Inputs) (latencyParam : Int) (l : Locals) (L0 : Nat)
    (hw : (fsm inp latencyParam l).state = State.STATE_READ_WAIT ∨
      (fsm inp latencyParam l).state = State.STATE_WRITE_WAIT)
    (hlat : (fsm inp latencyParam l).latency = (L0 : Int)) (hfit : (L0 : Int) < 2 ^ 31)
    (i : Nat)
    (hlow : ∀ k, 1 ≤ k → k ≤ i → curCs inp (stateAt inp latencyParam l k) = false)
    (hc : clkEventCount inp latencyParam l i < L0) :
    (stateAt inp latencyParam l (i + 1)).state = (fsm inp latencyParam l).state ∧
    (stateAt inp latencyParam l (i + 1)).latency
      = (L0 : Int) - (clkEventCount inp latencyParam l i : Int) ∧
    (stateAt inp latencyParam l (i + 1)).cap = (fsm inp latencyParam l).cap ∧
    (stateAt inp latencyParam l (i + 1)).sym_start = (fsm inp latencyParam l).sym_start := by
  induction i with
  | zero =>
    obtain ⟨k1, k2, -, k4, -, -, k7⟩ := stateAt_succ_fields inp latencyParam l 0
    refine ⟨k1, ?_, k7, k2⟩
    rw [k4]
    show (fsm inp latencyParam l).latency = (L0 : Int) - ((0 : Nat) : Int)
    rw [hlat]
    simp
  | succ i ih =>
    have hs : clkEventCount inp latencyParam l (i + 1) =
        clkEventCount inp latencyParam l i +
          (if (stateAt inp latencyParam l (i + 1)).event_type = EventType.EVENT_CLK
            then 1 else 0) := rfl
    obtain ⟨a1, a2, a3, a4⟩ := ih (fun k h1 h2 => hlow k h1 (by omega)) (by omega)
    obtain ⟨k1, k2, -, k4, -, -, k7⟩ := stateAt_succ_fields inp latencyParam l (i + 1)
    have hcs := hlow (i + 1) (by omega) (Nat.le_refl _)
    have hw' : (stateAt inp latencyParam l (i + 1)).state = State.STATE_READ_WAIT ∨
        (stateAt inp latencyParam l (i + 1)).state = State.STATE_WRITE_WAIT := by
      rw [a1]; exact hw
    by_cases hev : (stateAt inp latencyParam l (i + 1)).event_type = EventType.EVENT_CLK
    · rw [if_pos hev] at hs
      have hwrap : toInt32 ((stateAt inp latencyParam l (i + 1)).latency - 1)
          = (stateAt inp latencyParam l (i + 1)).latency - 1 := by
        rw [a2]
        exact toInt32_of_range _ (by omega) (by omega)
      have hne : ¬ toInt32 ((stateAt inp latencyParam l (i + 1)).latency - 1) = 0 := by
        rw [hwrap, a2]; omega
      have hf := fsm_wait_low_clk inp latencyParam _ hw' hcs hev
      rw [if_neg hne] at hf
      rw [k1, k2, k4, k7, hf]
      refine ⟨a1, ?_, a3, a4⟩
      show toInt32 ((stateAt inp latencyParam l (i + 1)).latency - 1) = _
      rw [hwrap, a2, hs]
      push_cast
      ring
    · rw [if_neg hev] at hs
      have hst : (stateAt inp latencyParam l (i + 1)).state = State.STATE_CA ∨
          (stateAt inp latencyParam l (i + 1)).state = State.STATE_READ_WAIT ∨
          (stateAt inp latencyParam l (i + 1)).state = State.STATE_WRITE_WAIT ∨
          (stateAt inp latencyParam l (i + 1)).state = State.STATE_WRITE := by
        rcases hw' with h | h
        · right; left; exact h
        · right; right; left; exact h
      rw [k1, k2, k4, k7, fsm_low_not_clk inp latencyParam _ hst hcs hev]
      refine ⟨a1, ?_, a3, a4⟩
      rw [a2, hs]
      simp

/-- C16 as amended: let the sixth clock event of a command/address phase be processed in
the iteration entered with `l`, for a read or a memory-space write, with latency
parameter N, and let L0 be 2N - 2 when RWDS is sampled low in that iteration and 4N - 2
when it is sampled high, L0 positive and L0 + 2 (the count before the two-edge correction)
within the 32-bit `int` that holds it. While CS# stays low in the following iterations, no symbol is emitted and
the machine stays in its wait state as long as fewer than L0 clock events have followed;
the iteration driven by the L0-th following clock event appends exactly one WAIT symbol,
which starts at the sixth command/address clock event and ends at that clock event, and
moves on to READ or WRITE. -/
theorem hyperram_wait_count (inp : Inputs) (latencyParam : Int) (l : Locals)
    (hstate : l.state = State.STATE_CA) (hcs : curCs inp l = false)
    (hev : l.event_type = EventType.EVENT_CLK) (hf : l.first = false) (hb : l.ca_byte = 5)
    (hca : (DecodeCA ((l.ca_data <<< 8) ||| curData inp l.idata)).read = true ∨
      (DecodeCA ((l.ca_data <<< 8) ||| curData inp l.idata)).register_space = false)
    (L0 : Nat)
    (hL0 : (L0 : Int) = if curRwds inp l then 4 * latencyParam - 2 else 2 * latencyParam - 2)
    (_hpos : 0 < L0) (hfit : (L0 : Int) + 2 < 2 ^ 31) (j : Nat) (hj : 1 ≤ j)
    (hlow : ∀ k, 1 ≤ k → k ≤ j → curCs inp (stateAt inp latencyParam l k) = false)
    (_hrun : Running inp latencyParam l j) :
    (clkEventCount inp latencyParam l j < L0 →
      (iteration inp latencyParam (stateAt inp latencyParam l j)).1.cap
        = (iteration inp latencyParam l).1.cap ∧
      ((iteration inp latencyParam (stateAt inp latencyParam l j)).1.state
          = State.STATE_READ_WAIT ∨
        (iteration inp latencyParam (stateAt inp latencyParam l j)).1.state
          = State.STATE_WRITE_WAIT)) ∧
    ((stateAt inp latencyParam l j).event_type = EventType.EVENT_CLK →
      clkEventCount inp latencyParam l j = L0 →
      (iteration inp latencyParam (stateAt inp latencyParam l j)).1.cap.m_samples
        = (iteration inp latencyParam l).1.cap.m_samples ++ [⟨SymbolType.TYPE_WAIT, 0⟩] ∧
      (iteration inp latencyParam (stateAt inp latencyParam l j)).1.cap.m_offsets
        = (iteration inp latencyParam l).1.cap.m_offsets ++ [l.timestamp] ∧
      (iteration inp latencyParam (stateAt inp latencyParam l j)).1.cap.m_durations
        = (iteration inp latencyParam l).1.cap.m_durations
          ++ [(stateAt inp latencyParam l j).timestamp - l.timestamp] ∧
      ((iteration inp latencyParam (stateAt inp latencyParam l j)).1.state
          = State.STATE_READ ∨
        (iteration inp latencyParam (stateAt inp latencyParam l j)).1.state
          = State.STATE_WRITE)) := by
  have hN1 : 2 ≤ (if curRwds inp l then 4 * latencyParam else 2 * latencyParam) := by
    split_ifs at hL0 ⊢ <;> omega
  have hN2 : (if curRwds inp l then 4 * latencyParam else 2 * latencyParam) < 2 ^ 31 := by
    split_ifs at hL0 ⊢ <;> omega
  have hL31 : (L0 : Int) < 2 ^ 31 := by omega
  obtain ⟨s1, s2, s3⟩ := fsm_sixth_byte inp latencyParam l hstate hcs hev hf hb hN1 hN2
  have hw : (fsm inp latencyParam l).state = State.STATE_READ_WAIT ∨
      (fsm inp latencyParam l).state = State.STATE_WRITE_WAIT := by
    rw [s1]
    rcases hca with h | h
    · left; rw [if_pos h]
    · by_cases hr : (DecodeCA ((l.ca_data <<< 8) ||| curData inp l.idata)).read = true
      · left; rw [if_pos hr]
      · right; rw [if_neg hr, h]; rfl
  have hlat : (fsm inp latencyParam l).latency = (L0 : Int) := by rw [s2, hL0]
  have hcap0 : (iteration inp latencyParam l).1.cap = (fsm inp latencyParam l).cap :=
    (advance_keeps inp (fsm inp latencyParam l)).2.2.2.2.2.2
  constructor
  · intro hc
    obtain ⟨a1, -, a3, -⟩ := wait_run inp latencyParam l L0 hw hlat hL31 j hlow hc
    have e : (iteration inp latencyParam (stateAt inp latencyParam l j)).1
        = stateAt inp latencyParam l (j + 1) := rfl
    rw [e, a1, a3, hcap0]
    exact ⟨rfl, hw⟩
  · intro hevj hcj
    obtain ⟨i, rfl⟩ : ∃ i, j = i + 1 := ⟨j - 1, by omega⟩
    have hs : clkEventCount inp latencyParam l (i + 1) =
        clkEventCount inp latencyParam l i +
          (if (stateAt inp latencyParam l (i + 1)).event_type = EventType.EVENT_CLK
            then 1 else 0) := rfl
    rw [if_pos hevj] at hs
    obtain ⟨a1, a2, a3, a4⟩ := wait_run inp latencyParam l L0 hw hlat hL31 i
      (fun k h1 h2 => hlow k h1 (by omega)) (by omega)
    have hw' : (stateAt inp latencyParam l (i + 1)).state = State.STATE_READ_WAIT ∨
        (stateAt inp latencyParam l (i + 1)).state = State.STATE_WRITE_WAIT := by
      rw [a1]; exact hw
    have hz : toInt32 ((stateAt inp latencyParam l (i + 1)).latency - 1) = 0 := by
      rw [a2, toInt32_of_range _ (by omega) (by omega)]; omega
    have hfs := fsm_wait_low_clk inp latencyParam _ hw'
      (hlow (i + 1) (by omega) (Nat.le_refl _)) hevj
    rw [if_pos hz] at hfs
    obtain ⟨k1, -, -, -, -, -, k7⟩ :=
      advance_keeps inp (fsm inp latencyParam (stateAt inp latencyParam l (i + 1)))
    unfold iteration at hcap0 ⊢
    rw [k1, k7, hfs, hcap0]
    dsimp only
    rw [a3, a4, s3]
    refine ⟨rfl, rfl, rfl, ?_⟩
    split_ifs
    · left; rfl
    · right; rfl

/-- C16 as stated fails for a latency parameter beyond the `int` that holds the count: with
N = 2^31 + 2 and RWDS low, 2N - 2 is 4294967298, but the count is stored as
(2N mod 2^32) - 2 = 2, and on `shortWaitCapture` the WAIT symbol (offset 80, duration 20)
is emitted at the second clock event after the sixth command/address byte, at 100. The
capture has only two clock events between that byte and the rise of CS#. -/
theorem hyperram_wait_count_truncated :
    (Refresh (some shortWaitCapture) 2147483650).map
        (fun w => (symbolTypes w, w.m_offsets, w.m_durations))
      = some ([SymbolType.TYPE_SELECT, SymbolType.TYPE_CA, SymbolType.TYPE_WAIT,
          SymbolType.TYPE_DESELECT], [20, 30, 80, 100], [10, 50, 20, 300]) ∧
    (2 * 2147483650 - 2 : Int) = 4294967298 := by
  constructor
  · rfl
  · rfl

set_option maxRecDepth 20000 in
/-- Witness of amended C16: on `shortWaitCapture` with N = 2 the sixth command/address
byte is processed in iteration 8 with RWDS low, so L0 = 2; the second following
iteration is driven by the second following clock event. -/
theorem hyperram_wait_count_witness :
    ((stateAt shortWaitCapture 2 sixthByteState 2).event_type = EventType.EVENT_CLK →
      clkEventCount shortWaitCapture 2 sixthByteState 2 = 2 →
      (iteration shortWaitCapture 2 (stateAt shortWaitCapture 2 sixthByteState 2)).1.cap.m_samples
        = (iteration shortWaitCapture 2 sixthByteState).1.cap.m_samples
          ++ [⟨SymbolType.TYPE_WAIT, 0⟩] ∧
      (iteration shortWaitCapture 2 (stateAt shortWaitCapture 2 sixthByteState 2)).1.cap.m_offsets
        = (iteration shortWaitCapture 2 sixthByteState).1.cap.m_offsets
          ++ [sixthByteState.timestamp] ∧
      (iteration shortWaitCapture 2
          (stateAt shortWaitCapture 2 sixthByteState 2)).1.cap.m_durations
        = (iteration shortWaitCapture 2 sixthByteState).1.cap.m_durations
          ++ [(stateAt shortWaitCapture 2 sixthByteState 2).timestamp
            - sixthByteState.timestamp] ∧
      ((iteration shortWaitCapture 2 (stateAt shortWaitCapture 2 sixthByteState 2)).1.state
          = State.STATE_READ ∨
        (iteration shortWaitCapture 2 (stateAt shortWaitCapture 2 sixthByteState 2)).1.state
          = State.STATE_WRITE)) ∧
    (stateAt shortWaitCapture 2 sixthByteState 2).event_type = EventType.EVENT_CLK ∧
    clkEventCount shortWaitCapture 2 sixthByteState 2 = 2 :=
  ⟨(hyperram_wait_count shortWaitCapture 2 sixthByteState rfl rfl rfl rfl rfl
      (Or.inl rfl) 2 rfl (by decide) (by decide) 2 (by decide)
      (fun k h1 h2 => by interval_cases k <;> rfl)
      (fun i hi => by interval_cases i <;> rfl)).2, rfl, rfl⟩

/-- The `STATE_READ` branch on an RWDS event with CS# low (HyperRAMDecoder.cpp, 271-285). -/
theorem fsm_read_rwds (inp : Inputs) (latencyParam : Int) (l : Locals)
    (hstate : l.state = State.STATE_READ) (hev : l.event_type = EventType.EVENT_RWDS)
    (hcs : curCs inp l = false) :
    fsm inp latencyParam l =
      { l with
        cap := pushSymbol l.cap l.timestamp
          (if nextRwds inp l = l.timestamp ∨ nextRwds inp l > nextCs inp l then l.clk_time
            else nextRwds inp l - l.timestamp) ⟨SymbolType.TYPE_DATA, curData inp l.idata⟩
        sym_start := l.timestamp +
          (if nextRwds inp l = l.timestamp ∨ nextRwds inp l > nextCs inp l then l.clk_time
            else nextRwds inp l - l.timestamp) } := by
  unfold curCs at hcs
  unfold fsm
  dsimp only
  rw [hstate]
  simp only [hcs, hev, Bool.false_eq_true, if_false, if_true]
  rfl

/-- C17: in state READ an RWDS event at time t with CS# low appends one DATA symbol with
offset t and some duration d, and sets `sym_start` to t + d. When RWDS has a further
sample, at tr, and CS# has a further sample, at tc, with tr not later than tc, then
d = tr - t and the symbol ends at tr. Otherwise (RWDS has no further sample, or CS# has
none, or the next CS# sample is earlier than the next RWDS sample) d is `clk_time`.
The variable `clk_time` is set at every CLK event to the time since the previous CLK
event and is left alone by every other event. -/
theorem hyperram_read_data_symbol (inp : Inputs) (latencyParam : Int) (l : Locals)
    (hstate : l.state = State.STATE_READ) (hev : l.event_type = EventType.EVENT_RWDS)
    (hcs : curCs inp l = false) (hpend : Pending inp l) :
    (∃ d, (fsm inp latencyParam l).cap.m_samples
          = l.cap.m_samples ++ [⟨SymbolType.TYPE_DATA, curData inp l.idata⟩] ∧
        (fsm inp latencyParam l).cap.m_offsets = l.cap.m_offsets ++ [l.timestamp] ∧
        (fsm inp latencyParam l).cap.m_durations = l.cap.m_durations ++ [d] ∧
        (fsm inp latencyParam l).sym_start = l.timestamp + d ∧
        (fsm inp latencyParam l).state = State.STATE_READ ∧
        (∀ tr tc, l.irwds + 1 < inp.rwds.m_samples.length →
          l.ics + 1 < inp.csn.m_samples.length →
          inp.rwds.m_offsets.getD (l.irwds + 1) 0 = tr →
          inp.csn.m_offsets.getD (l.ics + 1) 0 = tc → tr ≤ tc →
          d = tr - l.timestamp ∧ l.timestamp + d = tr) ∧
        (¬ l.irwds + 1 < inp.rwds.m_samples.length → d = l.clk_time) ∧
        (¬ l.ics + 1 < inp.csn.m_samples.length → d = l.clk_time) ∧
        (l.irwds + 1 < inp.rwds.m_samples.length → l.ics + 1 < inp.csn.m_samples.length →
          inp.csn.m_offsets.getD (l.ics + 1) 0 < inp.rwds.m_offsets.getD (l.irwds + 1) 0 →
          d = l.clk_time)) ∧
    (∀ l1 : Locals, (advance inp l1).2 = false →
      ((advance inp l1).1.event_type = EventType.EVENT_CLK →
        (advance inp l1).1.clk_time = (advance inp l1).1.timestamp - l1.last_clk ∧
        (advance inp l1).1.last_clk = (advance inp l1).1.timestamp) ∧
      ((advance inp l1).1.event_type ≠ EventType.EVENT_CLK →
        (advance inp l1).1.clk_time = l1.clk_time ∧
        (advance inp l1).1.last_clk = l1.last_clk)) := by
  constructor
  · refine ⟨(if nextRwds inp l = l.timestamp ∨ nextRwds inp l > nextCs inp l then l.clk_time
        else nextRwds inp l - l.timestamp), ?_, ?_, ?_, ?_, ?_, ?_, ?_, ?_, ?_⟩
    · rw [fsm_read_rwds inp latencyParam l hstate hev hcs]; rfl
    · rw [fsm_read_rwds inp latencyParam l hstate hev hcs]; rfl
    · rw [fsm_read_rwds inp latencyParam l hstate hev hcs]; rfl
    · rw [fsm_read_rwds inp latencyParam l hstate hev hcs]
    · rw [fsm_read_rwds inp latencyParam l hstate hev hcs]; exact hstate
    · intro tr tc h1 h2 e1 e2 hle
      have p1 := hpend.2.2 h1
      have n1 : nextRwds inp l = tr := by
        unfold nextRwds GetNextEventTimestamp; rw [if_pos h1, e1]
      have n2 : nextCs inp l = tc := by
        unfold nextCs GetNextEventTimestamp; rw [if_pos h2, e2]
      rw [n1, n2]
      have c : ¬ (tr = l.timestamp ∨ tr > tc) := by
        rw [e1] at p1
        omega
      rw [if_neg c]
      constructor
      · rfl
      · omega
    · intro h1
      have n1 : nextRwds inp l = l.timestamp := by
        unfold nextRwds GetNextEventTimestamp; rw [if_neg h1]
      rw [if_pos (Or.inl n1)]
    · intro h2
      have n2 : nextCs inp l = l.timestamp := by
        unfold nextCs GetNextEventTimestamp; rw [if_neg h2]
      by_cases h1 : l.irwds + 1 < inp.rwds.m_samples.length
      · have p1 := hpend.2.2 h1
        have n1 : nextRwds inp l = inp.rwds.m_offsets.getD (l.irwds + 1) 0 := by
          unfold nextRwds GetNextEventTimestamp; rw [if_pos h1]
        rw [if_pos (Or.inr (by rw [n1, n2]; exact p1))]
      · have n1 : nextRwds inp l = l.timestamp := by
          unfold nextRwds GetNextEventTimestamp; rw [if_neg h1]
        rw [if_pos (Or.inl n1)]
    · intro h1 h2 hlt
      have n1 : nextRwds inp l = inp.rwds.m_offsets.getD (l.irwds + 1) 0 := by
        unfold nextRwds GetNextEventTimestamp; rw [if_pos h1]
      have n2 : nextCs inp l = inp.csn.m_offsets.getD (l.ics + 1) 0 := by
        unfold nextCs GetNextEventTimestamp; rw [if_pos h2]
      rw [if_pos (Or.inr (by rw [n1, n2]; exact hlt))]
  · intro l1 hrun
    have hne : ¬ (soonestEvent (nextCs inp l1) (nextClk inp l1) (nextRwds inp l1)).1
        = l1.timestamp := by
      intro he
      have := (advance_stop_iff inp l1).mpr he
      rw [hrun] at this
      exact Bool.false_ne_true this
    have hnext : (soonestEvent (nextCs inp l1) (nextClk inp l1) (nextRwds inp l1)).2
        = EventType.EVENT_CLK →
        (soonestEvent (nextCs inp l1) (nextClk inp l1) (nextRwds inp l1)).1
          = nextClk inp l1 := by
      intro h
      have hs := (soonestEvent_snd (nextCs inp l1) (nextClk inp l1) (nextRwds inp l1)).2.1.mp h
      rw [soonestEvent_fst]
      simp only [min_def]
      split_ifs <;> omega
    unfold advance
    dsimp only
    rw [if_neg hne]
    by_cases hc : (soonestEvent (nextCs inp l1) (nextClk inp l1) (nextRwds inp l1)).2
        = EventType.EVENT_CLK
    · rw [if_pos hc]
      refine ⟨fun _ => ⟨?_, ?_⟩, fun h => absurd hc h⟩
      · show nextClk inp l1 - l1.last_clk = _ - l1.last_clk
        rw [hnext hc]
      · show nextClk inp l1 = _
        rw [hnext hc]
    · rw [if_neg hc]
      exact ⟨fun h => absurd h hc, fun _ => ⟨rfl, rfl⟩⟩

set_option maxRecDepth 20000 in
/-- Witness for C17 on `earlyDeselectCapture`: iteration 11 of the decode runs in READ at
the RWDS event at 105 with CS# low; it appends a symbol at offset 105 and moves
`sym_start` to the end of that symbol. -/
theorem hyperram_read_data_symbol_witness :
    readEdgeState.state = State.STATE_READ ∧
    readEdgeState.event_type = EventType.EVENT_RWDS ∧
    curCs earlyDeselectCapture readEdgeState = false ∧
    readEdgeState.timestamp = 105 ∧
    ∃ d, (fsm earlyDeselectCapture 2 readEdgeState).cap.m_offsets
        = readEdgeState.cap.m_offsets ++ [readEdgeState.timestamp] ∧
      (fsm earlyDeselectCapture 2 readEdgeState).cap.m_durations
        = readEdgeState.cap.m_durations ++ [d] ∧
      (fsm earlyDeselectCapture 2 readEdgeState).sym_start = readEdgeState.timestamp + d := by
  refine ⟨rfl, rfl, rfl, rfl, ?_⟩
  obtain ⟨d, _, h2, h3, h4, _⟩ :=
    (hyperram_read_data_symbol earlyDeselectCapture 2 readEdgeState rfl rfl rfl
      ⟨fun _ => by decide, fun _ => by decide, fun _ => by decide⟩).1
  exact ⟨d, h2, h3, h4⟩

end HyperRAMDecoder

theorem foldl_update_range' {β : Type} (g : Nat → β → β) (d : β) (n lo : Nat) (l : List β)
    (j : Nat) :
    ((List.range' lo n).foldl (fun l i => l.set i (g i (l.getD i d))) l)[j]? =
      if lo ≤ j ∧ j < lo + n then (if j < l.length then some (g j (l.getD j d)) else none)
      else l[j]? := by
  induction n generalizing lo l with
  | zero =>
    have : ¬ (lo ≤ j ∧ j < lo) := by omega
    simp [this]
  | succ n ih =>
    rw [List.range'_succ, List.foldl_cons, ih, List.length_set, List.getElem?_set]
    by_cases h1 : lo = j
    · subst h1
      have c1 : ¬ (lo + 1 ≤ lo ∧ lo < lo + 1 + n) := by omega
      have c2 : lo ≤ lo ∧ lo < lo + (n + 1) := by omega
      simp [c1, c2]
    · by_cases h2 : lo + 1 ≤ j ∧ j < lo + 1 + n
      · have c2 : lo ≤ j ∧ j < lo + (n + 1) := by omega
        simp [h2, c2, List.getElem?_set_ne h1]
      · have c2 : ¬ (lo ≤ j ∧ j < lo + (n + 1)) := by omega
        simp [h1, h2, c2]

/-- A loop that replaces every element below `n` by a function of its index and its old
value. -/
theorem forLoop_update_full {β : Type} (g : Nat → β → β) (d : β) (n : Nat) (l : List β)
    (j : Nat) (hj : j < n) (hl : j < l.length) :
    (forLoop 0 n (fun i l => l.set i (g i (l.getD i d))) l)[j]? = some (g j (l.getD j d)) := by
  unfold forLoop
  rw [foldl_update_range']
  have : 0 ≤ j ∧ j < 0 + (n - 0) := by omega
  rw [if_pos this, if_pos hl]

theorem forLoop_update_length {β : Type} (g : Nat → β → β) (d : β) (lo hi : Nat)
    (l : List β) :
    (forLoop lo hi (fun i l => l.set i (g i (l.getD i d))) l).length = l.length := by
  unfold forLoop
  generalize List.range' lo (hi - lo) = is
  induction is generalizing l with
  | nil => rfl
  | cons i is ih => simp only [List.foldl_cons]; rw [ih, List.length_set]

namespace HyperRAMDecoder

/-- The `switch` moves no data-line cursor and keeps the clock bookkeeping. -/
theorem fsm_idata (inp : Inputs) (latencyParam : Int) (l : Locals) :
    (fsm inp latencyParam l).idata = l.idata ∧
    (fsm inp latencyParam l).clk_time = l.clk_time ∧
    (fsm inp latencyParam l).last_clk = l.last_clk := by
  have hd : ∀ l : Locals, (deselect l).idata = l.idata ∧ (deselect l).clk_time = l.clk_time ∧
      (deselect l).last_clk = l.last_clk := fun _ => ⟨rfl, rfl, rfl⟩
  have hc : ∀ (a : Int) (b : Bool) (c : Nat) (l : Locals),
      (caClock a b c l).idata = l.idata ∧ (caClock a b c l).clk_time = l.clk_time ∧
      (caClock a b c l).last_clk = l.last_clk := by
    intro a b c l
    unfold caClock
    dsimp only
    split_ifs <;> exact ⟨rfl, rfl, rfl⟩
  unfold fsm
  dsimp only
  split <;> split_ifs <;>
    first
      | exact ⟨rfl, rfl, rfl⟩
      | exact hd _
      | exact hc _ _ _ _

/-- The timestamp the data-line cursors are advanced to after the step that leaves the
variables `l1`: shifted by half a clock interval when the state is READ and the selected
event is RWDS (HyperRAMDecoder.cpp, 348-354). -/
theorem dataTimestamp_cases (l1 : Locals) :
    (l1.state = State.STATE_READ ∧ l1.event_type = EventType.EVENT_RWDS →
      dataTimestamp l1 = l1.timestamp + Int.tdiv l1.clk_time 2) ∧
    (¬ (l1.state = State.STATE_READ ∧ l1.event_type = EventType.EVENT_RWDS) →
      dataTimestamp l1 = l1.timestamp) := by
  unfold dataTimestamp
  constructor
  · intro h; rw [if_pos h]
  · intro h; rw [if_neg h]

/-- The loop over the eight data lines (HyperRAMDecoder.cpp, 355-356) advances each
cursor from its own old value. -/
theorem dataLoop_spec (inp : Inputs) (T : Int) (idata : List Nat) :
    (forLoop 0 8 (fun i idata =>
      idata.set i (AdvanceToTimestamp (inp.data.getD i Waveform.new) (idata.getD i 0)
        (inp.data.getD i Waveform.new).m_samples.length T)) idata).length = idata.length ∧
    ∀ i, i < 8 → i < idata.length →
      (forLoop 0 8 (fun i idata =>
        idata.set i (AdvanceToTimestamp (inp.data.getD i Waveform.new) (idata.getD i 0)
          (inp.data.getD i Waveform.new).m_samples.length T)) idata)[i]? =
        some (AdvanceToTimestamp (inp.data.getD i Waveform.new) (idata.getD i 0)
          (inp.data.getD i Waveform.new).m_samples.length T) :=
  ⟨forLoop_update_length (fun i x => AdvanceToTimestamp (inp.data.getD i Waveform.new) x
      (inp.data.getD i Waveform.new).m_samples.length T) 0 0 8 idata,
    fun i hi hl => forLoop_update_full (fun i x =>
      AdvanceToTimestamp (inp.data.getD i Waveform.new) x
        (inp.data.getD i Waveform.new).m_samples.length T) 0 8 idata i hi hl⟩

/-- The cursors left by a selection that does not stop the loop. -/
theorem advance_targets (inp : Inputs) (l : Locals) (hrun : (advance inp l).2 = false)
    (hlen : l.idata.length = 8) :
    (advance inp l).1.ics = AdvanceToTimestamp inp.csn l.ics inp.csn.m_samples.length
      (advance inp l).1.timestamp ∧
    (advance inp l).1.iclk = AdvanceToTimestamp inp.clk l.iclk inp.clk.m_samples.length
      (advance inp l).1.timestamp ∧
    (advance inp l).1.irwds = AdvanceToTimestamp inp.rwds l.irwds inp.rwds.m_samples.length
      (advance inp l).1.timestamp ∧
    (advance inp l).1.idata.length = 8 ∧
    ∀ i, i < 8 → (advance inp l).1.idata[i]? =
      some (AdvanceToTimestamp (inp.data.getD i Waveform.new) (l.idata.getD i 0)
        (inp.data.getD i Waveform.new).m_samples.length (dataTimestamp (advance inp l).1)) := by
  have hne : ¬ (soonestEvent (nextCs inp l) (nextClk inp l) (nextRwds inp l)).1
      = l.timestamp := by
    intro he
    have := (advance_stop_iff inp l).mpr he
    rw [hrun] at this
    exact Bool.false_ne_true this
  unfold advance dataTimestamp
  dsimp only
  rw [if_neg hne]
  dsimp only
  by_cases hc : (soonestEvent (nextCs inp l) (nextClk inp l) (nextRwds inp l)).2
      = EventType.EVENT_CLK
  · rw [if_pos hc]
    refine ⟨rfl, rfl, rfl, ?_, ?_⟩
    · exact ((dataLoop_spec inp _ _).1).trans hlen
    · intro i hi
      exact (dataLoop_spec inp _ _).2 i hi (by show i < l.idata.length; omega)
  · rw [if_neg hc]
    refine ⟨rfl, rfl, rfl, ?_, ?_⟩
    · exact ((dataLoop_spec inp _ _).1).trans hlen
    · intro i hi
      exact (dataLoop_spec inp _ _).2 i hi (by show i < l.idata.length; omega)

/-- C18: in every iteration that goes on, the CS#, CLK and RWDS cursors are advanced to
the new current timestamp without any shift, and each of the eight data-line cursors is
advanced to `dataTimestamp`: the new current timestamp plus `clk_time / 2` exactly when
the state left by the switch is READ and the selected event is RWDS, and the new current
timestamp itself in every other step. -/
theorem hyperram_cursor_targets (inp : Inputs) (latencyParam : Int) (l : Locals)
    (hrun : (iteration inp latencyParam l).2 = false) (hlen : l.idata.length = 8) :
    (iteration inp latencyParam l).1.ics = AdvanceToTimestamp inp.csn l.ics
      inp.csn.m_samples.length (iteration inp latencyParam l).1.timestamp ∧
    (iteration inp latencyParam l).1.iclk = AdvanceToTimestamp inp.clk l.iclk
      inp.clk.m_samples.length (iteration inp latencyParam l).1.timestamp ∧
    (iteration inp latencyParam l).1.irwds = AdvanceToTimestamp inp.rwds l.irwds
      inp.rwds.m_samples.length (iteration inp latencyParam l).1.timestamp ∧
    (∀ i, i < 8 → (iteration inp latencyParam l).1.idata[i]? =
      some (AdvanceToTimestamp (inp.data.getD i Waveform.new) (l.idata.getD i 0)
        (inp.data.getD i Waveform.new).m_samples.length
        (dataTimestamp (iteration inp latencyParam l).1))) ∧
    ((iteration inp latencyParam l).1.state = State.STATE_READ ∧
        (iteration inp latencyParam l).1.event_type = EventType.EVENT_RWDS →
      dataTimestamp (iteration inp latencyParam l).1 =
        (iteration inp latencyParam l).1.timestamp
          + Int.tdiv (iteration inp latencyParam l).1.clk_time 2) ∧
    (¬ ((iteration inp latencyParam l).1.state = State.STATE_READ ∧
        (iteration inp latencyParam l).1.event_type = EventType.EVENT_RWDS) →
      dataTimestamp (iteration inp latencyParam l).1 =
        (iteration inp latencyParam l).1.timestamp) ∧
    (iteration inp latencyParam l).1.state = (fsm inp latencyParam l).state := by
  obtain ⟨-, hi1, hi2, hi3⟩ := fsm_cursors inp latencyParam l
  obtain ⟨hid, -, -⟩ := fsm_idata inp latencyParam l
  have hlen2 : (fsm inp latencyParam l).idata.length = 8 := by rw [hid]; exact hlen
  unfold iteration at hrun ⊢
  obtain ⟨a1, a2, a3, -, a5⟩ := advance_targets inp (fsm inp latencyParam l) hrun hlen2
  rw [hi1] at a1
  rw [hi2] at a2
  rw [hi3] at a3
  rw [hid] at a5
  exact ⟨a1, a2, a3, a5, (dataTimestamp_cases _).1, (dataTimestamp_cases _).2,
    (advance_keeps inp _).1⟩

set_option maxRecDepth 20000 in
/-- Witness for C18 on `earlyDeselectCapture`: iteration 10 of the decode goes on, and the
CS# cursor it leaves is the cursor advanced to the new timestamp. -/
theorem hyperram_cursor_targets_witness :
    (iteration earlyDeselectCapture 2
      (stateAt earlyDeselectCapture 2 (initLocals earlyDeselectCapture) 10)).2 = false ∧
    (iteration earlyDeselectCapture 2
        (stateAt earlyDeselectCapture 2 (initLocals earlyDeselectCapture) 10)).1.ics
      = AdvanceToTimestamp earlyDeselectCapture.csn
          (stateAt earlyDeselectCapture 2 (initLocals earlyDeselectCapture) 10).ics
          earlyDeselectCapture.csn.m_samples.length
          (iteration earlyDeselectCapture 2
            (stateAt earlyDeselectCapture 2 (initLocals earlyDeselectCapture) 10)).1.timestamp :=
  ⟨rfl, (hyperram_cursor_targets earlyDeselectCapture 2
    (stateAt earlyDeselectCapture 2 (initLocals earlyDeselectCapture) 10) rfl rfl).1⟩

/-! ## HyperRAMDecoder: the cursors -/

theorem advanceLoop_lt (offsets : List Int) (len : Nat) (timestamp : Int) (fuel i : Nat)
    (h : i < len) : advanceLoop offsets len timestamp fuel i < len := by
  induction fuel generalizing i with
  | zero => exact h
  | succ n ih =>
    unfold advanceLoop
    split_ifs with c
    · exact ih (i + 1) c.1
    · exact h

theorem AdvanceToTimestamp_lt (wfm : Waveform Bool) (i len : Nat) (timestamp : Int)
    (h : i < len) : AdvanceToTimestamp wfm i len timestamp < len :=
  advanceLoop_lt _ _ _ _ _ h

theorem advanceLoop_at (offsets : List Int) (len : Nat) (timestamp : Int) (fuel i : Nat) :
    advanceLoop offsets len timestamp fuel i = i ∨
      offsets.getD (advanceLoop offsets len timestamp fuel i) 0 ≤ timestamp := by
  induction fuel generalizing i with
  | zero => left; rfl
  | succ n ih =>
    unfold advanceLoop
    split_ifs with c
    · rcases ih (i + 1) with e | e
      · right; rw [e]; exact c.2
      · right; exact e
    · left; rfl

/-- A cursor that has moved stands on a sample that is not later than the target. -/
theorem AdvanceToTimestamp_at (wfm : Waveform Bool) (i len : Nat) (timestamp : Int) :
    AdvanceToTimestamp wfm i len timestamp = i ∨
      wfm.m_offsets.getD (AdvanceToTimestamp wfm i len timestamp) 0 ≤ timestamp :=
  advanceLoop_at _ _ _ _ _

/-- The current timestamp grows in every selection that does not stop the loop, when the
pending samples lie after it. -/
theorem advance_timestamp_gt (inp : Inputs) (l : Locals) (hp : Pending inp l)
    (h : (advance inp l).2 = false) : l.timestamp < (advance inp l).1.timestamp := by
  have hne : (soonestEvent (nextCs inp l) (nextClk inp l) (nextRwds inp l)).1 ≠ l.timestamp := by
    intro he
    have := (advance_stop_iff inp l).mpr he
    rw [h] at this
    exact Bool.false_ne_true this
  rw [advance_timestamp]
  rcases soonest_attained inp l hne with ⟨b, e⟩ | ⟨b, e⟩ | ⟨b, e⟩
  · rw [← e]; exact hp.1 b
  · rw [← e]; exact hp.2.1 b
  · rw [← e]; exact hp.2.2 b

/-- One cursor across one advance. -/
theorem cursorOK_advance (w : Waveform Bool) (i : Nat) (T T1 : Int)
    (h : CursorOK w i T) (hT : T < T1) :
    CursorOK w (AdvanceToTimestamp w i w.m_samples.length T1) T1 := by
  obtain ⟨h1, -, h3⟩ := h
  refine ⟨AdvanceToTimestamp_lt w i _ T1 h1, AdvanceToTimestamp_post w i _ T1, ?_⟩
  rcases AdvanceToTimestamp_at w i w.m_samples.length T1 with e | e
  · rw [e]
    rcases h3 with a | a
    · left; omega
    · right; exact a
  · left; exact e

theorem cursorsOK_pending (inp : Inputs) (l : Locals) (h : CursorsOK inp l) : Pending inp l :=
  ⟨h.1.2.1, h.2.1.2.1, h.2.2.1.2.1⟩

/-- The cursor invariant is kept by every iteration that goes on. -/
theorem cursorsOK_step (inp : Inputs) (latencyParam : Int) (l : Locals)
    (h : CursorsOK inp l) (hrun : (iteration inp latencyParam l).2 = false) :
    CursorsOK inp (iteration inp latencyParam l).1 := by
  obtain ⟨ht, hi1, hi2, hi3⟩ := fsm_cursors inp latencyParam l
  obtain ⟨hid, -, -⟩ := fsm_idata inp latencyParam l
  obtain ⟨c1, c2, c3, c4, c5⟩ := h
  have hlen2 : (fsm inp latencyParam l).idata.length = 8 := by rw [hid]; exact c4
  have hp : Pending inp (fsm inp latencyParam l) := by
    unfold Pending
    rw [ht, hi1, hi2, hi3]
    exact ⟨c1.2.1, c2.2.1, c3.2.1⟩
  unfold iteration at hrun ⊢
  have hgt := advance_timestamp_gt inp _ hp hrun
  rw [ht] at hgt
  obtain ⟨a1, a2, a3, a4, a5⟩ := advance_targets inp (fsm inp latencyParam l) hrun hlen2
  rw [hi1] at a1
  rw [hi2] at a2
  rw [hi3] at a3
  rw [hid] at a5
  refine ⟨?_, ?_, ?_, a4, ?_⟩
  · rw [a1]; exact cursorOK_advance _ _ _ _ c1 hgt
  · rw [a2]; exact cursorOK_advance _ _ _ _ c2 hgt
  · rw [a3]; exact cursorOK_advance _ _ _ _ c3 hgt
  · intro i hi
    rw [List.getD_eq_getElem?_getD, a5 i hi]
    exact AdvanceToTimestamp_lt _ _ _ _ (c5 i hi)

/-- No cursor moves back in an iteration that goes on. -/
theorem cursors_monotone (inp : Inputs) (latencyParam : Int) (l : Locals)
    (hlen : l.idata.length = 8) (hrun : (iteration inp latencyParam l).2 = false) :
    l.ics ≤ (iteration inp latencyParam l).1.ics ∧
    l.iclk ≤ (iteration inp latencyParam l).1.iclk ∧
    l.irwds ≤ (iteration inp latencyParam l).1.irwds ∧
    ∀ i, i < 8 → l.idata.getD i 0 ≤ (iteration inp latencyParam l).1.idata.getD i 0 := by
  obtain ⟨-, hi1, hi2, hi3⟩ := fsm_cursors inp latencyParam l
  obtain ⟨hid, -, -⟩ := fsm_idata inp latencyParam l
  have hlen2 : (fsm inp latencyParam l).idata.length = 8 := by rw [hid]; exact hlen
  unfold iteration at hrun ⊢
  obtain ⟨a1, a2, a3, -, a5⟩ := advance_targets inp (fsm inp latencyParam l) hrun hlen2
  rw [hi1] at a1
  rw [hi2] at a2
  rw [hi3] at a3
  rw [hid] at a5
  refine ⟨?_, ?_, ?_, ?_⟩
  · rw [a1]; exact AdvanceToTimestamp_ge _ _ _ _
  · rw [a2]; exact AdvanceToTimestamp_ge _ _ _ _
  · rw [a3]; exact AdvanceToTimestamp_ge _ _ _ _
  · intro i hi
    rw [List.getD_eq_getElem?_getD (advance inp (fsm inp latencyParam l)).1.idata, a5 i hi]
    exact AdvanceToTimestamp_ge _ _ _ _

theorem increasing_getD_le (w : Waveform Bool) (h : IncreasingOffsets w) (a b : Nat)
    (hab : a ≤ b) (hb : b < w.m_samples.length) :
    w.m_offsets.getD a 0 ≤ w.m_offsets.getD b 0 := by
  obtain ⟨hl, -, hp⟩ := h
  have hb' : b < w.m_offsets.length := by rw [hl]; exact hb
  have ha' : a < w.m_offsets.length := by omega
  rw [List.getD_eq_getElem?_getD, List.getD_eq_getElem?_getD, List.getElem?_eq_getElem ha',
    List.getElem?_eq_getElem hb']
  show w.m_offsets[a] ≤ w.m_offsets[b]
  rcases Nat.eq_or_lt_of_le hab with e | e
  · subst e; exact le_refl _
  · exact le_of_lt (List.pairwise_iff_getElem.mp hp a b ha' hb' e)

/-- On entry to the loop the invariant holds for non-empty channels with non-negative,
strictly increasing offsets. -/
theorem cursorsOK_init (inp : Inputs) (hcs : IncreasingOffsets inp.csn)
    (hclk : IncreasingOffsets inp.clk) (hrwds : IncreasingOffsets inp.rwds)
    (hne : 0 < inp.csn.m_samples.length ∧ 0 < inp.clk.m_samples.length ∧
      0 < inp.rwds.m_samples.length)
    (hdata : ∀ i, i < 8 → 0 < (inp.data.getD i Waveform.new).m_samples.length) :
    CursorsOK inp (initLocals inp) := by
  have key : ∀ w : Waveform Bool, IncreasingOffsets w → 0 < w.m_samples.length →
      CursorOK w 0 0 := by
    intro w hw hn
    refine ⟨hn, ?_, Or.inr rfl⟩
    intro h1
    obtain ⟨hl, hnn, hp⟩ := hw
    have h0' : 0 < w.m_offsets.length := by omega
    have h1' : 1 < w.m_offsets.length := by omega
    have e0 : 0 ≤ w.m_offsets[0] := hnn _ (List.getElem_mem _)
    have e1 : w.m_offsets[0] < w.m_offsets[1] :=
      List.pairwise_iff_getElem.mp hp 0 1 h0' h1' (by omega)
    rw [List.getD_eq_getElem?_getD, List.getElem?_eq_getElem h1']
    show 0 < w.m_offsets[1]
    omega
  refine ⟨key _ hcs hne.1, key _ hclk hne.2.1, key _ hrwds hne.2.2, rfl, ?_⟩
  intro i hi
  have : (initLocals inp).idata.getD i 0 = 0 := by
    show (List.replicate 8 0).getD i 0 = 0
    interval_cases i <;> rfl
  rw [this]
  exact hdata i hi

/-- The invariant holds on entry to every iteration the loop reaches. -/
theorem cursorsOK_stateAt (inp : Inputs) (latencyParam : Int)
    (h0 : CursorsOK inp (initLocals inp)) (j : Nat)
    (hrun : Running inp latencyParam (initLocals inp) j) :
    CursorsOK inp (stateAt inp latencyParam (initLocals inp) j) := by
  induction j with
  | zero => exact h0
  | succ j ih =>
    have hr : Running inp latencyParam (initLocals inp) j := fun i hi => hrun i (by omega)
    exact cursorsOK_step inp latencyParam _ (ih hr) (hrun j (by omega))

/-- The invariant identifies the sample at the cursor as the last one at or before the
current timestamp, when the channel has such a sample. -/
theorem lastAtOrBefore_of_cursorOK (w : Waveform Bool) (hw : IncreasingOffsets w) (i : Nat)
    (T : Int) (h : CursorOK w i T) (h0 : w.m_offsets.getD 0 0 ≤ T) : LastAtOrBefore w i T := by
  obtain ⟨h1, h2, h3⟩ := h
  refine ⟨h1, ?_, ?_⟩
  · rcases h3 with a | a
    · exact a
    · rw [a]; exact h0
  · intro k hk hle
    by_contra hlt
    have hi1 : i + 1 < w.m_samples.length := by omega
    have := increasing_getD_le w hw (i + 1) k (by omega) hk
    have := h2 hi1
    omega

/-- C19 as stated fails on `lateClockCapture`, whose offsets are non-negative and strictly
increasing: after the first step the current timestamp is 5 and the CLK cursor stands on
sample 0, whose offset is 7; the CLK channel has no sample at or before 5 for the cursor
to point at. -/
theorem hyperram_cursor_before_first_sample :
    IncreasingOffsets lateClockCapture.csn ∧ IncreasingOffsets lateClockCapture.clk ∧
    IncreasingOffsets lateClockCapture.rwds ∧
    (iteration lateClockCapture 3 (initLocals lateClockCapture)).2 = false ∧
    (stateAt lateClockCapture 3 (initLocals lateClockCapture) 1).timestamp = 5 ∧
    (stateAt lateClockCapture 3 (initLocals lateClockCapture) 1).iclk = 0 ∧
    lateClockCapture.clk.m_offsets.getD 0 0 = 7 ∧
    ¬ LastAtOrBefore lateClockCapture.clk
      (stateAt lateClockCapture 3 (initLocals lateClockCapture) 1).iclk
      (stateAt lateClockCapture 3 (initLocals lateClockCapture) 1).timestamp := by
  refine ⟨⟨rfl, by decide, by decide⟩, ⟨rfl, by decide, by decide⟩,
    ⟨rfl, by decide, by decide⟩, rfl, rfl, rfl, rfl, ?_⟩
  intro h
  have h2 : lateClockCapture.clk.m_offsets.getD
      (stateAt lateClockCapture 3 (initLocals lateClockCapture) 1).iclk 0
      ≤ (stateAt lateClockCapture 3 (initLocals lateClockCapture) 1).timestamp := h.2.1
  exact absurd h2 (by decide)

/-- C19 as amended: for non-empty inputs with non-negative, strictly increasing offsets,
in every iteration the loop goes through, no cursor (CS#, CLK, RWDS, the eight data
lines) moves back and every cursor stays below the length of its waveform; after the
iteration each of the CS#, CLK and RWDS cursors points at the last sample whose offset
is at or before the current timestamp when the channel has such a sample, and stands on
sample 0 when the first sample of the channel is later than the current timestamp. -/
theorem hyperram_cursors_throughout (inp : Inputs) (latencyParam : Int)
    (hcs : IncreasingOffsets inp.csn) (hclk : IncreasingOffsets inp.clk)
    (hrwds : IncreasingOffsets inp.rwds)
    (hne : 0 < inp.csn.m_samples.length ∧ 0 < inp.clk.m_samples.length ∧
      0 < inp.rwds.m_samples.length)
    (hdata : ∀ i, i < 8 → 0 < (inp.data.getD i Waveform.new).m_samples.length) (j : Nat)
    (hrun : Running inp latencyParam (initLocals inp) (j + 1)) :
    ((stateAt inp latencyParam (initLocals inp) j).ics
        ≤ (stateAt inp latencyParam (initLocals inp) (j + 1)).ics ∧
      (stateAt inp latencyParam (initLocals inp) j).iclk
        ≤ (stateAt inp latencyParam (initLocals inp) (j + 1)).iclk ∧
      (stateAt inp latencyParam (initLocals inp) j).irwds
        ≤ (stateAt inp latencyParam (initLocals inp) (j + 1)).irwds ∧
      ∀ i, i < 8 → (stateAt inp latencyParam (initLocals inp) j).idata.getD i 0
        ≤ (stateAt inp latencyParam (initLocals inp) (j + 1)).idata.getD i 0) ∧
    ((stateAt inp latencyParam (initLocals inp) (j + 1)).ics < inp.csn.m_samples.length ∧
      (stateAt inp latencyParam (initLocals inp) (j + 1)).iclk < inp.clk.m_samples.length ∧
      (stateAt inp latencyParam (initLocals inp) (j + 1)).irwds < inp.rwds.m_samples.length ∧
      ∀ i, i < 8 → (stateAt inp latencyParam (initLocals inp) (j + 1)).idata.getD i 0
        < (inp.data.getD i Waveform.new).m_samples.length) ∧
    ((inp.csn.m_offsets.getD 0 0 ≤ (stateAt inp latencyParam (initLocals inp) (j + 1)).timestamp →
        LastAtOrBefore inp.csn (stateAt inp latencyParam (initLocals inp) (j + 1)).ics
          (stateAt inp latencyParam (initLocals inp) (j + 1)).timestamp) ∧
      (inp.clk.m_offsets.getD 0 0 ≤ (stateAt inp latencyParam (initLocals inp) (j + 1)).timestamp →
        LastAtOrBefore inp.clk (stateAt inp latencyParam (initLocals inp) (j + 1)).iclk
          (stateAt inp latencyParam (initLocals inp) (j + 1)).timestamp) ∧
      (inp.rwds.m_offsets.getD 0 0 ≤ (stateAt inp latencyParam (initLocals inp) (j + 1)).timestamp →
        LastAtOrBefore inp.rwds (stateAt inp latencyParam (initLocals inp) (j + 1)).irwds
          (stateAt inp latencyParam (initLocals inp) (j + 1)).timestamp)) ∧
    (((stateAt inp latencyParam (initLocals inp) (j + 1)).timestamp < inp.csn.m_offsets.getD 0 0 →
        (stateAt inp latencyParam (initLocals inp) (j + 1)).ics = 0) ∧
      ((stateAt inp latencyParam (initLocals inp) (j + 1)).timestamp < inp.clk.m_offsets.getD 0 0 →
        (stateAt inp latencyParam (initLocals inp) (j + 1)).iclk = 0) ∧
      ((stateAt inp latencyParam (initLocals inp) (j + 1)).timestamp
          < inp.rwds.m_offsets.getD 0 0 →
        (stateAt inp latencyParam (initLocals inp) (j + 1)).irwds = 0)) := by
  have h0 := cursorsOK_init inp hcs hclk hrwds hne hdata
  have hj := cursorsOK_stateAt inp latencyParam h0 j (fun i hi => hrun i (by omega))
  have hj1 := cursorsOK_stateAt inp latencyParam h0 (j + 1) hrun
  have hmono := cursors_monotone inp latencyParam _ hj.2.2.2.1 (hrun j (by omega))
  have first : ∀ (w : Waveform Bool) (i : Nat) (T : Int), IncreasingOffsets w →
      CursorOK w i T → T < w.m_offsets.getD 0 0 → i = 0 := by
    intro w i T hw hc hT
    rcases hc.2.2 with a | a
    · have := increasing_getD_le w hw 0 i (by omega) hc.1
      omega
    · exact a
  obtain ⟨c1, c2, c3, -, c5⟩ := hj1
  exact ⟨hmono, ⟨c1.1, c2.1, c3.1, c5⟩,
    ⟨lastAtOrBefore_of_cursorOK _ hcs _ _ c1, lastAtOrBefore_of_cursorOK _ hclk _ _ c2,
      lastAtOrBefore_of_cursorOK _ hrwds _ _ c3⟩,
    ⟨first _ _ _ hcs c1, first _ _ _ hclk c2, first _ _ _ hrwds c3⟩⟩

set_option maxRecDepth 20000 in
/-- Witness for C19 on `tieCapture`: the first iteration of the decode goes on, and after
it the CS# cursor is the last sample at or before the current timestamp. -/
theorem hyperram_cursors_throughout_witness :
    Running tieCapture 3 (initLocals tieCapture) 1 ∧
    (tieCapture.csn.m_offsets.getD 0 0
        ≤ (stateAt tieCapture 3 (initLocals tieCapture) 1).timestamp →
      LastAtOrBefore tieCapture.csn (stateAt tieCapture 3 (initLocals tieCapture) 1).ics
        (stateAt tieCapture 3 (initLocals tieCapture) 1).timestamp) :=
  ⟨by intro i hi; interval_cases i; rfl,
    (hyperram_cursors_throughout tieCapture 3
      ⟨rfl, by decide, by decide⟩ ⟨rfl, by decide, by decide⟩ ⟨rfl, by decide, by decide⟩
      ⟨by decide, by decide, by decide⟩
      (by intro i hi; interval_cases i <;> decide) 0
      (by intro i hi; interval_cases i; rfl)).2.2.1.1⟩

end HyperRAMDecoder

/-! ## DownsampleFilter: a second refresh changes nothing -/

theorem Waveform.eq_of_fields {α : Type} (a b : Waveform α)
    (h1 : a.m_timescale = b.m_timescale) (h2 : a.m_startTimestamp = b.m_startTimestamp)
    (h3 : a.m_startFemtoseconds = b.m_startFemtoseconds)
    (h4 : a.m_triggerPhase = b.m_triggerPhase) (h5 : a.m_densePacked = b.m_densePacked)
    (h6 : a.m_offsets = b.m_offsets) (h7 : a.m_durations = b.m_durations)
    (h8 : a.m_samples = b.m_samples) : a = b := by
  cases a
  cases b
  simp only [Waveform.mk.injEq]
  exact ⟨h1, h2, h3, h4, h5, h6, h7, h8⟩

theorem resizeVec_of_length {β : Type} (d : β) (n : Nat) (l : List β) (h : l.length = n) :
    resizeVec d n l = l := by
  unfold resizeVec
  rw [← h, List.take_length, Nat.sub_self]
  simp

/-- A loop that stores at every index of an array does not depend on what the array
held before. -/
theorem forLoop_set_all {β : Type} (f : Nat → β) (n : Nat) (l : List β) (hl : l.length = n) :
    forLoop 0 n (fun i l => l.set i (f i)) l = (List.range n).map f := by
  apply List.ext_getElem?
  intro j
  by_cases hj : j < n
  · rw [forLoop_set_full f n l hl j hj, List.getElem?_map, List.getElem?_range hj]
    rfl
  · rw [List.getElem?_eq_none (by rw [forLoop_set_length, hl]; omega),
      List.getElem?_eq_none (by simp; omega)]

theorem stampLoop_triggerPhase {α : Type} (din : Waveform α) (factor : Int) (v : Nat → α)
    (lo hi : Nat) (cap : Waveform α) :
    (forLoop lo hi (fun i cap =>
        storeSample i (v i) (copyTimestamp din factor i cap)) cap).m_triggerPhase
      = cap.m_triggerPhase := by
  apply forLoop_keep (fun w : Waveform α => w.m_triggerPhase)
  intro i s; rfl

theorem storeLoop_triggerPhase {α : Type} (v : Nat → α) (lo hi : Nat) (cap : Waveform α) :
    (forLoop lo hi (fun i cap => storeSample i (v i) cap) cap).m_triggerPhase
      = cap.m_triggerPhase := by
  apply forLoop_keep (fun w : Waveform α => w.m_triggerPhase)
  intro i s; rfl

theorem fillLoop_triggerPhase {α : Type} (lo hi : Nat) (cap : Waveform α) :
    (forLoop lo hi fillDense cap).m_triggerPhase = cap.m_triggerPhase := by
  apply forLoop_keep (fun w : Waveform α => w.m_triggerPhase)
  intro i s; rfl

theorem antialiasedPath_triggerPhase {α : Type} [Zero α] [Add α] [Mul α] (k : Kernel α)
    (din : Waveform α) (factor : Int) (len outlen : Nat) (cap : Waveform α) :
    (DownsampleFilter.antialiasedPath k din factor len outlen cap).m_triggerPhase
      = cap.m_triggerPhase :=
  stampLoop_triggerPhase din factor _ 0 outlen (cap.Resize outlen)

theorem plainPath_triggerPhase {α : Type} [Zero α] (din : Waveform α) (factor : Int)
    (outlen : Nat) (cap : Waveform α) :
    (DownsampleFilter.plainPath din factor outlen cap).m_triggerPhase = cap.m_triggerPhase := by
  unfold DownsampleFilter.plainPath
  dsimp only
  split_ifs
  · rw [storeLoop_triggerPhase, fillLoop_triggerPhase]
    rfl
  · rw [storeLoop_triggerPhase, fillLoop_triggerPhase]
    rfl
  · rw [storeLoop_triggerPhase]
    rfl
  · exact stampLoop_triggerPhase din factor _ 0 outlen (cap.Resize outlen)

theorem plainPath_sparse_densePacked {α : Type} [Zero α] (din : Waveform α) (factor : Int)
    (outlen : Nat) (cap : Waveform α) (hd : din.m_densePacked = false) :
    (DownsampleFilter.plainPath din factor outlen cap).m_densePacked = cap.m_densePacked := by
  unfold DownsampleFilter.plainPath
  simp only [hd]
  exact stampLoop_densePacked din factor _ 0 outlen (cap.Resize outlen)

/-- The anti-aliased path and the non-dense plain path write every timestamp and sample:
their sequences do not depend on the reused output. -/
theorem antialiasedPath_lists {α : Type} [Zero α] [Add α] [Mul α] (k : Kernel α)
    (din : Waveform α) (factor : Int) (len outlen : Nat) (c1 c2 : Waveform α) :
    (DownsampleFilter.antialiasedPath k din factor len outlen c1).m_offsets
      = (DownsampleFilter.antialiasedPath k din factor len outlen c2).m_offsets ∧
    (DownsampleFilter.antialiasedPath k din factor len outlen c1).m_durations
      = (DownsampleFilter.antialiasedPath k din factor len outlen c2).m_durations ∧
    (DownsampleFilter.antialiasedPath k din factor len outlen c1).m_samples
      = (DownsampleFilter.antialiasedPath k din factor len outlen c2).m_samples := by
  refine ⟨?_, ?_, ?_⟩
  · rw [antialiasedPath_offsets, antialiasedPath_offsets,
      forLoop_set_all _ _ _ (resizeVec_length _ _ _), forLoop_set_all _ _ _ (resizeVec_length _ _ _)]
  · rw [antialiasedPath_durations, antialiasedPath_durations,
      forLoop_set_all _ _ _ (resizeVec_length _ _ _), forLoop_set_all _ _ _ (resizeVec_length _ _ _)]
  · rw [antialiasedPath_samples, antialiasedPath_samples,
      forLoop_set_all _ _ _ (resizeVec_length _ _ _), forLoop_set_all _ _ _ (resizeVec_length _ _ _)]

theorem plainPath_samples_indep {α : Type} [Zero α] (din : Waveform α) (factor : Int)
    (outlen : Nat) (c1 c2 : Waveform α) :
    (DownsampleFilter.plainPath din factor outlen c1).m_samples
      = (DownsampleFilter.plainPath din factor outlen c2).m_samples := by
  rw [plainPath_samples, plainPath_samples, forLoop_set_all _ _ _ (resizeVec_length _ _ _),
    forLoop_set_all _ _ _ (resizeVec_length _ _ _)]

theorem plainPath_sparse_lists {α : Type} [Zero α] (din : Waveform α) (factor : Int)
    (outlen : Nat) (c1 c2 : Waveform α) (hd : din.m_densePacked = false) :
    (DownsampleFilter.plainPath din factor outlen c1).m_offsets
      = (DownsampleFilter.plainPath din factor outlen c2).m_offsets ∧
    (DownsampleFilter.plainPath din factor outlen c1).m_durations
      = (DownsampleFilter.plainPath din factor outlen c2).m_durations := by
  refine ⟨?_, ?_⟩
  · rw [plainPath_sparse_offsets _ _ _ _ hd, plainPath_sparse_offsets _ _ _ _ hd,
      forLoop_set_all _ _ _ (resizeVec_length _ _ _), forLoop_set_all _ _ _ (resizeVec_length _ _ _)]
  · rw [plainPath_sparse_durations _ _ _ _ hd, plainPath_sparse_durations _ _ _ _ hd,
      forLoop_set_all _ _ _ (resizeVec_length _ _ _), forLoop_set_all _ _ _ (resizeVec_length _ _ _)]

/-- The dense branch leaves alone the timestamps of a reused output that is flagged
dense-packed and already has the right length. -/
theorem plainPath_dense_stable {α : Type} [Zero α] (din : Waveform α) (factor : Int)
    (outlen : Nat) (cap : Waveform α) (hd : din.m_densePacked = true)
    (hflag : cap.m_densePacked = true) (hs : cap.m_samples.length = outlen)
    (ho : cap.m_offsets.length = outlen) (hdur : cap.m_durations.length = outlen) :
    (DownsampleFilter.plainPath din factor outlen cap).m_offsets = cap.m_offsets ∧
    (DownsampleFilter.plainPath din factor outlen cap).m_durations = cap.m_durations := by
  have hlt : ¬ outlen > cap.m_samples.length := by omega
  constructor
  · rw [plainPath_dense_offsets _ _ _ _ hd]
    simp only [hflag, Bool.true_eq_false, if_false, hlt]
    exact resizeVec_of_length _ _ _ ho
  · rw [plainPath_dense_durations _ _ _ _ hd]
    simp only [hflag, Bool.true_eq_false, if_false, hlt]
    exact resizeVec_of_length _ _ _ hdur

/-- On its normal path a second refresh with the same input, the same factor, the same
kernel and the same anti-aliasing flag, run on the output of the first, publishes the same
waveform again, in every field, whatever output the first run started from. -/
theorem refresh_twice {α : Type} [Zero α] [Add α] [Mul α]
    (mkKernel : Int → Kernel α) (din : Waveform α) (F : Nat) (aa : Bool)
    (data : Option (Waveform α)) :
    DownsampleFilter.Refresh mkKernel (some din) (F : Int) aa
        (DownsampleFilter.Refresh mkKernel (some din) (F : Int) aa data)
      = DownsampleFilter.Refresh mkKernel (some din) (F : Int) aa data := by
  rw [downsample_refresh_eq mkKernel din F aa data, downsample_refresh_eq]
  generalize din.m_samples.length / toSizeT (F : Int) = n
  generalize SetupEmptyOutputWaveform din data false = c1
  apply congrArg some
  cases aa
  · simp only [Bool.false_eq_true, if_false]
    cases hd : din.m_densePacked
    · apply Waveform.eq_of_fields
      · rfl
      · rfl
      · rfl
      · show (DownsampleFilter.plainPath din F n _).m_triggerPhase
          = (DownsampleFilter.plainPath din F n c1).m_triggerPhase
        rw [plainPath_triggerPhase, plainPath_triggerPhase]
        rfl
      · show (DownsampleFilter.plainPath din F n _).m_densePacked
          = (DownsampleFilter.plainPath din F n c1).m_densePacked
        rw [plainPath_sparse_densePacked _ _ _ _ hd, plainPath_sparse_densePacked _ _ _ _ hd]
        rfl
      · exact (plainPath_sparse_lists din F n _ c1 hd).1
      · exact (plainPath_sparse_lists din F n _ c1 hd).2
      · exact plainPath_samples_indep din F n _ c1
    · have hl := paths_lengths (mkKernel F) din F din.m_samples.length n c1 false
      simp only [Bool.false_eq_true, if_false] at hl
      have hst := plainPath_dense_stable din F n
        (SetupEmptyOutputWaveform din (some
          { DownsampleFilter.plainPath din F n c1 with
            m_timescale := din.m_timescale * F
            m_startTimestamp := din.m_startTimestamp
            m_startFemtoseconds := din.m_startFemtoseconds }) false) hd
        (plainPath_dense_densePacked din F n c1 hd) hl.1 hl.2.1 hl.2.2
      apply Waveform.eq_of_fields
      · rfl
      · rfl
      · rfl
      · show (DownsampleFilter.plainPath din F n _).m_triggerPhase
          = (DownsampleFilter.plainPath din F n c1).m_triggerPhase
        rw [plainPath_triggerPhase, plainPath_triggerPhase]
        rfl
      · show (DownsampleFilter.plainPath din F n _).m_densePacked
          = (DownsampleFilter.plainPath din F n c1).m_densePacked
        rw [plainPath_dense_densePacked _ _ _ _ hd, plainPath_dense_densePacked _ _ _ _ hd]
      · exact hst.1
      · exact hst.2
      · exact plainPath_samples_indep din F n _ c1
  · simp only [if_true]
    apply Waveform.eq_of_fields
    · rfl
    · rfl
    · rfl
    · show (DownsampleFilter.antialiasedPath _ din F _ n _).m_triggerPhase
        = (DownsampleFilter.antialiasedPath _ din F _ n c1).m_triggerPhase
      rw [antialiasedPath_triggerPhase, antialiasedPath_triggerPhase]
      rfl
    · show (DownsampleFilter.antialiasedPath _ din F _ n _).m_densePacked
        = (DownsampleFilter.antialiasedPath _ din F _ n c1).m_densePacked
      rw [antialiasedPath_densePacked, antialiasedPath_densePacked]
      rfl
    · exact (antialiasedPath_lists _ din F _ n _ c1).1
    · exact (antialiasedPath_lists _ din F _ n _ c1).2.1
    · exact (antialiasedPath_lists _ din F _ n _ c1).2.2

/-! ## Input validation and the early exit of the refreshes -/

/-- C21: for each of the Downsample, MovingAverage, HyperRAM and IBIS-driver filters,
`ValidateChannel(i, stream)` returns true exactly when the channel of the stream is not
null, `i` is below the number of inputs the constructor declares (1, 1, 11 and 2) and the
channel kind is the expected one (analog, analog, digital, digital); on a null stream all
four return false. The functions take the index and the stream only and return a truth
value: no member of the filter is written. -/
theorem validateChannel_spec (i : Nat) (stream : StreamDescriptor) :
    (DownsampleFilter.ValidateChannel i stream = true ↔
      ∃ ch, stream.m_channel = some ch ∧ i < DownsampleFilter.inputNames.length ∧
        ch.m_type = ChannelType.CHANNEL_TYPE_ANALOG) ∧
    (MovingAverageFilter.ValidateChannel i stream = true ↔
      ∃ ch, stream.m_channel = some ch ∧ i < MovingAverageFilter.inputNames.length ∧
        ch.m_type = ChannelType.CHANNEL_TYPE_ANALOG) ∧
    (HyperRAMDecoder.ValidateChannel i stream = true ↔
      ∃ ch, stream.m_channel = some ch ∧ i < HyperRAMDecoder.inputNames.length ∧
        ch.m_type = ChannelType.CHANNEL_TYPE_DIGITAL) ∧
    (IBISDriverFilter.ValidateChannel i stream = true ↔
      ∃ ch, stream.m_channel = some ch ∧ i < IBISDriverFilter.inputNames.length ∧
        ch.m_type = ChannelType.CHANNEL_TYPE_DIGITAL) ∧
    (DownsampleFilter.inputNames.length = 1 ∧ MovingAverageFilter.inputNames.length = 1 ∧
      HyperRAMDecoder.inputNames.length = 11 ∧ IBISDriverFilter.inputNames.length = 2) ∧
    (stream.m_channel = none →
      DownsampleFilter.ValidateChannel i stream = false ∧
      MovingAverageFilter.ValidateChannel i stream = false ∧
      HyperRAMDecoder.ValidateChannel i stream = false ∧
      IBISDriverFilter.ValidateChannel i stream = false) := by
  refine ⟨?_, ?_, ?_, ?_, ⟨rfl, rfl, rfl, rfl⟩, ?_⟩
  · unfold DownsampleFilter.ValidateChannel
    cases h : stream.m_channel with
    | none => simp
    | some ch => simp [DownsampleFilter.inputNames]
  · unfold MovingAverageFilter.ValidateChannel
    cases h : stream.m_channel with
    | none => simp
    | some ch => simp [MovingAverageFilter.inputNames]
  · unfold HyperRAMDecoder.ValidateChannel
    cases h : stream.m_channel with
    | none => simp
    | some ch => simp [HyperRAMDecoder.inputNames]
  · unfold IBISDriverFilter.ValidateChannel
    cases h : stream.m_channel with
    | none => simp
    | some ch => simp [IBISDriverFilter.inputNames]
  · intro h
    simp [DownsampleFilter.ValidateChannel, MovingAverageFilter.ValidateChannel,
      HyperRAMDecoder.ValidateChannel, IBISDriverFilter.ValidateChannel, h]

/-- C22: when the input validity check fails, the refresh of the Downsample, of the
MovingAverage and of the HyperRAM filter publishes the null output on stream 0 and leaves
every other member as it was (parameters, display range and offset, axis units); the
MovingAverage filter does the same when the input is shorter than the depth. On a valid
input the MovingAverage refresh does write the axis units. -/
theorem refresh_invalid_input {α : Type} [LinearOrderedField α] (mkKernel : Int → Kernel α)
    (md : DownsampleFilter.Members α) (mm : MovingAverageFilter.Members α)
    (mh : HyperRAMDecoder.Members) :
    DownsampleFilter.RefreshMembers mkKernel none md = { md with data := none } ∧
    MovingAverageFilter.RefreshMembers none mm = { mm with data := none } ∧
    HyperRAMDecoder.RefreshMembers none mh = { mh with data := none } ∧
    (∀ a : AnalogInput α, a.wfm.m_samples.length < toSizeT mm.depth →
      MovingAverageFilter.RefreshMembers (some a) mm = { mm with data := none }) ∧
    (∀ a : AnalogInput α, ¬ a.wfm.m_samples.length < toSizeT mm.depth →
      (MovingAverageFilter.RefreshMembers (some a) mm).m_xAxisUnit = a.xAxisUnit ∧
      (MovingAverageFilter.RefreshMembers (some a) mm).m_yAxisUnit = a.yAxisUnit) := by
  refine ⟨rfl, rfl, rfl, ?_, ?_⟩
  · intro a h
    simp only [MovingAverageFilter.RefreshMembers, if_pos h]
  · intro a h
    simp only [MovingAverageFilter.RefreshMembers, if_neg h]
    split_ifs <;> exact ⟨rfl, rfl⟩

/-! ## FilterParameter: the enum tables -/

namespace FilterParameter

/-- Clearing the tables leaves them inverse to each other. -/
theorem inverse_clear (p : EnumMaps) : Inverse (ClearEnumValues p) := by
  intro n v
  simp [ClearEnumValues, EnumMaps.empty]

/-- Adding a pair whose name and whose code are both new keeps the tables inverse. -/
theorem inverse_add_fresh (p : EnumMaps) (name : String) (value : Int) (h : Inverse p)
    (hn : p.m_forwardEnumMap name = none) (hv : p.m_reverseEnumMap value = none) :
    Inverse (AddEnumValue p name value) := by
  intro n v
  simp only [AddEnumValue]
  by_cases h1 : n = name <;> by_cases h2 : v = value
  · simp [h1, h2]
  · subst h1
    simp only [if_true, if_neg h2, Option.some.injEq]
    constructor
    · intro e
      exact absurd e.symm h2
    · intro e
      have := (h n v).2 e
      rw [hn] at this
      exact absurd this (by simp)
  · subst h2
    simp only [if_true, if_neg h1, Option.some.injEq]
    constructor
    · intro e
      have := (h n v).1 e
      rw [hv] at this
      exact absurd this (by simp)
    · intro e
      exact absurd e.symm h1
  · simp only [if_neg h1, if_neg h2]
    exact h n v

/-- C23, the code at two failing inputs. Adding the name "A" with code 0 and then again
with code 1 leaves the reverse table mapping 0 to "A" while the forward table maps "A"
to 1; adding "A" and then "B" with the same code 0 leaves the forward table mapping "A"
to 0 while the reverse table maps 0 to "B". After either sequence of calls the two tables
are not inverse to each other. -/
theorem enum_tables_not_inverse :
    ((runCalls EnumMaps.empty [Call.add "A" 0, Call.add "A" 1]).m_reverseEnumMap 0 = some "A" ∧
      (runCalls EnumMaps.empty [Call.add "A" 0, Call.add "A" 1]).m_forwardEnumMap "A"
        = some 1 ∧
      ¬ Inverse (runCalls EnumMaps.empty [Call.add "A" 0, Call.add "A" 1])) ∧
    ((runCalls EnumMaps.empty [Call.add "A" 0, Call.add "B" 0]).m_forwardEnumMap "A" = some 0 ∧
      (runCalls EnumMaps.empty [Call.add "A" 0, Call.add "B" 0]).m_reverseEnumMap 0
        = some "B" ∧
      ¬ Inverse (runCalls EnumMaps.empty [Call.add "A" 0, Call.add "B" 0])) := by
  refine ⟨⟨by decide, by decide, ?_⟩, ⟨by decide, by decide, ?_⟩⟩
  · intro h
    have h1 := (h "A" 0).2 (by decide)
    revert h1
    decide
  · intro h
    have h1 := (h "A" 0).1 (by decide)
    revert h1
    decide

end FilterParameter

/-! ## DownsampleFilter: the anti-aliasing kernel -/

theorem foldl_add_eq_sum {α : Type} [AddCommMonoid α] (l : List α) (a : α) :
    l.foldl (fun s k => s + k) a = a + l.sum := by
  induction l generalizing a with
  | nil => simp
  | cons x xs ih => simp only [List.foldl_cons, List.sum_cons, ih, add_assoc]

/-- The kernel of `gaussianKernel` as a list: tap `x` is the raw tap divided by the sum
of the raw taps. -/
theorem gaussianKernel_taps {α : Type} [Field α] (fn : MathFns α) (factor : Int) :
    (DownsampleFilter.gaussianKernel fn factor).kernel
      = (List.range (fn.ceil (3 * DownsampleFilter.sigma fn factor) * 2 + 1).toNat).map
          (fun x =>
            DownsampleFilter.rawTap fn (DownsampleFilter.sigma fn factor)
              (1 / (DownsampleFilter.sigma fn factor * fn.sqrt (2 * fn.pi)))
              (fn.ceil (3 * DownsampleFilter.sigma fn factor)) x
            / ((List.range (fn.ceil (3 * DownsampleFilter.sigma fn factor) * 2 + 1).toNat).map
                (DownsampleFilter.rawTap fn (DownsampleFilter.sigma fn factor)
                  (1 / (DownsampleFilter.sigma fn factor * fn.sqrt (2 * fn.pi)))
                  (fn.ceil (3 * DownsampleFilter.sigma fn factor)))).sum) := by
  unfold DownsampleFilter.gaussianKernel
  simp only
  generalize (fn.ceil (3 * DownsampleFilter.sigma fn factor) * 2 + 1).toNat = n
  generalize DownsampleFilter.rawTap fn (DownsampleFilter.sigma fn factor)
    (1 / (DownsampleFilter.sigma fn factor * fn.sqrt (2 * fn.pi)))
    (fn.ceil (3 * DownsampleFilter.sigma fn factor)) = f
  have h1 : forLoop 0 n (fun x kernel => kernel.set x (f x)) (resizeVec 0 n [])
      = (List.range n).map f :=
    forLoop_set_all f n _ (by rw [resizeVec_length])
  rw [h1, foldl_add_eq_sum, zero_add]
  apply List.ext_getElem?
  intro j
  by_cases hj : j < n
  · rw [forLoop_update_full (fun _ v => v / ((List.range n).map f).sum) 0 n _ j hj
      (by simpa using hj)]
    simp [hj, List.getD_eq_getElem?_getD]
  · have hlen : (forLoop 0 n (fun i kernel =>
        kernel.set i (kernel.getD i 0 / ((List.range n).map f).sum))
        ((List.range n).map f)).length = n := by
      rw [forLoop_update_length (fun _ v => v / ((List.range n).map f).sum) 0]
      simp
    rw [List.getElem?_eq_none (by omega), List.getElem?_eq_none (by simp; omega)]

/-- The standard deviation computed by the kernel construction is positive and is not 1,
for every factor from 1 on. -/
theorem sigma_real_pos_ne_one (F : Int) (hF : 1 ≤ F) :
    0 < (F : ℝ) / Real.sqrt (2 * Real.log 2) ∧ (F : ℝ) / Real.sqrt (2 * Real.log 2) ≠ 1 := by
  have hlog1 : (0.6931471803 : ℝ) < Real.log 2 := Real.log_two_gt_d9
  have hlog2 : Real.log 2 < (0.6931471808 : ℝ) := Real.log_two_lt_d9
  have hpos : 0 < 2 * Real.log 2 := by linarith
  have hs : 0 < Real.sqrt (2 * Real.log 2) := Real.sqrt_pos.2 hpos
  have hF1 : (1 : ℝ) ≤ (F : ℝ) := by exact_mod_cast hF
  refine ⟨div_pos (by linarith) hs, ?_⟩
  intro h
  rw [div_eq_one_iff_eq hs.ne'] at h
  have hsq : (F : ℝ) * (F : ℝ) = 2 * Real.log 2 := by
    rw [h]
    exact Real.mul_self_sqrt hpos.le
  rcases eq_or_lt_of_le hF with h1 | h2
  · rw [← h1] at hsq
    have h3 : (1 : ℝ) = 2 * Real.log 2 := by simpa using hsq
    linarith
  · have hF2 : (2 : ℝ) ≤ (F : ℝ) := by exact_mod_cast h2
    nlinarith

/-- C27, the code: over the reals, for every factor F from 1 on, the kernel built by the
anti-aliasing path has sigma = F / sqrt(2 ln 2), radius r = ceil(3 sigma), 2r+1 taps that
sum to 1, and the tap at distance d from the centre is exp(-d^2 / (2 sigma)) divided by
the sum S of these values: the exponent is divided by 2 sigma (line 139), not by
2 sigma^2. The taps are therefore not proportional to exp(-d^2 / (2 sigma^2)): the kernel
is a normalised Gaussian of standard deviation sqrt(sigma), not sigma. -/
theorem downsample_kernel_not_sigma (fn : MathFns ℝ)
    (hfn : fn = { sqrt := Real.sqrt, log := Real.log, exp := Real.exp,
                  ceil := fun x => Int.ceil x, pi := Real.pi })
    (F : Int) (hF : 1 ≤ F) :
    ∃ (σ : ℝ) (r : Int) (S : ℝ),
      σ = (F : ℝ) / Real.sqrt (2 * Real.log 2) ∧ r = Int.ceil (3 * σ) ∧ 1 ≤ r ∧ 0 < S ∧
      DownsampleFilter.sigma fn F = σ ∧
      (DownsampleFilter.gaussianKernel fn F).kernel_radius = r ∧
      ((DownsampleFilter.gaussianKernel fn F).kernel.length : Int) = 2 * r + 1 ∧
      (DownsampleFilter.gaussianKernel fn F).kernel.sum = 1 ∧
      (∀ x, x < (DownsampleFilter.gaussianKernel fn F).kernel.length →
        (DownsampleFilter.gaussianKernel fn F).kernel.getD x 0
          = Real.exp (-((x : ℝ) - (r : ℝ)) ^ 2 / (2 * σ)) / S) ∧
      ¬ ∃ c : ℝ, ∀ x, x < (DownsampleFilter.gaussianKernel fn F).kernel.length →
        (DownsampleFilter.gaussianKernel fn F).kernel.getD x 0
          = c * Real.exp (-((x : ℝ) - (r : ℝ)) ^ 2 / (2 * σ ^ 2)) := by
  subst hfn
  obtain ⟨hσpos, hσ1⟩ := sigma_real_pos_ne_one F hF
  have hsig : DownsampleFilter.sigma
      ({ sqrt := Real.sqrt, log := Real.log, exp := Real.exp, ceil := fun x => Int.ceil x,
         pi := Real.pi } : MathFns ℝ) F = (F : ℝ) / Real.sqrt (2 * Real.log 2) := by
    simp [DownsampleFilter.sigma]
  set σ : ℝ := (F : ℝ) / Real.sqrt (2 * Real.log 2) with hσdef
  set r : Int := Int.ceil (3 * σ) with hrdef
  have hr1 : 1 ≤ r := by
    have : 0 < r := Int.ceil_pos.2 (by linarith)
    omega
  set n : Nat := (r * 2 + 1).toNat with hndef
  have hn : (n : Int) = 2 * r + 1 := by
    rw [hndef, Int.toNat_of_nonneg (by omega)]
    ring
  set α : ℝ := 1 / (σ * Real.sqrt (2 * Real.pi)) with hαdef
  have hα : α ≠ 0 := by
    have : 0 < σ * Real.sqrt (2 * Real.pi) :=
      mul_pos hσpos (Real.sqrt_pos.2 (by positivity))
    exact (one_div_pos.2 this).ne'
  set e : Nat → ℝ := fun x => Real.exp (-((x : ℝ) - (r : ℝ)) ^ 2 / (2 * σ)) with hedef
  have hraw : ∀ x : Nat, DownsampleFilter.rawTap
      ({ sqrt := Real.sqrt, log := Real.log, exp := Real.exp, ceil := fun x => Int.ceil x,
         pi := Real.pi } : MathFns ℝ) σ α r x = α * e x := by
    intro x
    simp only [DownsampleFilter.rawTap, hedef]
    congr 2
    push_cast
    ring
  set S : ℝ := ((List.range n).map e).sum with hSdef
  have hSpos : 0 < S := by
    apply List.sum_pos
    · intro y hy
      rcases List.mem_map.1 hy with ⟨x, _, rfl⟩
      exact Real.exp_pos _
    · have : 0 < n := by omega
      simp [List.map_eq_nil_iff, List.range_eq_nil]
      omega
  have hker : (DownsampleFilter.gaussianKernel
      ({ sqrt := Real.sqrt, log := Real.log, exp := Real.exp, ceil := fun x => Int.ceil x,
         pi := Real.pi } : MathFns ℝ) F).kernel = (List.range n).map (fun x => e x / S) := by
    rw [gaussianKernel_taps]
    simp only [hsig]
    have hfun : DownsampleFilter.rawTap
        ({ sqrt := Real.sqrt, log := Real.log, exp := Real.exp, ceil := fun x => Int.ceil x,
           pi := Real.pi } : MathFns ℝ) σ α r = fun x => α * e x := funext hraw
    show (List.range n).map (fun x => DownsampleFilter.rawTap _ σ α r x
      / ((List.range n).map (DownsampleFilter.rawTap _ σ α r)).sum) = _
    rw [hfun, List.sum_map_mul_left]
    apply List.map_congr_left
    intro x _
    exact mul_div_mul_left _ _ hα
  have hlen : (DownsampleFilter.gaussianKernel
      ({ sqrt := Real.sqrt, log := Real.log, exp := Real.exp, ceil := fun x => Int.ceil x,
         pi := Real.pi } : MathFns ℝ) F).kernel.length = n := by
    rw [hker]
    simp
  have htap : ∀ x, x < n → ((List.range n).map (fun x => e x / S)).getD x 0 = e x / S := by
    intro x hx
    simp [List.getD_eq_getElem?_getD, hx]
  refine ⟨σ, r, S, rfl, rfl, hr1, hSpos, hsig, ?_, ?_, ?_, ?_, ?_⟩
  · simp only [DownsampleFilter.gaussianKernel, hsig]
  · rw [hlen, hn]
  · rw [hker]
    have : (fun x => e x / S) = fun x => e x * S⁻¹ := by
      funext x
      exact div_eq_mul_inv _ _
    rw [this, List.sum_map_mul_right]
    exact mul_inv_cancel₀ hSpos.ne'
  · intro x hx
    rw [hlen] at hx
    rw [hker, htap x hx]
  · rintro ⟨c, hc⟩
    have h0 := hc r.toNat (by rw [hlen]; omega)
    have h1 := hc (r.toNat + 1) (by rw [hlen]; omega)
    rw [hker, htap _ (by omega)] at h0 h1
    have hrc : ((r.toNat : Nat) : ℝ) = (r : ℝ) := by
      have : ((r.toNat : Nat) : Int) = r := Int.toNat_of_nonneg (by omega)
      exact_mod_cast this
    simp only [hedef] at h0 h1
    push_cast at h0 h1
    rw [hrc] at h0 h1
    simp only [sub_self, add_sub_cancel_left, ne_eq, OfNat.ofNat_ne_zero, not_false_eq_true,
      zero_pow, neg_zero, zero_div, Real.exp_zero, mul_one, one_pow] at h0 h1
    rw [← h0] at h1
    have hS : (1 : ℝ) / S ≠ 0 := (one_div_pos.2 hSpos).ne'
    have h2 : Real.exp (-1 / (2 * σ)) = Real.exp (-1 / (2 * σ ^ 2)) := by
      have h3 : Real.exp (-1 / (2 * σ)) / S = 1 / S * Real.exp (-1 / (2 * σ)) := by ring
      rw [h3] at h1
      exact mul_left_cancel₀ hS h1
    have h4 := Real.exp_injective h2
    have hσne : σ ≠ 0 := hσpos.ne'
    field_simp at h4
    have h5 : σ * (σ - 1) = 0 := by nlinarith
    rcases mul_eq_zero.1 h5 with h6 | h6
    · exact hσne h6
    · exact hσ1 (by linarith)

/-- Witness for C27 at the factor 1. -/
theorem downsample_kernel_not_sigma_witness :
    ∃ (σ : ℝ) (r : Int) (S : ℝ),
      σ = ((1 : Int) : ℝ) / Real.sqrt (2 * Real.log 2) ∧ r = Int.ceil (3 * σ) ∧ 1 ≤ r ∧ 0 < S ∧
      DownsampleFilter.sigma
          ({ sqrt := Real.sqrt, log := Real.log, exp := Real.exp, ceil := fun x => Int.ceil x,
             pi := Real.pi } : MathFns ℝ) 1 = σ ∧
      (DownsampleFilter.gaussianKernel
          ({ sqrt := Real.sqrt, log := Real.log, exp := Real.exp, ceil := fun x => Int.ceil x,
             pi := Real.pi } : MathFns ℝ) 1).kernel.sum = 1 := by
  obtain ⟨σ, r, S, h1, h2, h3, h4, h5, _, _, h8, _⟩ :=
    downsample_kernel_not_sigma _ rfl 1 (by decide)
  exact ⟨σ, r, S, h1, h2, h3, h4, h5, h8⟩

/-! ## IBISDriverFilter -/

theorem forLoop_fixed {σ : Type} (lo hi : Nat) (body : Nat → σ → σ) (s : σ)
    (h : ∀ i, lo ≤ i → i < hi → body i s = s) : forLoop lo hi body s = s := by
  unfold forLoop
  have hmem : ∀ i, i ∈ List.range' lo (hi - lo) → body i s = s := by
    intro i hi1
    rw [List.mem_range'_1] at hi1
    exact h i hi1.1 (by omega)
  revert hmem
  generalize List.range' lo (hi - lo) = is
  intro hmem
  induction is with
  | nil => rfl
  | cons i is ih =>
    simp only [List.foldl_cons]
    rw [hmem i (List.mem_cons_self i is)]
    exact ih (fun j hj => hmem j (List.mem_cons_of_mem i hj))

namespace IBISDriverFilter

/-- Sampled data without a transition has no edge: the edge search leaves its lists
empty. -/
theorem findEdges_steady (samples : Waveform Bool) (first : Bool)
    (h : ∀ b, b ∈ samples.m_samples → b = first) :
    findEdges samples samples.m_samples.length first
      = { last := first, edgeDirections := [], edgeTimestamps := [] } := by
  unfold findEdges
  apply forLoop_fixed
  intro i _ hi
  have hb : samples.m_samples.getD i false = first := by
    rw [List.getD_eq_getElem _ _ hi]
    exact h _ (List.getElem_mem hi)
  simp only [hb, ne_eq, not_true_eq_false, if_false]

theorem clearSweeps_model {α : Type} [DivisionRing α] (m : Members α) :
    (ClearSweeps m).m_model = m.m_model := rfl

/-- The refresh never writes the selected model. -/
theorem refresh_model {α : Type} [LinearOrderedField α] (input : Option SampledInput)
    (m m1 : Members α) (h : Refresh input m = Except.ok m1) : m1.m_model = m.m_model := by
  unfold Refresh at h
  dsimp only at h
  repeat' split at h
  all_goals first
    | (cases h; rfl)
    | cases h

/-- C24, the code case by case. The refresh publishes the null output when no model is
selected and when the sample rate is 0, and `OnFnameChanged` leaves the model null, which
neither `ClearSweeps` nor the refresh changes; `OnModelChanged` selects a model. For sampled data without a transition the
null output is published when the data has at least one sample, the sample period is not
0 and the selected rising set and the falling set found exist. On the failing input, a
sampled input with no sample at all (a clock without an edge), the refresh does not
publish the null output: it reads `samples.m_offsets[0]` (line 216) outside the bounds
of the vector, before the test for transitions at line 261; and with a sample rate above
`FS_PER_SECOND` it divides by a sample period of 0 (line 220). -/
theorem ibis_null_output_cases :
    (∀ (input : Option SampledInput) (m : Members ℚ), m.m_model = none →
      Refresh input m = Except.ok { m with data := none }) ∧
    (∀ (input : Option SampledInput) (m : Members ℚ), toSizeT m.sampleRate = 0 →
      Refresh input m = Except.ok { m with data := none }) ∧
    (∀ (loaded : List (String × IBISModel ℚ)) (m : Members ℚ),
      (OnFnameChanged loaded m).m_model = none) ∧
    (∀ (input : Option SampledInput) (m m1 : Members ℚ),
      Refresh input m = Except.ok m1 → m1.m_model = m.m_model) ∧
    (∀ (selected : String) (prettyName : ℚ → ℚ → String) (m m1 : Members ℚ),
      OnModelChanged selected prettyName m = Except.ok m1 → m1.m_model ≠ none) ∧
    (∀ (inp : SampledInput) (m : Members ℚ) (model : IBISModel ℚ) (rising falling : VTCurves ℚ)
        (first : Bool),
      m.m_model = some model → toSizeT m.sampleRate ≠ 0 →
      FS_PER_SECOND / toSizeT m.sampleRate ≠ 0 →
      inp.samples.WellFormed → inp.samples.m_samples[0]? = some first →
      model.m_rising[toSizeT m.termination]? = some rising →
      model.m_falling[findFallingTerm model rising]? = some falling →
      (∀ b, b ∈ inp.samples.m_samples → b = first) →
      Refresh (some inp) m = Except.ok { m with data := none }) ∧
    (∀ (inp : SampledInput) (m : Members ℚ) (model : IBISModel ℚ),
      m.m_model = some model → toSizeT m.sampleRate ≠ 0 → inp.samples.m_offsets = [] →
      Refresh (some inp) m = Except.error Fault.outOfBounds) ∧
    noEdgeInput.samples.m_samples = [] ∧
    emitted (Refresh (some noEdgeInput) (membersOf pushPull (10 ^ 13)))
      = Outcome.fault Fault.outOfBounds ∧
    emitted (Refresh (some steadyInput) (membersOf pushPull (10 ^ 13))) = Outcome.null ∧
    emitted (Refresh (some steadyInput) (membersOf pushPull (2 * 10 ^ 15)))
      = Outcome.fault Fault.divisionByZero := by
  refine ⟨?_, ?_, ?_, ?_, ?_, ?_, ?_, rfl, by decide!, by decide!, by decide!⟩
  · intro input m h
    unfold Refresh
    rw [h]
    cases input <;> rfl
  · intro input m h
    unfold Refresh
    cases input with
    | none => rfl
    | some inp =>
      cases hm : m.m_model with
      | none => rfl
      | some model => simp only [h, if_true]
  · intro loaded m
    rfl
  · intro input m m1 h
    exact refresh_model input m m1 h
  · intro selected prettyName m m1 h
    unfold OnModelChanged at h
    split at h
    · cases h
    · cases h
      simp [ClearSweeps]
  · intro inp m model rising falling first hm hr hp hw h0 hrise hfall hall
    have hlen : 0 < inp.samples.m_samples.length := by
      rcases List.getElem?_eq_some_iff.1 h0 with ⟨h1, _⟩
      exact h1
    obtain ⟨hwo, hwd⟩ := hw
    have hidx : lastIndex inp.samples.m_samples.length = inp.samples.m_samples.length - 1 := by
      unfold lastIndex
      rw [if_neg (by omega)]
    have ho0 : ∃ c, inp.samples.m_offsets[0]? = some c :=
      ⟨inp.samples.m_offsets[0], List.getElem?_eq_getElem (by omega)⟩
    have hol : ∃ c, inp.samples.m_offsets[inp.samples.m_samples.length - 1]? = some c :=
      ⟨inp.samples.m_offsets[inp.samples.m_samples.length - 1],
        List.getElem?_eq_getElem (by omega)⟩
    have hdl : ∃ c, inp.samples.m_durations[inp.samples.m_samples.length - 1]? = some c :=
      ⟨inp.samples.m_durations[inp.samples.m_samples.length - 1],
        List.getElem?_eq_getElem (by omega)⟩
    obtain ⟨c0, hc0⟩ := ho0
    obtain ⟨cl, hcl⟩ := hol
    obtain ⟨dl, hdl⟩ := hdl
    unfold Refresh
    simp only [hm, if_neg hr, hc0, hidx, hcl, hdl, if_neg hp, hrise, hfall, h0,
      findEdges_steady inp.samples first hall, List.isEmpty_nil, if_true]
  · intro inp m model hm hr he
    unfold Refresh
    simp only [hm, if_neg hr, he, List.getElem?_nil]

set_option maxRecDepth 100000 in
/-- C25, the code at a failing input: `burstInput` has transitions at 100 (rising),
130 (falling) and 160 (rising); with a sample rate of 10^13 the sample period is 100,
longer than the spacing of the transitions, and the refresh emits three ticks at 0, 100
and 200 with voltages 2900, 3000 and -70. At the tick at 200 the transition that most
recently arrived is the third one (index 2, rising, at 160), whose curve gives 3040;
the edge cursor moves by at most one transition per tick (line 292 is an `if`), stands
on the second transition (falling, at 130) and the voltage -70 is read from the falling
curve at 70. -/
theorem ibis_edge_cursor_lags :
    FS_PER_SECOND / toSizeT (10 ^ 13) = 100 ∧
    findEdges burstInput.samples 4 false
      = { last := true, edgeDirections := [true, false, true],
          edgeTimestamps := [100, 130, 160] } ∧
    emitted (Refresh (some burstInput) (membersOf pushPull (10 ^ 13)))
      = Outcome.samples [2900, 3000, -70] ∧
    [(0 : Int), 100, 200].map
        (mostRecentlyArrived (findEdges burstInput.samples 4 false) 0 0) = [0, 0, 2] ∧
    [(0 : Int), 100, 200].map
        (specVoltage (lineCurves 50 0 0 3000 1) (lineCurves 50 0 0 0 (-1)) 1
          (findEdges burstInput.samples 4 false))
      = [2900, 3000, 3040] ∧
    [(0 : Int), 100, 200].map
        (fun tnow => nextEdge (findEdges burstInput.samples 4 false) 0 0 tnow 0) = [0, 0, 1] := by
  refine ⟨by decide, by decide, by decide!, by decide, by decide!, by decide⟩

set_option maxRecDepth 100000 in
/-- C26, the code at a failing input: after `ClearSweeps` one refresh of a filter whose
model `negativeRail` has all its voltages below zero emits -1, -1 and -2. The tracked
minimum is -2, the smallest emitted voltage, but the tracked maximum is `FLT_MIN`, the
smallest positive `float` to which `ClearSweeps` sets it (line 119), and not -1, the
largest emitted voltage. -/
theorem ibis_vmax_not_largest :
    emitted (Refresh (some burstInput) (ClearSweeps (membersOf negativeRail (10 ^ 13))))
      = Outcome.samples [-1, -1, -2] ∧
    extremes (Refresh (some burstInput) (ClearSweeps (membersOf negativeRail (10 ^ 13))))
      = some (FLT_MIN, -2) ∧
    (FLT_MIN : ℚ) = 1 / 2 ^ 126 ∧ (-1 : ℚ) < FLT_MIN := by
  refine ⟨by decide!, by decide!, rfl, by decide!⟩

set_option maxRecDepth 100000 in
/-- C30, the code at a failing input: the model `mixedFixtures` has the rising set
`risingSet` (50 ohm to 3.3 V) and two falling sets, `farFalling` (0 ohm to 0 V) and then
`nearFalling` (50 ohm to 3.3 V). The falling set `nearFalling` has the fixture of the
rising set, yet the search of lines 228-237 stops at index 0, `farFalling`, whose fixture
resistance differs by 50: the test compares the signed differences -50 and -3.3 with
0.01, not their absolute values. The refresh then reads the voltage after a falling
transition, 7, from `farFalling`. -/
theorem ibis_falling_set_mismatch :
    mixedFixtures.m_rising = [risingSet] ∧
    mixedFixtures.m_falling = [farFalling, nearFalling] ∧
    findFallingTerm mixedFixtures risingSet = 0 ∧
    |nearFalling.m_fixtureResistance - risingSet.m_fixtureResistance| < 1 / 100 ∧
    |nearFalling.m_fixtureVoltage - risingSet.m_fixtureVoltage| < 1 / 100 ∧
    ¬ |farFalling.m_fixtureResistance - risingSet.m_fixtureResistance| < 1 / 100 ∧
    farFalling.m_fixtureResistance - risingSet.m_fixtureResistance = -50 ∧
    emitted (Refresh (some burstInput) (membersOf mixedFixtures (10 ^ 13)))
      = Outcome.samples [2900, 3000, 7] := by
  refine ⟨rfl, rfl, by decide!, by decide!, by decide!, by decide!, by decide!, by decide!⟩

end IBISDriverFilter

namespace HyperRAMDecoder

/-! ## HyperRAMDecoder: the run of the loop as a whole -/

theorem stateAt_shift (inp : Inputs) (latencyParam : Int) (l : Locals) (j : Nat) :
    stateAt inp latencyParam l (j + 1)
      = stateAt inp latencyParam (iteration inp latencyParam l).1 j := by
  induction j with
  | zero => rfl
  | succ j ih =>
    show (iteration inp latencyParam (stateAt inp latencyParam l (j + 1))).1 = _
    rw [ih]
    rfl

/-- A loop that is left within the fuel is left in an iteration `n` below the fuel, after
`n` iterations that went on. -/
theorem decodeLoop_stop (inp : Inputs) (latencyParam : Int) (fuel : Nat) (l x : Locals)
    (h : decodeLoop inp latencyParam fuel l = some x) :
    ∃ n, n < fuel ∧ Running inp latencyParam l n ∧
      iteration inp latencyParam (stateAt inp latencyParam l n) = (x, true) := by
  induction fuel generalizing l with
  | zero => simp [decodeLoop] at h
  | succ fuel ih =>
    unfold decodeLoop at h
    rcases hit : iteration inp latencyParam l with ⟨l1, b⟩
    rw [hit] at h
    cases b with
    | true =>
      simp only [Option.some.injEq] at h
      subst h
      exact ⟨0, Nat.succ_pos _, fun i hi => absurd hi (Nat.not_lt_zero i), hit⟩
    | false =>
      simp only at h
      obtain ⟨n, hn, hrun, hstop⟩ := ih l1 h
      have hl1 : (iteration inp latencyParam l).1 = l1 := by rw [hit]
      refine ⟨n + 1, Nat.succ_lt_succ hn, ?_, ?_⟩
      · intro i hi
        cases i with
        | zero =>
          show (iteration inp latencyParam l).2 = false
          rw [hit]
        | succ i =>
          rw [stateAt_shift, hl1]
          exact hrun i (by omega)
      · rw [stateAt_shift, hl1]
        exact hstop

/-- Every iteration that goes on uses up at least one of the samples ahead. -/
theorem running_measure (inp : Inputs) (latencyParam : Int) (l : Locals) (n : Nat)
    (h : Running inp latencyParam l n) :
    samplesAhead inp (stateAt inp latencyParam l n) + n ≤ samplesAhead inp l := by
  induction n with
  | zero => exact le_refl _
  | succ n ih =>
    have h1 := ih (fun i hi => h i (by omega))
    have h2 := iteration_measure_decreases inp latencyParam (stateAt inp latencyParam l n)
      (h n (Nat.lt_succ_self n))
    show samplesAhead inp (iteration inp latencyParam (stateAt inp latencyParam l n)).1 + (n + 1)
      ≤ samplesAhead inp l
    omega

theorem pending_fsm (inp : Inputs) (latencyParam : Int) (l : Locals) (h : Pending inp l) :
    Pending inp (fsm inp latencyParam l) := by
  obtain ⟨h1, h2, h3, h4⟩ := fsm_cursors inp latencyParam l
  unfold Pending
  rw [h1, h2, h3, h4]
  exact h

theorem increasing_second_pos (w : Waveform Bool) (h : IncreasingOffsets w)
    (h1 : 1 < w.m_samples.length) : 0 < w.m_offsets.getD 1 0 := by
  obtain ⟨hl, hn, hp⟩ := h
  have h1' : 1 < w.m_offsets.length := by rw [hl]; exact h1
  have h0' : 0 < w.m_offsets.length := by omega
  rw [List.getD_eq_getElem?_getD, List.getElem?_eq_getElem h1']
  show 0 < w.m_offsets[1]
  have hlt : w.m_offsets[0] < w.m_offsets[1] :=
    List.pairwise_iff_getElem.mp hp 0 1 h0' h1' (by decide)
  have h0 : 0 ≤ w.m_offsets[0] := hn _ (List.getElem_mem h0')
  omega

/-- On entry to every iteration the loop reaches, the pending samples of CS#, CLK and
RWDS lie after the current timestamp. -/
theorem pending_stateAt (inp : Inputs) (latencyParam : Int)
    (hcs : IncreasingOffsets inp.csn) (hclk : IncreasingOffsets inp.clk)
    (hrwds : IncreasingOffsets inp.rwds) (j : Nat)
    (hrun : Running inp latencyParam (initLocals inp) j) :
    Pending inp (stateAt inp latencyParam (initLocals inp) j) := by
  cases j with
  | zero =>
    exact pending_init inp (increasing_second_pos _ hcs) (increasing_second_pos _ hclk)
      (increasing_second_pos _ hrwds)
  | succ j => exact pending_of_continue inp latencyParam _ (hrun j (Nat.lt_succ_self j))

theorem caClock_cap_prefix (latencyParam : Int) (cur_rwds : Bool) (cur_data : Nat)
    (l : Locals) :
    l.cap.m_samples <+: (caClock latencyParam cur_rwds cur_data l).cap.m_samples := by
  unfold caClock
  simp only
  split_ifs
  all_goals first
    | exact List.prefix_rfl
    | (simp only [pushSymbol]; exact List.prefix_append _ _)
    | (simp only [pushSymbol, List.append_assoc]; exact List.prefix_append _ _)

/-- The switch only appends to the capture. -/
theorem fsm_cap_prefix (inp : Inputs) (latencyParam : Int) (l : Locals) :
    l.cap.m_samples <+: (fsm inp latencyParam l).cap.m_samples := by
  unfold fsm
  simp only
  split
  all_goals split_ifs
  all_goals first
    | exact List.prefix_rfl
    | exact caClock_cap_prefix _ _ _ _
    | (simp only [deselect, pushSymbol]; exact List.prefix_append _ _)

theorem cap_prefix_step (inp : Inputs) (latencyParam : Int) (l : Locals) :
    l.cap.m_samples <+: (iteration inp latencyParam l).1.cap.m_samples := by
  unfold iteration
  rw [(advance_keeps inp (fsm inp latencyParam l)).2.2.2.2.2.2]
  exact fsm_cap_prefix inp latencyParam l

theorem cap_prefix_stateAt (inp : Inputs) (latencyParam : Int) (l : Locals) (j k : Nat)
    (h : j ≤ k) :
    (stateAt inp latencyParam l j).cap.m_samples
      <+: (stateAt inp latencyParam l k).cap.m_samples := by
  induction k with
  | zero =>
    have : j = 0 := by omega
    subst this
    exact List.prefix_rfl
  | succ k ih =>
    rcases Nat.eq_or_lt_of_le h with e | e
    · subst e
      exact List.prefix_rfl
    · exact (ih (by omega)).trans (cap_prefix_step inp latencyParam _)

/-- C28: for input waveforms, not all three of CS#, CLK and RWDS empty, whose offsets are
non-negative and strictly increasing, the decode loop terminates: the current timestamp
strictly increases in every iteration that goes on; the loop is left in an iteration `n`
with `n + 1` at most the sum of the lengths of CS#, CLK and RWDS, so its body runs at most
that many times; and the refresh publishes the capture as it is when the loop is left,
which holds every symbol emitted up to then (the capture at every earlier iteration is a
prefix of it). -/
theorem hyperram_terminates (inp : Inputs) (latencyParam : Int)
    (hcs : IncreasingOffsets inp.csn) (hclk : IncreasingOffsets inp.clk)
    (hrwds : IncreasingOffsets inp.rwds)
    (hne : 0 < inp.csn.m_samples.length + inp.clk.m_samples.length
      + inp.rwds.m_samples.length) :
    (∀ j, Running inp latencyParam (initLocals inp) (j + 1) →
      (stateAt inp latencyParam (initLocals inp) j).timestamp
        < (stateAt inp latencyParam (initLocals inp) (j + 1)).timestamp) ∧
    ∃ n, n + 1 ≤ inp.csn.m_samples.length + inp.clk.m_samples.length
        + inp.rwds.m_samples.length ∧
      Running inp latencyParam (initLocals inp) n ∧
      (iteration inp latencyParam (stateAt inp latencyParam (initLocals inp) n)).2 = true ∧
      Refresh (some inp) latencyParam
        = some (iteration inp latencyParam
            (stateAt inp latencyParam (initLocals inp) n)).1.cap ∧
      ∀ j, j ≤ n → (stateAt inp latencyParam (initLocals inp) j).cap.m_samples
        <+: (iteration inp latencyParam
              (stateAt inp latencyParam (initLocals inp) n)).1.cap.m_samples := by
  constructor
  · intro j hrun
    have hp := pending_stateAt inp latencyParam hcs hclk hrwds j
      (fun i hi => hrun i (by omega))
    have hp2 := pending_fsm inp latencyParam _ hp
    have hgo : (advance inp (fsm inp latencyParam
        (stateAt inp latencyParam (initLocals inp) j))).2 = false :=
      hrun j (Nat.lt_succ_self j)
    have hlt := advance_timestamp_gt inp _ hp2 hgo
    rw [(fsm_cursors inp latencyParam _).1] at hlt
    exact hlt
  · obtain ⟨w, hw⟩ := refresh_isSome inp latencyParam
    unfold Refresh at hw
    simp only [Option.map_eq_some'] at hw
    obtain ⟨x, hx, hxw⟩ := hw
    obtain ⟨n, _, hrun, hstop⟩ :=
      decodeLoop_stop inp latencyParam (loopFuel inp) (initLocals inp) x hx
    have hm := running_measure inp latencyParam (initLocals inp) n hrun
    have h0 : samplesAhead inp (initLocals inp) + 1 ≤ inp.csn.m_samples.length
        + inp.clk.m_samples.length + inp.rwds.m_samples.length := by
      unfold samplesAhead initLocals
      dsimp only
      omega
    refine ⟨n, by omega, hrun, by rw [hstop], ?_, ?_⟩
    · unfold Refresh
      simp only [hx, Option.map_some', hstop]
    · intro j hj
      exact cap_prefix_stateAt inp latencyParam (initLocals inp) j (n + 1) (by omega)

/-- Witness for C28 on `tieCapture`. -/
theorem hyperram_terminates_witness :
    ∃ n, n + 1 ≤ 10 ∧ Running tieCapture 3 (initLocals tieCapture) n ∧
      (iteration tieCapture 3 (stateAt tieCapture 3 (initLocals tieCapture) n)).2 = true ∧
      Refresh (some tieCapture) 3
        = some (iteration tieCapture 3
            (stateAt tieCapture 3 (initLocals tieCapture) n)).1.cap := by
  obtain ⟨n, h1, h2, h3, h4, _⟩ :=
    (hyperram_terminates tieCapture 3 ⟨rfl, by decide, by decide⟩ ⟨rfl, by decide, by decide⟩
      ⟨rfl, by decide, by decide⟩ (by decide)).2
  exact ⟨n, h1, h2, h3, h4⟩

/-! ## HyperRAMDecoder: the idle state -/

theorem idle_step (inp : Inputs) (latencyParam : Int) (l : Locals)
    (h : l.state = State.STATE_IDLE) :
    (iteration inp latencyParam l).1.cap = l.cap ∧
    (curCs inp l = false → (iteration inp latencyParam l).1.state = State.STATE_IDLE) := by
  obtain ⟨k1, -, -, -, -, -, k7⟩ := advance_keeps inp (fsm inp latencyParam l)
  unfold iteration
  rw [k1, k7]
  unfold fsm curCs
  simp only [h]
  constructor
  · split_ifs <;> rfl
  · intro hc
    simp only [hc, Bool.false_eq_true, if_false, h]

/-- As long as CS# is sampled low the machine stays in IDLE and the capture stays as it
was created. -/
theorem idle_run (inp : Inputs) (latencyParam : Int) (j : Nat)
    (h : ∀ i, i < j → curCs inp (stateAt inp latencyParam (initLocals inp) i) = false) :
    (stateAt inp latencyParam (initLocals inp) j).state = State.STATE_IDLE ∧
    (stateAt inp latencyParam (initLocals inp) j).cap = (initLocals inp).cap := by
  induction j with
  | zero => exact ⟨rfl, rfl⟩
  | succ j ih =>
    obtain ⟨h1, h2⟩ := ih (fun i hi => h i (by omega))
    obtain ⟨h3, h4⟩ := idle_step inp latencyParam _ h1
    exact ⟨h4 (h j (Nat.lt_succ_self j)), h3.trans h2⟩

theorem curCs_of_all_low (inp : Inputs) (l : Locals)
    (h : ∀ b, b ∈ inp.csn.m_samples → b = false) : curCs inp l = false := by
  unfold curCs
  by_cases hi : l.ics < inp.csn.m_samples.length
  · rw [List.getD_eq_getElem _ _ hi]
    exact h _ (List.getElem_mem hi)
  · rw [List.getD_eq_default _ _ (by omega)]

/-- C29: no symbol is emitted before the first step at which CS# is sampled high. For
every capture and every latency parameter: as long as CS# has been sampled low at every
step so far, the machine is in IDLE and the capture is empty, and it is still empty after
the next step, the one that may sample CS# high for the first time. And a capture in which
CS# is low at every sample yields an empty symbol list, whatever CLK, RWDS, the data
lines and the latency parameter are. -/
theorem hyperram_no_partial_packet (inp : Inputs) (latencyParam : Int) :
    (∀ j, (∀ i, i < j → curCs inp (stateAt inp latencyParam (initLocals inp) i) = false) →
      (stateAt inp latencyParam (initLocals inp) j).state = State.STATE_IDLE ∧
      (stateAt inp latencyParam (initLocals inp) j).cap.m_samples = [] ∧
      (stateAt inp latencyParam (initLocals inp) (j + 1)).cap.m_samples = []) ∧
    ((∀ b, b ∈ inp.csn.m_samples → b = false) →
      ∃ w, Refresh (some inp) latencyParam = some w ∧ w.m_samples = [] ∧ w.m_offsets = [] ∧
        w.m_durations = []) := by
  constructor
  · intro j hj
    obtain ⟨h1, h2⟩ := idle_run inp latencyParam j hj
    refine ⟨h1, by rw [h2]; rfl, ?_⟩
    show (iteration inp latencyParam
      (stateAt inp latencyParam (initLocals inp) j)).1.cap.m_samples = []
    rw [(idle_step inp latencyParam _ h1).1, h2]
    rfl
  · intro hlow
    obtain ⟨w, hw⟩ := refresh_isSome inp latencyParam
    refine ⟨w, hw, ?_⟩
    unfold Refresh at hw
    simp only [Option.map_eq_some'] at hw
    obtain ⟨x, hx, hxw⟩ := hw
    obtain ⟨n, _, _, hstop⟩ :=
      decodeLoop_stop inp latencyParam (loopFuel inp) (initLocals inp) x hx
    obtain ⟨h1, h2⟩ := idle_run inp latencyParam n
      (fun i _ => curCs_of_all_low inp _ hlow)
    have h3 := (idle_step inp latencyParam _ h1).1
    rw [hstop] at h3
    have h4 : w = (initLocals inp).cap := by rw [← hxw, h3, h2]
    rw [h4]
    exact ⟨rfl, rfl, rfl⟩

set_option maxRecDepth 20000 in
/-- Witness for C29. On `caOnlyCapture` CS# is sampled low at step 0 and high at step 1:
the machine is still in IDLE on entry to step 1 and the capture is empty on entry to step
1 and after it. On `alwaysSelectedCapture` CS# is low at every sample and the published
capture is empty. -/
theorem hyperram_no_partial_packet_witness :
    (curCs caOnlyCapture (stateAt caOnlyCapture 3 (initLocals caOnlyCapture) 0) = false ∧
      curCs caOnlyCapture (stateAt caOnlyCapture 3 (initLocals caOnlyCapture) 1) = true ∧
      (stateAt caOnlyCapture 3 (initLocals caOnlyCapture) 1).state = State.STATE_IDLE ∧
      (stateAt caOnlyCapture 3 (initLocals caOnlyCapture) 1).cap.m_samples = [] ∧
      (stateAt caOnlyCapture 3 (initLocals caOnlyCapture) 2).cap.m_samples = []) ∧
    ∃ w, Refresh (some alwaysSelectedCapture) 3 = some w ∧ w.m_samples = [] ∧
      w.m_offsets = [] ∧ w.m_durations = [] :=
  ⟨⟨by decide, by decide,
      (hyperram_no_partial_packet caOnlyCapture 3).1 1 (by
        intro i hi
        have h0 : i = 0 := by omega
        subst h0
        decide)⟩,
    (hyperram_no_partial_packet alwaysSelectedCapture 3).2 (by decide)⟩

/-! ## HyperRAMDecoder: the command/address word -/

theorem testBit_bit (b : Bool) (k : Nat) :
    (if b then 1 else 0 : Nat).testBit k = (decide (k = 0) && b) := by
  cases b
  · simp
  · simp only [if_true, Bool.and_true]
    cases k with
    | zero => rfl
    | succ k =>
      have h : (1 : Nat).testBit (k + 1) = false :=
        Nat.testBit_lt_two_pow (Nat.one_lt_two_pow (by omega))
      simp [h]

/-- Bit `i` of the sampled data byte is the sample of line `dq_i`, and the byte has no
other bits. -/
theorem curData_testBit (inp : Inputs) (idata : List Nat) (i : Nat) :
    (curData inp idata).testBit i = (decide (i < 8) && dqSample inp idata i) := by
  unfold curData forLoop
  simp only [List.range', Nat.sub_zero, List.foldl_cons, List.foldl_nil, Nat.testBit_or,
    Nat.testBit_shiftLeft, testBit_bit, Nat.zero_testBit, Bool.false_or]
  rcases Nat.lt_or_ge i 8 with h | h
  · interval_cases i <;> simp [dqSample]
  · have h0 : ∀ k, k < 8 → ¬ (i - k = 0) := fun k hk => by omega
    simp [h0 0, h0 1, h0 2, h0 3, h0 4, h0 5, h0 6, h0 7, Nat.not_lt.2 h]
    intro hi
    omega

theorem curData_lt (inp : Inputs) (idata : List Nat) : curData inp idata < 2 ^ 8 := by
  apply Nat.lt_pow_two_of_testBit
  intro i hi
  rw [curData_testBit]
  simp [Nat.not_lt.2 hi]

theorem shiftIn_append (bytes : List Nat) (b : Nat) :
    shiftIn (bytes ++ [b]) = (shiftIn bytes <<< 8) ||| b := by
  unfold shiftIn
  rw [List.foldl_append]
  rfl

theorem shift_or_eq (a b : Nat) (hb : b < 2 ^ 8) : (a <<< 8) ||| b = a * 2 ^ 8 + b := by
  rw [Nat.shiftLeft_eq, Nat.mul_comm, ← Nat.mul_add_lt_is_or hb]

/-- Six bytes shifted in one after the other make up their big-endian concatenation. -/
theorem shiftIn_six (bytes : List Nat) (hlen : bytes.length = 6)
    (hb : ∀ b, b ∈ bytes → b < 2 ^ 8) : shiftIn bytes = bigEndian48 bytes := by
  match bytes, hlen with
  | [b0, b1, b2, b3, b4, b5], _ =>
    have h0 := hb b0 (by simp)
    have h1 := hb b1 (by simp)
    have h2 := hb b2 (by simp)
    have h3 := hb b3 (by simp)
    have h4 := hb b4 (by simp)
    have h5 := hb b5 (by simp)
    unfold shiftIn bigEndian48
    simp only [List.foldl_cons, List.foldl_nil, List.getD_cons_zero, List.getD_cons_succ]
    rw [shift_or_eq _ _ h0, shift_or_eq _ _ h1, shift_or_eq _ _ h2, shift_or_eq _ _ h3,
      shift_or_eq _ _ h4, shift_or_eq _ _ h5]
    ring

theorem caClock_ca_data (latencyParam : Int) (r : Bool) (x : Nat) (l : Locals) :
    (caClock latencyParam r x l).ca_data = (l.ca_data <<< 8) ||| x := by
  unfold caClock
  simp only
  split_ifs <;> rfl

theorem caBytes_length (inp : Inputs) (latencyParam : Int) (l : Locals) (j : Nat) :
    (caBytes inp latencyParam l j).length = clkEventCount inp latencyParam l j := by
  induction j with
  | zero => rfl
  | succ j ih =>
    unfold caBytes clkEventCount
    rw [List.length_append, ih]
    split_ifs <;> rfl

theorem caBytes_lt (inp : Inputs) (latencyParam : Int) (l : Locals) (j : Nat) :
    ∀ b, b ∈ caBytes inp latencyParam l j → b < 2 ^ 8 := by
  induction j with
  | zero => intro b hb; simp [caBytes] at hb
  | succ j ih =>
    intro b hb
    unfold caBytes at hb
    rcases List.mem_append.1 hb with h | h
    · exact ih b h
    · split_ifs at h
      · rw [List.mem_singleton.1 h]
        exact curData_lt inp _
      · simp at h

/-- While CS# stays low after its fall and fewer than six clock events have been seen,
the accumulator holds the bytes sampled at the clock events so far, shifted in from 0. -/
theorem caData_run (inp : Inputs) (latencyParam : Int) (l : Locals) (m : Nat)
    (hstate : l.state = State.STATE_DESELECTED) (hfall : curCs inp l = false)
    (hlow : ∀ j, 1 ≤ j → j ≤ m → curCs inp (stateAt inp latencyParam l j) = false)
    (j : Nat) (hj : j ≤ m) (h5 : clkEventCount inp latencyParam l j ≤ 5) :
    (stateAt inp latencyParam l (j + 1)).ca_data = shiftIn (caBytes inp latencyParam l j) := by
  induction j with
  | zero =>
    rw [(stateAt_succ_fields inp latencyParam l 0).2.2.2.2.1]
    show (fsm inp latencyParam l).ca_data = _
    rw [fsm_deselected_low inp latencyParam l hstate hfall]
    rfl
  | succ j ih =>
    have hs : clkEventCount inp latencyParam l (j + 1) =
        clkEventCount inp latencyParam l j +
          (if (stateAt inp latencyParam l (j + 1)).event_type = EventType.EVENT_CLK
            then 1 else 0) := rfl
    have hc : clkEventCount inp latencyParam l j ≤ 5 := by omega
    have ih' := ih (by omega) hc
    have hph := caPhase_run inp latencyParam l j hstate hfall
      (fun k h1 h2 => hlow k h1 (by omega)) (by omega) j (le_refl j)
    have hca : (stateAt inp latencyParam l (j + 1)).state = State.STATE_CA := by
      rcases hph with ⟨-, hs1, -⟩ | ⟨-, -, hs1, -⟩ | ⟨h6, -⟩
      · exact hs1
      · exact hs1
      · omega
    have hcs := hlow (j + 1) (by omega) hj
    rw [(stateAt_succ_fields inp latencyParam l (j + 1)).2.2.2.2.1]
    unfold caBytes
    by_cases hev : (stateAt inp latencyParam l (j + 1)).event_type = EventType.EVENT_CLK
    · rw [if_pos hev, fsm_ca_low_clk inp latencyParam _ hca hcs hev, caClock_ca_data,
        shiftIn_append, ih']
    · rw [if_neg hev, fsm_low_not_clk inp latencyParam _ (Or.inl hca) hcs hev, ih',
        List.append_nil]

/-- C31: in a transaction that starts in DESELECTED with CS# sampled low (the falling
edge) and whose step `m`, with CS# low throughout, is the sixth CLK event, the switch at
the falling edge resets the accumulator to 0 whatever it held; the six bytes sampled at
the six CLK events are each below 256, bit `i` of a sampled byte being the sample of line
`dq_i` at that step; and the step `m` appends exactly one symbol, a CA symbol whose
payload is the 48-bit big-endian concatenation of the six bytes (first byte in bits
47..40). -/
theorem hyperram_ca_payload (inp : Inputs) (latencyParam : Int) (l : Locals) (m : Nat)
    (hstate : l.state = State.STATE_DESELECTED) (hfall : curCs inp l = false)
    (hlow : ∀ j, 1 ≤ j → j ≤ m → curCs inp (stateAt inp latencyParam l j) = false)
    (hsix : clkEventCount inp latencyParam l m = 6)
    (hclk : (stateAt inp latencyParam l m).event_type = EventType.EVENT_CLK) :
    (fsm inp latencyParam l).ca_data = 0 ∧
    (caBytes inp latencyParam l m).length = 6 ∧
    (∀ b, b ∈ caBytes inp latencyParam l m → b < 256) ∧
    (∀ (idata : List Nat) (i : Nat), i < 8 →
      (curData inp idata).testBit i = dqSample inp idata i) ∧
    (stateAt inp latencyParam l (m + 1)).cap.m_samples
      = (stateAt inp latencyParam l m).cap.m_samples
        ++ [⟨SymbolType.TYPE_CA, bigEndian48 (caBytes inp latencyParam l m)⟩] ∧
    bigEndian48 (caBytes inp latencyParam l m) < 2 ^ 48 := by
  have hlen := caBytes_length inp latencyParam l m
  rw [hsix] at hlen
  have hlt := caBytes_lt inp latencyParam l m
  have hbe := shiftIn_six _ hlen hlt
  cases m with
  | zero => simp [clkEventCount] at hsix
  | succ m =>
    have hs : clkEventCount inp latencyParam l (m + 1) =
        clkEventCount inp latencyParam l m +
          (if (stateAt inp latencyParam l (m + 1)).event_type = EventType.EVENT_CLK
            then 1 else 0) := rfl
    rw [if_pos hclk] at hs
    have hc5 : clkEventCount inp latencyParam l m = 5 := by omega
    have hph := caPhase_run inp latencyParam l m hstate hfall
      (fun k h1 h2 => hlow k h1 (by omega)) (by omega) m (le_refl m)
    rw [hc5] at hph
    have hd := caData_run inp latencyParam l m hstate hfall
      (fun k h1 h2 => hlow k h1 (by omega)) m (le_refl m) (by omega)
    obtain ⟨hca, hf, hb⟩ : (stateAt inp latencyParam l (m + 1)).state = State.STATE_CA ∧
        (stateAt inp latencyParam l (m + 1)).first = false ∧
        (stateAt inp latencyParam l (m + 1)).ca_byte = 5 := by
      rcases hph with ⟨h0, -⟩ | ⟨-, -, hs1, hf1, hb1, -⟩ | ⟨h6, -⟩
      · omega
      · exact ⟨hs1, hf1, hb1⟩
      · omega
    have hcs := hlow (m + 1) (by omega) (le_refl _)
    have hbytes : caBytes inp latencyParam l (m + 1)
        = caBytes inp latencyParam l m
          ++ [curData inp (stateAt inp latencyParam l (m + 1)).idata] := by
      show caBytes inp latencyParam l m ++ _ = _
      rw [if_pos hclk]
    refine ⟨?_, hlen, ?_, ?_, ?_, ?_⟩
    · rw [fsm_deselected_low inp latencyParam l hstate hfall]
    · intro b hb1
      exact hlt b hb1
    · intro idata i hi
      rw [curData_testBit]
      simp [hi]
    · rw [(stateAt_succ_fields inp latencyParam l (m + 1)).2.2.2.2.2.2,
        fsm_ca_low_clk inp latencyParam _ hca hcs hclk,
        caClock_sixth latencyParam _ _ _ hf hb]
      simp only [pushSymbol]
      rw [hd, ← shiftIn_append, ← hbytes, hbe]
    · rw [← hbe]
      have h6 : ∀ (bs : List Nat) (n : Nat), bs.length = n → (∀ b, b ∈ bs → b < 2 ^ 8) →
          shiftIn bs < 2 ^ (8 * n) := by
        intro bs
        induction bs using List.reverseRecOn with
        | nil =>
          intro n _ _
          show 0 < 2 ^ (8 * n)
          exact Nat.two_pow_pos _
        | append_singleton bs b ih =>
          intro n hn hb1
          rw [List.length_append, List.length_singleton] at hn
          rw [shiftIn_append]
          have hbb : b < 2 ^ 8 := hb1 b (by simp)
          have hi := ih (n - 1) (by omega) (fun c hc => hb1 c (by simp [hc]))
          rw [shift_or_eq _ _ hbb]
          have hn' : 8 * n = 8 * (n - 1) + 8 := by omega
          rw [hn', Nat.pow_add]
          nlinarith
      exact h6 _ 6 hlen hlt

set_option maxRecDepth 20000 in
/-- Witness for C31 on `caOnlyCapture`, whose data lines are all high: the six bytes are
255 and the payload of the CA symbol is 2^48 - 1. -/
theorem hyperram_ca_payload_witness :
    caBytes caOnlyCapture 3 caFallState 6 = [255, 255, 255, 255, 255, 255] ∧
    (stateAt caOnlyCapture 3 caFallState 7).cap.m_samples
      = (stateAt caOnlyCapture 3 caFallState 6).cap.m_samples
        ++ [⟨SymbolType.TYPE_CA, bigEndian48 (caBytes caOnlyCapture 3 caFallState 6)⟩] ∧
    bigEndian48 (caBytes caOnlyCapture 3 caFallState 6) = 2 ^ 48 - 1 :=
  ⟨rfl, (hyperram_ca_payload caOnlyCapture 3 caFallState 6 rfl rfl
    (by intro j h1 h2; interval_cases j <;> rfl) rfl rfl).2.2.2.2.1, rfl⟩

/-- The test `data & (1l << n)` of `DecodeCA` reads bit `n`. -/
theorem and_bit_ne_zero (x n : Nat) : ((x &&& (1 <<< n)) != 0) = x.testBit n := by
  rw [Nat.one_shiftLeft]
  by_cases h : x.testBit n = true
  · have h1 : x &&& 2 ^ n = 2 ^ n := by
      apply Nat.eq_of_testBit_eq
      intro i
      rw [Nat.testBit_and, Nat.testBit_two_pow]
      by_cases hi : n = i
      · subst hi
        simp [h]
      · simp [hi]
    rw [h1, h]
    have : 2 ^ n ≠ 0 := (Nat.two_pow_pos n).ne'
    simp [this]
  · have h0 : x.testBit n = false := by simpa using h
    have h1 : x &&& 2 ^ n = 0 := by
      apply Nat.eq_of_testBit_eq
      intro i
      rw [Nat.testBit_and, Nat.testBit_two_pow, Nat.zero_testBit]
      by_cases hi : n = i
      · subst hi
        simp [h0]
      · simp [hi]
    rw [h1, h0]
    rfl

/-- The three flags of `DecodeCA` are bits 47, 46 and 45 of the word. -/
theorem decodeCA_bits (v : Nat) :
    (DecodeCA v).read = v.testBit 47 ∧ (DecodeCA v).register_space = v.testBit 46 ∧
    (DecodeCA v).linear = v.testBit 45 :=
  ⟨and_bit_ne_zero v 47, and_bit_ne_zero v 46, and_bit_ne_zero v 45⟩

/-- The sixth clock event of the command/address phase selects the next state from the
flags `read` and `register_space` of the word. -/
theorem caClock_sixth_state (latencyParam : Int) (r : Bool) (x : Nat) (l : Locals)
    (hb : l.ca_byte = 5) :
    (caClock latencyParam r x l).state =
      if (DecodeCA ((l.ca_data <<< 8) ||| x)).read then State.STATE_READ_WAIT
      else if (DecodeCA ((l.ca_data <<< 8) ||| x)).register_space then State.STATE_WRITE
      else State.STATE_WRITE_WAIT := by
  by_cases hf : l.first = true
  · unfold caClock
    simp only [hf, if_true, hb]
    norm_num
  · have hf1 : l.first = false := by simpa using hf
    rw [caClock_sixth latencyParam r x l hf1 hb]

set_option linter.unusedTactic false in
/-- A clock event of the command/address phase appends SELECT and CA symbols only. -/
theorem caClock_types (latencyParam : Int) (r : Bool) (x : Nat) (l : Locals) :
    ∃ T, symbolTypes (caClock latencyParam r x l).cap = symbolTypes l.cap ++ T ∧
      SymbolType.TYPE_WAIT ∉ T := by
  unfold caClock
  simp only
  split_ifs
  all_goals first
    | (refine ⟨[], ?_, by simp⟩; simp [symbolTypes, pushSymbol]; done)
    | (refine ⟨[SymbolType.TYPE_CA], ?_, by simp⟩; simp [symbolTypes, pushSymbol]; done)
    | (refine ⟨[SymbolType.TYPE_SELECT], ?_, by simp⟩; simp [symbolTypes, pushSymbol]; done)
    | (refine ⟨[SymbolType.TYPE_SELECT, SymbolType.TYPE_CA], ?_, by simp⟩
       simp [symbolTypes, pushSymbol]; done)

set_option linter.unusedTactic false in
/-- In state WRITE the switch appends DATA and DESELECT symbols only. -/
theorem fsm_write_types (inp : Inputs) (latencyParam : Int) (l : Locals)
    (h : l.state = State.STATE_WRITE) :
    ∃ T, symbolTypes (fsm inp latencyParam l).cap = symbolTypes l.cap ++ T ∧
      SymbolType.TYPE_WAIT ∉ T := by
  unfold fsm
  simp only [h]
  split_ifs
  all_goals first
    | (refine ⟨[], ?_, by simp⟩; simp [symbolTypes, pushSymbol]; done)
    | (refine ⟨[SymbolType.TYPE_DESELECT], ?_, by simp⟩
       simp [symbolTypes, pushSymbol, deselect]; done)
    | (refine ⟨[SymbolType.TYPE_DATA], ?_, by simp⟩; simp [symbolTypes, pushSymbol]; done)

/-- C32: at the sixth command/address byte (state CA, CS# low, a CLK event, five bytes
taken) the next state is a function of bits 47 and 46 of the 48-bit word `v` that is
pushed, as `DecodeCA` reads them (read = bit 47, register_space = bit 46, linear =
bit 45): READ_WAIT when bit 47 is set, WRITE when bit 47 is clear and bit 46 is set,
WRITE_WAIT when both are clear. After a register-space write no WAIT symbol is emitted
for as long as the machine stays in WRITE: the symbols appended from the sixth byte on
are SELECT, CA, DATA and DESELECT symbols. -/
theorem hyperram_ca_next_state (inp : Inputs) (latencyParam : Int) (l : Locals)
    (hstate : l.state = State.STATE_CA) (hcs : curCs inp l = false)
    (hev : l.event_type = EventType.EVENT_CLK) (hb : l.ca_byte = 5) :
    ((DecodeCA ((l.ca_data <<< 8) ||| curData inp l.idata)).read
        = ((l.ca_data <<< 8) ||| curData inp l.idata).testBit 47 ∧
      (DecodeCA ((l.ca_data <<< 8) ||| curData inp l.idata)).register_space
        = ((l.ca_data <<< 8) ||| curData inp l.idata).testBit 46 ∧
      (DecodeCA ((l.ca_data <<< 8) ||| curData inp l.idata)).linear
        = ((l.ca_data <<< 8) ||| curData inp l.idata).testBit 45) ∧
    (fsm inp latencyParam l).state =
      (if ((l.ca_data <<< 8) ||| curData inp l.idata).testBit 47 then State.STATE_READ_WAIT
       else if ((l.ca_data <<< 8) ||| curData inp l.idata).testBit 46 then State.STATE_WRITE
       else State.STATE_WRITE_WAIT) ∧
    (((l.ca_data <<< 8) ||| curData inp l.idata).testBit 47 = false →
      ((l.ca_data <<< 8) ||| curData inp l.idata).testBit 46 = true →
      ∀ j, 1 ≤ j →
        (∀ i, 1 ≤ i → i < j → (stateAt inp latencyParam l i).state = State.STATE_WRITE) →
        ∃ T, symbolTypes (stateAt inp latencyParam l j).cap = symbolTypes l.cap ++ T ∧
          SymbolType.TYPE_WAIT ∉ T) := by
  obtain ⟨d1, d2, d3⟩ := decodeCA_bits ((l.ca_data <<< 8) ||| curData inp l.idata)
  have hfsm := fsm_ca_low_clk inp latencyParam l hstate hcs hev
  refine ⟨⟨d1, d2, d3⟩, ?_, ?_⟩
  · rw [hfsm, caClock_sixth_state latencyParam _ _ l hb, d1, d2]
  · intro _ _ j hj hw
    induction j with
    | zero => omega
    | succ j ih =>
      rw [(stateAt_succ_fields inp latencyParam l j).2.2.2.2.2.2]
      cases j with
      | zero =>
        show ∃ T, symbolTypes (fsm inp latencyParam l).cap = _ ∧ _
        rw [hfsm]
        exact caClock_types latencyParam _ _ l
      | succ j =>
        obtain ⟨T, hT, hn⟩ := ih (by omega) (fun i h1 h2 => hw i h1 (by omega))
        obtain ⟨T2, hT2, hn2⟩ := fsm_write_types inp latencyParam _
          (hw (j + 1) (by omega) (by omega))
        refine ⟨T ++ T2, ?_, ?_⟩
        · rw [hT2, hT, List.append_assoc]
        · simp [hn, hn2]

set_option maxRecDepth 20000 in
/-- Witness for C32 on `shortWaitCapture`: all data lines are high, bit 47 of the word is
set and the sixth byte leads to READ_WAIT. -/
theorem hyperram_ca_next_state_witness :
    (fsm shortWaitCapture 2 sixthByteState).state = State.STATE_READ_WAIT :=
  (hyperram_ca_next_state shortWaitCapture 2 sixthByteState rfl rfl rfl rfl).2.1.trans rfl

end HyperRAMDecoder

/-! ## The numeric filters: reads, order of the offsets, and the last input sample -/

theorem forLoop_congr {σ : Type} (lo hi : Nat) (f g : Nat → σ → σ) (s : σ)
    (h : ∀ i, lo ≤ i → i < hi → ∀ t, f i t = g i t) : forLoop lo hi f s = forLoop lo hi g s := by
  unfold forLoop
  have hmem : ∀ i, i ∈ List.range' lo (hi - lo) → ∀ t, f i t = g i t := by
    intro i hi1
    rw [List.mem_range'_1] at hi1
    exact h i hi1.1 (by omega)
  revert hmem
  generalize List.range' lo (hi - lo) = is
  intro hmem
  induction is generalizing s with
  | nil => rfl
  | cons i is ih =>
    simp only [List.foldl_cons]
    rw [hmem i (List.mem_cons_self i is) s]
    exact ih _ (fun j hj => hmem j (List.mem_cons_of_mem i hj))

/-- C35: the output of the moving average does not depend on the value of the last input
sample: two inputs of one length that differ only in sample `L-1` give the same published
output (samples, offsets, durations and every other field), for every depth. The last
window produced starts at `L-D-1` and ends at `L-2`. -/
theorem movingAverage_ignores_last {α : Type} [DivisionRing α] (din : Waveform α)
    (s2 : List α) (depthParam : Int) (hlen : s2.length = din.m_samples.length)
    (hsame : ∀ k, k + 1 < din.m_samples.length → s2.getD k 0 = din.m_samples.getD k 0) :
    MovingAverageFilter.Refresh (some { din with m_samples := s2 }) depthParam
      = MovingAverageFilter.Refresh (some din) depthParam := by
  unfold MovingAverageFilter.Refresh
  simp only [hlen]
  split_ifs with hd
  · rfl
  · refine congrArg (fun cap : Waveform α => some { cap with
      m_timescale := din.m_timescale
      m_startTimestamp := din.m_startTimestamp
      m_startFemtoseconds := din.m_startFemtoseconds }) ?_
    apply forLoop_congr
    intro i _ hi cap
    have hw : windowMean s2 (toSizeT depthParam) i
        = windowMean din.m_samples (toSizeT depthParam) i := by
      unfold windowMean
      congr 1
      apply forLoop_congr
      intro j _ hj v
      rw [hsame (i + j) (by omega)]
    rw [hw]

/-- Witness for C35: a window of 3 over five samples, the last one changed from 5 to 99. -/
theorem movingAverage_ignores_last_witness :
    MovingAverageFilter.Refresh
        (some { denseInput [(1 : ℚ), 2, 3, 4, 5] with m_samples := ([1, 2, 3, 4, 99] : List ℚ) })
        3
      = MovingAverageFilter.Refresh (some (denseInput [(1 : ℚ), 2, 3, 4, 5])) 3 :=
  movingAverage_ignores_last (denseInput [(1 : ℚ), 2, 3, 4, 5]) [1, 2, 3, 4, 99] 3 rfl
    (by
      intro k hk
      have hk4 : k < 4 := by
        have : (denseInput [(1 : ℚ), 2, 3, 4, 5]).m_samples.length = 5 := rfl
        omega
      interval_cases k <;> rfl)

theorem nonDecreasing_map_range (n : Nat) (f : Nat → Int)
    (h : ∀ i j, i < j → j < n → f i ≤ f j) : NonDecreasing ((List.range n).map f) := by
  unfold NonDecreasing
  rw [List.pairwise_map]
  exact (List.pairwise_lt_range n).imp_of_mem
    (fun _ hb hab => h _ _ hab (List.mem_range.1 hb))

theorem ordered_getD_le {α : Type} (w : Waveform α) (h : OrderedOffsets w) (a b : Nat)
    (hab : a ≤ b) (hb : b < w.m_offsets.length) :
    0 ≤ w.m_offsets.getD a 0 ∧ w.m_offsets.getD a 0 ≤ w.m_offsets.getD b 0 := by
  obtain ⟨hn, hp⟩ := h
  have ha : a < w.m_offsets.length := by omega
  rw [List.getD_eq_getElem _ _ ha, List.getD_eq_getElem _ _ hb]
  refine ⟨hn _ (List.getElem_mem ha), ?_⟩
  rcases Nat.eq_or_lt_of_le hab with e | e
  · subst e
    exact le_refl _
  · exact List.pairwise_iff_getElem.mp hp a b ha hb e

/-- The offsets written by the timestamp copy of the anti-aliased and of the not dense
path are non-decreasing when the input offsets are. -/
theorem strided_offsets_nonDecreasing {α : Type} (din : Waveform α) (hwf : din.WellFormed)
    (ho : OrderedOffsets din) (F : Nat) (hF : 1 ≤ F) (l : List Int)
    (hl : l.length = din.m_samples.length / F) :
    NonDecreasing (forLoop 0 (din.m_samples.length / F) (fun i l =>
      l.set i (Int.tdiv (din.m_offsets.getD (i * F) 0) (F : Int))) l) := by
  rw [forLoop_set_all _ _ _ hl]
  apply nonDecreasing_map_range
  intro i j hij hj
  have hjF := strided_index_lt _ F j hj
  have hlt : i * F ≤ j * F := Nat.mul_le_mul_right F (le_of_lt hij)
  obtain ⟨h0, hle⟩ := ordered_getD_le din ho (i * F) (j * F) hlt (by rw [hwf.1]; exact hjF)
  have hFpos : (0 : Int) < (F : Int) := by exact_mod_cast hF
  rw [Int.tdiv_eq_ediv h0 hFpos.le, Int.tdiv_eq_ediv (le_trans h0 hle) hFpos.le]
  exact Int.ediv_le_ediv hFpos hle

theorem setup_densePacked {α : Type} (din : Waveform α) (data : Option (Waveform α))
    (h : ∀ c, data = some c → c.m_densePacked = false) :
    (SetupEmptyOutputWaveform din data false).m_densePacked = false := by
  unfold SetupEmptyOutputWaveform
  cases data with
  | none => rfl
  | some c => exact h c rfl

/-- C33, the code path by path. For inputs with non-negative, non-decreasing offsets the
output offsets are non-decreasing for the moving average (every depth `D <= L`), for the
anti-aliased and the not dense path of the decimation (every `F >= 1`, every reused
output), and for the dense path when the reused output is not flagged dense-packed. On
the dense path with a reused output that is flagged dense-packed the timestamps of the
old samples are kept: after the three refreshes of `threeRefreshes`, each on an input
with non-negative, non-decreasing offsets, the reused output is flagged dense-packed but
holds the offsets 0, 10, 20 written by the anti-aliased path, and the third refresh
publishes the offsets 0, 10, 20, 3, 4, which are not non-decreasing. -/
theorem numeric_filters_offset_order {α : Type} [Field α] (mkKernel : Int → Kernel α) :
    (∀ (din : Waveform α) (D : Nat), din.WellFormed → OrderedOffsets din → D < 2 ^ 63 →
      D ≤ din.m_samples.length →
      ∃ out, MovingAverageFilter.Refresh (some din) (D : Int) = some out ∧
        NonDecreasing out.m_offsets) ∧
    (∀ (din : Waveform α) (F : Nat) (aa : Bool) (data : Option (Waveform α)),
      din.WellFormed → OrderedOffsets din → 1 ≤ F → F < 2 ^ 63 →
      (aa = true ∨ din.m_densePacked = false) →
      ∃ out, DownsampleFilter.Refresh mkKernel (some din) (F : Int) aa data = some out ∧
        NonDecreasing out.m_offsets) ∧
    (∀ (din : Waveform α) (F : Nat) (data : Option (Waveform α)),
      1 ≤ F → F < 2 ^ 63 → din.m_densePacked = true →
      (∀ c, data = some c → c.m_densePacked = false) →
      ∃ out, DownsampleFilter.Refresh mkKernel (some din) (F : Int) false data = some out ∧
        NonDecreasing out.m_offsets) ∧
    (OrderedOffsets (denseInput [(0 : Int), 1, 2, 3, 4, 5]) ∧ OrderedOffsets sparseSix ∧
      OrderedOffsets (denseInput [(0 : Int), 1, 2, 3, 4, 5, 6, 7, 8, 9])) ∧
    threeRefreshes.map (fun w => (w.m_densePacked, w.m_offsets))
      = some (true, [0, 10, 20, 3, 4]) ∧
    ¬ NonDecreasing [0, 10, 20, 3, 4] := by
  refine ⟨?_, ?_, ?_, ⟨⟨by decide, by unfold NonDecreasing; decide⟩,
    ⟨by decide, by unfold NonDecreasing; decide⟩,
    ⟨by decide, by unfold NonDecreasing; decide⟩⟩, rfl, by unfold NonDecreasing; decide⟩
  · intro din D hwf ho hmax hDL
    have hD : toSizeT (D : Int) = D := toSizeT_natCast D hmax
    obtain ⟨out, hout, -, hoff, -⟩ := movingAverage_refresh_eq din (D : Int) (by rw [hD]; exact hDL)
    refine ⟨out, hout, ?_⟩
    rw [hoff, hD, forLoop_set_all _ _ _ (resizeVec_length _ _ _)]
    apply nonDecreasing_map_range
    intro i j hij hj
    exact (ordered_getD_le din ho (i + D / 2) (j + D / 2) (by omega)
      (by rw [hwf.1]; omega)).2
  · intro din F aa data hwf ho hF hmax hpath
    have hFs : toSizeT (F : Int) = F := toSizeT_natCast F hmax
    rw [downsample_refresh_eq]
    refine ⟨_, rfl, ?_⟩
    show NonDecreasing (if aa then _ else _ : Waveform α).m_offsets
    cases aa with
    | true =>
      simp only [if_true]
      rw [antialiasedPath_offsets, hFs]
      exact strided_offsets_nonDecreasing din hwf ho F hF _ (resizeVec_length _ _ _)
    | false =>
      have hd : din.m_densePacked = false := by
        rcases hpath with h | h
        · cases h
        · exact h
      simp only [Bool.false_eq_true, if_false]
      rw [plainPath_sparse_offsets _ _ _ _ hd, hFs]
      exact strided_offsets_nonDecreasing din hwf ho F hF _ (resizeVec_length _ _ _)
  · intro din F data _ _ hd hdata
    rw [downsample_refresh_eq]
    refine ⟨_, rfl, ?_⟩
    show NonDecreasing (DownsampleFilter.plainPath din (F : Int)
      (din.m_samples.length / toSizeT (F : Int))
      (SetupEmptyOutputWaveform din data false)).m_offsets
    rw [plainPath_dense_offsets _ _ _ _ hd, if_pos (setup_densePacked din data hdata),
      forLoop_set_all _ _ _ (resizeVec_length _ _ _)]
    apply nonDecreasing_map_range
    intro i j hij _
    exact_mod_cast le_of_lt hij

namespace IBISDriverFilter

set_option maxRecDepth 100000 in
/-- C36, the code at two failing inputs. For every filter with a model selected and a
non-zero sample rate, sampled data without any sample (a clock without an edge) makes the
refresh read `samples.m_offsets[0]` (line 216) outside the bounds of the vector; and for
sampled data with at least one sample, a sample rate above `FS_PER_SECOND` (more than one
sample per femtosecond) makes the sample period 0, by which line 220 divides. On
`noEdgeInput` at 10^13 samples per second and on `steadyInput` at 2 * 10^15 the run ends
with these faults and publishes neither the null output nor a waveform. -/
theorem ibis_refresh_not_total :
    (∀ (inp : SampledInput) (m : Members ℚ) (model : IBISModel ℚ),
      m.m_model = some model → toSizeT m.sampleRate ≠ 0 → inp.samples.m_offsets = [] →
      Refresh (some inp) m = Except.error Fault.outOfBounds) ∧
    (∀ (inp : SampledInput) (m : Members ℚ) (model : IBISModel ℚ),
      m.m_model = some model → FS_PER_SECOND < toSizeT m.sampleRate →
      inp.samples.WellFormed → 0 < inp.samples.m_samples.length →
      Refresh (some inp) m = Except.error Fault.divisionByZero) ∧
    noEdgeInput.samples.m_samples = [] ∧ noEdgeInput.samples.m_offsets = [] ∧
    (membersOf pushPull (10 ^ 13)).m_model = some pushPull ∧
    emitted (Refresh (some noEdgeInput) (membersOf pushPull (10 ^ 13)))
      = Outcome.fault Fault.outOfBounds ∧
    FS_PER_SECOND / toSizeT (2 * 10 ^ 15) = 0 ∧
    emitted (Refresh (some steadyInput) (membersOf pushPull (2 * 10 ^ 15)))
      = Outcome.fault Fault.divisionByZero := by
  refine ⟨?_, ?_, rfl, rfl, rfl, by decide!, by decide, by decide!⟩
  · intro inp m model hm hr he
    unfold Refresh
    simp only [hm, if_neg hr, he, List.getElem?_nil]
  · intro inp m model hm hr hw hlen
    obtain ⟨hwo, hwd⟩ := hw
    have hr0 : toSizeT m.sampleRate ≠ 0 := by
      have : 0 < FS_PER_SECOND := by decide
      omega
    have hp : FS_PER_SECOND / toSizeT m.sampleRate = 0 := Nat.div_eq_of_lt hr
    have hidx : lastIndex inp.samples.m_samples.length = inp.samples.m_samples.length - 1 := by
      unfold lastIndex
      rw [if_neg (by omega)]
    have hc0 : inp.samples.m_offsets[0]? = some inp.samples.m_offsets[0] :=
      List.getElem?_eq_getElem (by omega)
    have hcl : inp.samples.m_offsets[inp.samples.m_samples.length - 1]?
        = some inp.samples.m_offsets[inp.samples.m_samples.length - 1] :=
      List.getElem?_eq_getElem (by omega)
    have hdl : inp.samples.m_durations[inp.samples.m_samples.length - 1]?
        = some inp.samples.m_durations[inp.samples.m_samples.length - 1] :=
      List.getElem?_eq_getElem (by omega)
    unfold Refresh
    simp only [hm, if_neg hr0, hc0, hidx, hcl, hdl, hp, if_true]

end IBISDriverFilter

/-! ## The numeric filters with the faults of the source: checked accesses and loops -/

theorem readAt_ok {β : Type} (v : List β) (i : Nat) (d : β) (h : i < v.length) :
    readAt v i = Except.ok (v.getD i d) := by
  unfold readAt
  rw [List.getD_eq_getElem?_getD, List.getElem?_eq_getElem h]
  rfl

theorem storeAt_ok {β : Type} (v : List β) (i : Nat) (x : β) (h : i < v.length) :
    storeAt v i x = Except.ok (v.set i x) := by
  unfold storeAt
  rw [if_pos h]

theorem readAtSigned_ok {β : Type} (v : List β) (i : Int) (d : β) (h0 : 0 ≤ i)
    (h : i.toNat < v.length) : readAtSigned v i = Except.ok (v.getD i.toNat d) := by
  unfold readAtSigned
  rw [if_neg (by omega), readAt_ok v _ d h]

/-- A checked loop whose every step succeeds under an invariant is the unchecked loop. -/
theorem runOver_ok {σ : Type} (P : σ → Prop) (body : Nat → σ → Except RunFault σ)
    (f : Nat → σ → σ) (is : List Nat) (s : σ)
    (h : ∀ i, i ∈ is → ∀ t, P t → body i t = Except.ok (f i t) ∧ P (f i t)) (hs : P s) :
    runOver body is s = Except.ok (is.foldl (fun s i => f i s) s) ∧
      P (is.foldl (fun s i => f i s) s) := by
  induction is generalizing s with
  | nil => exact ⟨rfl, hs⟩
  | cons i is ih =>
    obtain ⟨h1, h2⟩ := h i (List.mem_cons_self i is) s hs
    simp only [runOver, h1, List.foldl_cons]
    exact ih (f i s) (fun j hj => h j (List.mem_cons_of_mem i hj)) h2

theorem forLoopM_ok {σ : Type} (P : σ → Prop) (body : Nat → σ → Except RunFault σ)
    (f : Nat → σ → σ) (lo hi : Nat) (s : σ)
    (h : ∀ i, lo ≤ i → i < hi → ∀ t, P t → body i t = Except.ok (f i t) ∧ P (f i t))
    (hs : P s) :
    forLoopM lo hi body s = Except.ok (forLoop lo hi f s) ∧ P (forLoop lo hi f s) := by
  unfold forLoopM forLoop
  apply runOver_ok P body f _ s _ hs
  intro i hi1
  rw [List.mem_range'_1] at hi1
  exact h i hi1.1 (by omega)

theorem sized_resize {α : Type} [Zero α] (w : Waveform α) (n : Nat) :
    (w.Resize n).Sized n := by
  unfold Waveform.Sized Waveform.Resize
  simp only [resizeVec_length, and_self]

theorem copyTimestampChecked_ok {α : Type} (din : Waveform α) (factor : Int) (i n : Nat)
    (cap : Waveform α) (hc : cap.Sized n) (hi : i < n)
    (ho : i * toSizeT factor < din.m_offsets.length)
    (hd : i * toSizeT factor < din.m_durations.length) :
    copyTimestampChecked din factor i cap = Except.ok (copyTimestamp din factor i cap) ∧
      (copyTimestamp din factor i cap).Sized n := by
  obtain ⟨c1, c2, c3⟩ := hc
  unfold copyTimestampChecked
  rw [readAt_ok _ _ 0 ho, readAt_ok _ _ 0 hd]
  simp only
  rw [storeAt_ok _ _ _ (by omega), storeAt_ok _ _ _ (by omega)]
  refine ⟨rfl, ?_⟩
  unfold Waveform.Sized copyTimestamp
  simp only [List.length_set]
  exact ⟨c1, c2, c3⟩

theorem fillDenseChecked_ok {α : Type} (i n : Nat) (cap : Waveform α) (hc : cap.Sized n)
    (hi : i < n) :
    fillDenseChecked i cap = Except.ok (fillDense i cap) ∧ (fillDense i cap).Sized n := by
  obtain ⟨c1, c2, c3⟩ := hc
  unfold fillDenseChecked
  rw [storeAt_ok _ _ _ (by omega), storeAt_ok _ _ _ (by omega)]
  refine ⟨rfl, ?_⟩
  unfold Waveform.Sized fillDense
  simp only [List.length_set]
  exact ⟨c1, c2, c3⟩

theorem storeSampleChecked_ok {α : Type} (i n : Nat) (v : α) (cap : Waveform α)
    (hc : cap.Sized n) (hi : i < n) :
    storeSampleChecked i v cap = Except.ok (storeSample i v cap) ∧
      (storeSample i v cap).Sized n := by
  obtain ⟨c1, c2, c3⟩ := hc
  unfold storeSampleChecked
  rw [storeAt_ok _ _ _ (by omega)]
  refine ⟨rfl, ?_⟩
  unfold Waveform.Sized storeSample
  simp only [List.length_set]
  exact ⟨c1, c2, c3⟩

/-- With a radius `0 <= r < 2^31` and a kernel of `2r+1` taps the checked inner loop of the
anti-aliasing path reads inside its vectors and is the unchecked one. -/
theorem convolveChecked_ok {α : Type} [Zero α] [Add α] [Mul α] (samples : List α) (len : Nat)
    (k : Kernel α) (base : Int) (hs : samples.length = len) (hr0 : 0 ≤ k.kernel_radius)
    (hr1 : k.kernel_radius < 2 ^ 31)
    (hk : k.kernel.length = (2 * k.kernel_radius + 1).toNat) :
    DownsampleFilter.convolveChecked samples len k base
      = Except.ok (convolve samples len k base) := by
  unfold DownsampleFilter.convolveChecked convolve
  simp only
  rw [toInt32_of_range (-k.kernel_radius) (by omega) (by omega)]
  have hN : (k.kernel_radius - -k.kernel_radius + 1).toNat = (2 * k.kernel_radius + 1).toNat := by
    congr 1
    ring
  rw [hN]
  have h := forLoopM_ok (fun _ : α => True)
    (fun n conv =>
      if (base + (-k.kernel_radius + (n : Int)) < 0 ∨ base + (-k.kernel_radius + (n : Int)) ≥ (len : Int))
      then Except.ok conv
      else
        match readAtSigned samples (base + (-k.kernel_radius + (n : Int))) with
        | Except.error e => Except.error e
        | Except.ok s =>
          match readAtSigned k.kernel (-k.kernel_radius + (n : Int) + k.kernel_radius) with
          | Except.error e => Except.error e
          | Except.ok t => Except.ok (conv + s * t))
    (fun x conv =>
      if (base + ((x : Int) - k.kernel_radius) < 0 ∨ base + ((x : Int) - k.kernel_radius) ≥ (len : Int))
      then conv
      else conv + samples.getD (base + ((x : Int) - k.kernel_radius)).toNat 0 * k.kernel.getD x 0)
    0 (2 * k.kernel_radius + 1).toNat 0 ?_ trivial
  · exact h.1
  · intro n _ hn t _
    refine ⟨?_, trivial⟩
    have e1 : -k.kernel_radius + (n : Int) = (n : Int) - k.kernel_radius := by ring
    have e2 : (n : Int) - k.kernel_radius + k.kernel_radius = (n : Int) := by ring
    dsimp only
    rw [e1, e2]
    by_cases hg : base + ((n : Int) - k.kernel_radius) < 0 ∨
        base + ((n : Int) - k.kernel_radius) ≥ (len : Int)
    · rw [if_pos hg, if_pos hg]
    · rw [if_neg hg, if_neg hg]
      rw [readAtSigned_ok samples _ 0 (by omega) (by omega),
        readAtSigned_ok k.kernel _ 0 (by omega) (by rw [hk]; omega)]
      simp only [Int.toNat_ofNat]

/-- The loop of the anti-aliasing path on a well-formed input and an output of `outlen`
elements, with `outlen * factor <= len`: no access is out of bounds. -/
theorem antialiasedLoopChecked_ok {α : Type} [Zero α] [Add α] [Mul α] (k : Kernel α)
    (din : Waveform α) (hwf : din.WellFormed) (factor : Int) (outlen : Nat)
    (cap : Waveform α) (hc : cap.Sized outlen)
    (hidx : ∀ i, i < outlen → i * toSizeT factor < din.m_samples.length)
    (hr0 : 0 ≤ k.kernel_radius) (hr1 : k.kernel_radius < 2 ^ 31)
    (hk : k.kernel.length = (2 * k.kernel_radius + 1).toNat) :
    DownsampleFilter.antialiasedLoopChecked k din factor din.m_samples.length outlen cap
      = Except.ok (forLoop 0 outlen (fun i cap =>
          storeSample i (convolve din.m_samples din.m_samples.length k
            ((i * toSizeT factor : Nat) : Int)) (copyTimestamp din factor i cap)) cap) := by
  unfold DownsampleFilter.antialiasedLoopChecked
  refine (forLoopM_ok (Waveform.Sized outlen) _ _ 0 outlen cap ?_ hc).1
  intro i _ hi t ht
  obtain ⟨a1, a2⟩ := copyTimestampChecked_ok din factor i outlen t ht hi
    (by rw [hwf.1]; exact hidx i hi) (by rw [hwf.2]; exact hidx i hi)
  simp only [a1, convolveChecked_ok din.m_samples _ k _ rfl hr0 hr1 hk]
  exact storeSampleChecked_ok i outlen _ _ a2 hi

theorem fillLoopChecked_ok {α : Type} (lo hi : Nat) (cap : Waveform α) (hc : cap.Sized hi) :
    forLoopM lo hi fillDenseChecked cap = Except.ok (forLoop lo hi fillDense cap) ∧
      (forLoop lo hi fillDense cap).Sized hi := by
  apply forLoopM_ok (Waveform.Sized hi) _ _ lo hi cap _ hc
  intro i _ hi1 t ht
  exact fillDenseChecked_ok i hi t ht hi1

/-- The path without anti-aliasing on a well-formed input, with `outlen * factor <= len`:
no access is out of bounds. -/
theorem plainPathChecked_ok {α : Type} [Zero α] (din : Waveform α) (hwf : din.WellFormed)
    (factor : Int) (outlen : Nat) (cap : Waveform α)
    (hidx : ∀ i, i < outlen → i * toSizeT factor < din.m_samples.length) :
    DownsampleFilter.plainPathChecked din factor outlen cap
      = Except.ok (DownsampleFilter.plainPath din factor outlen cap) := by
  unfold DownsampleFilter.plainPathChecked DownsampleFilter.plainPath
  simp only
  have hsz := sized_resize cap outlen
  have hstore : ∀ c : Waveform α, c.Sized outlen →
      forLoopM 0 outlen (fun i cap =>
        match readAt din.m_samples (i * toSizeT factor) with
        | Except.error e => Except.error e
        | Except.ok v => storeSampleChecked i v cap) c
      = Except.ok (forLoop 0 outlen (fun i cap =>
          storeSample i (din.m_samples.getD (i * toSizeT factor) 0) cap) c) := by
    intro c hcs
    refine (forLoopM_ok (Waveform.Sized outlen) _ _ 0 outlen c ?_ hcs).1
    intro i _ hi t ht
    simp only [readAt_ok _ _ 0 (hidx i hi)]
    exact storeSampleChecked_ok i outlen _ _ ht hi
  by_cases hd : din.m_densePacked = true
  · rw [if_pos hd, if_pos hd]
    by_cases h1 : (!(cap.Resize outlen).m_densePacked) = true
    · rw [if_pos h1, if_pos h1]
      obtain ⟨b1, b2⟩ := fillLoopChecked_ok 0 outlen
        { cap.Resize outlen with m_densePacked := true } hsz
      rw [b1]
      exact hstore _ b2
    · rw [if_neg h1, if_neg h1]
      by_cases h2 : outlen > cap.m_samples.length
      · rw [if_pos h2, if_pos h2]
        obtain ⟨b1, b2⟩ := fillLoopChecked_ok cap.m_samples.length outlen (cap.Resize outlen) hsz
        rw [b1]
        exact hstore _ b2
      · rw [if_neg h2, if_neg h2]
        exact hstore _ hsz
  · rw [if_neg hd, if_neg hd]
    refine (forLoopM_ok (Waveform.Sized outlen) _ _ 0 outlen (cap.Resize outlen) ?_ hsz).1
    intro i _ hi t ht
    obtain ⟨a1, a2⟩ := copyTimestampChecked_ok din factor i outlen t ht hi
      (by rw [hwf.1]; exact hidx i hi) (by rw [hwf.2]; exact hidx i hi)
    simp only [a1, readAt_ok _ _ 0 (hidx i hi)]
    exact storeSampleChecked_ok i outlen _ _ a2 hi

/-! ## DownsampleFilter: the kernel with its `int` variables -/

theorem toInt32_wrap_neg (x : Int) (h1 : 2 ^ 31 ≤ x) (h2 : x < 2 ^ 32) : toInt32 x < 0 := by
  unfold toInt32
  omega

theorem buildKernel_floatToInt {α : Type} [DivisionRing α] (fn : MathFns α) (factor : Int)
    (h : fn.ceil (3 * DownsampleFilter.sigma fn factor) < -2 ^ 31 ∨
      2 ^ 31 ≤ fn.ceil (3 * DownsampleFilter.sigma fn factor)) :
    DownsampleFilter.buildKernel fn factor = Except.error RunFault.floatToInt := by
  unfold DownsampleFilter.buildKernel
  simp only
  rw [if_pos h]

/-- A radius from `2^30` on that fits an `int`: the size `2r+1` wraps to a negative `int`
and `kernel.resize` throws. -/
theorem buildKernel_lengthError {α : Type} [DivisionRing α] (fn : MathFns α) (factor : Int)
    (h1 : 2 ^ 30 ≤ fn.ceil (3 * DownsampleFilter.sigma fn factor))
    (h2 : fn.ceil (3 * DownsampleFilter.sigma fn factor) < 2 ^ 31) :
    DownsampleFilter.buildKernel fn factor = Except.error RunFault.lengthError := by
  unfold DownsampleFilter.buildKernel
  simp only
  rw [if_neg (by omega), if_pos (toInt32_wrap_neg _ (by omega) (by omega))]

/-- A radius `0 <= r < 2^30`: the kernel is built, every store of lines 136-145 is inside
the `2r+1` taps, and the result has radius `r` and `2r+1` taps. -/
theorem buildKernel_ok {α : Type} [DivisionRing α] (fn : MathFns α) (factor : Int)
    (h0 : 0 ≤ fn.ceil (3 * DownsampleFilter.sigma fn factor))
    (h1 : fn.ceil (3 * DownsampleFilter.sigma fn factor) < 2 ^ 30) :
    ∃ k, DownsampleFilter.buildKernel fn factor = Except.ok k ∧
      k.kernel_radius = fn.ceil (3 * DownsampleFilter.sigma fn factor) ∧
      k.kernel.length = (2 * k.kernel_radius + 1).toNat := by
  unfold DownsampleFilter.buildKernel
  simp only
  generalize fn.ceil (3 * DownsampleFilter.sigma fn factor) = c at h0 h1
  rw [if_neg (by omega), toInt32_of_range (c * 2 + 1) (by omega) (by omega),
    if_neg (by omega)]
  generalize hn : (c * 2 + 1).toNat = n
  obtain ⟨a1, a2⟩ := forLoopM_ok (fun l : List α => l.length = n)
    (DownsampleFilter.tapStore fn (DownsampleFilter.sigma fn factor)
      (1 / (DownsampleFilter.sigma fn factor * fn.sqrt (2 * fn.pi))) c)
    (fun x l => l.set x
      ((1 / (DownsampleFilter.sigma fn factor * fn.sqrt (2 * fn.pi))) *
        fn.exp (((toInt32 (toInt32 (-(toInt32 ((x : Int) - c))) * toInt32 ((x : Int) - c)) : Int) : α)
          / (2 * DownsampleFilter.sigma fn factor))))
    0 n (resizeVec 0 n [])
    (by
      intro x _ hx l hl
      unfold DownsampleFilter.tapStore
      simp only
      rw [storeAt_ok _ _ _ (by omega)]
      exact ⟨rfl, by rw [List.length_set]; exact hl⟩)
    (resizeVec_length _ _ _)
  rw [a1]
  simp only
  generalize forLoop 0 n (fun x l => l.set x
      ((1 / (DownsampleFilter.sigma fn factor * fn.sqrt (2 * fn.pi))) *
        fn.exp (((toInt32 (toInt32 (-(toInt32 ((x : Int) - c))) * toInt32 ((x : Int) - c)) : Int) : α)
          / (2 * DownsampleFilter.sigma fn factor)))) (resizeVec 0 n []) = raw at a2 ⊢
  obtain ⟨b1, b2⟩ := forLoopM_ok (fun l : List α => l.length = n)
    (DownsampleFilter.tapNormalise (raw.foldl (fun sum k => sum + k) 0))
    (fun i l => l.set i (l.getD i 0 / raw.foldl (fun sum k => sum + k) 0))
    0 n raw
    (by
      intro i _ hi l hl
      unfold DownsampleFilter.tapNormalise
      rw [readAt_ok l i 0 (by omega)]
      simp only
      rw [storeAt_ok _ _ _ (by omega)]
      exact ⟨rfl, by rw [List.length_set]; exact hl⟩)
    a2
  rw [b1]
  refine ⟨_, rfl, rfl, ?_⟩
  simp only
  rw [b2, ← hn]
  congr 1
  ring

/-- While the radius is at most 46340 no `int` of the kernel construction wraps, and the
kernel built with the 32-bit variables is `gaussianKernel`. -/
theorem buildKernel_eq_gaussianKernel {α : Type} [DivisionRing α] (fn : MathFns α)
    (factor : Int) (h0 : 0 ≤ fn.ceil (3 * DownsampleFilter.sigma fn factor))
    (h1 : fn.ceil (3 * DownsampleFilter.sigma fn factor) ≤ 46340) :
    DownsampleFilter.buildKernel fn factor
      = Except.ok (DownsampleFilter.gaussianKernel fn factor) := by
  unfold DownsampleFilter.buildKernel DownsampleFilter.gaussianKernel
  simp only
  generalize fn.ceil (3 * DownsampleFilter.sigma fn factor) = c at h0 h1
  rw [if_neg (by omega), toInt32_of_range (c * 2 + 1) (by omega) (by omega),
    if_neg (by omega)]
  generalize hn : (c * 2 + 1).toNat = n
  obtain ⟨a1, a2⟩ := forLoopM_ok (fun l : List α => l.length = n)
    (DownsampleFilter.tapStore fn (DownsampleFilter.sigma fn factor)
      (1 / (DownsampleFilter.sigma fn factor * fn.sqrt (2 * fn.pi))) c)
    (fun x l => l.set x (DownsampleFilter.rawTap fn (DownsampleFilter.sigma fn factor)
      (1 / (DownsampleFilter.sigma fn factor * fn.sqrt (2 * fn.pi))) c x))
    0 n (resizeVec 0 n [])
    (by
      intro x _ hx l hl
      unfold DownsampleFilter.tapStore DownsampleFilter.rawTap
      simp only
      have hd1 : -46340 ≤ (x : Int) - c := by omega
      have hd2 : (x : Int) - c ≤ 46340 := by omega
      rw [toInt32_of_range ((x : Int) - c) (by omega) (by omega),
        toInt32_of_range (-((x : Int) - c)) (by omega) (by omega),
        toInt32_of_range (-((x : Int) - c) * ((x : Int) - c)) (by nlinarith) (by nlinarith),
        storeAt_ok _ _ _ (by omega)]
      exact ⟨rfl, by rw [List.length_set]; exact hl⟩)
    (resizeVec_length _ _ _)
  rw [a1]
  simp only
  generalize forLoop 0 n (fun x l => l.set x (DownsampleFilter.rawTap fn
      (DownsampleFilter.sigma fn factor)
      (1 / (DownsampleFilter.sigma fn factor * fn.sqrt (2 * fn.pi))) c x))
      (resizeVec 0 n []) = raw at a2 ⊢
  obtain ⟨b1, -⟩ := forLoopM_ok (fun l : List α => l.length = n)
    (DownsampleFilter.tapNormalise (raw.foldl (fun sum k => sum + k) 0))
    (fun i l => l.set i (l.getD i 0 / raw.foldl (fun sum k => sum + k) 0))
    0 n raw
    (by
      intro i _ hi l hl
      unfold DownsampleFilter.tapNormalise
      rw [readAt_ok l i 0 (by omega)]
      simp only
      rw [storeAt_ok _ _ _ (by omega)]
      exact ⟨rfl, by rw [List.length_set]; exact hl⟩)
    a2
  rw [b1]

/-! ## DownsampleFilter: the radius of the kernel over the reals -/

theorem sqrt_two_log_two_bounds :
    (54561 / 46340 : ℝ) < Real.sqrt (2 * Real.log 2) ∧ Real.sqrt (2 * Real.log 2) < (118 / 100 : ℝ) := by
  have hlog1 : (0.6931471803 : ℝ) < Real.log 2 := Real.log_two_gt_d9
  have hlog2 : Real.log 2 < (0.6931471808 : ℝ) := Real.log_two_lt_d9
  constructor
  · rw [Real.lt_sqrt (by norm_num)]
    norm_num at hlog1 ⊢
    linarith
  · rw [Real.sqrt_lt' (by norm_num)]
    norm_num at hlog2 ⊢
    linarith

/-- The radius `ceil(3*sigma)` computed by line 129 for a factor `F >= 1`, over the reals:
it is at least 1; at most 46340 for `F <= 18187`; below `2^30` for `F <= 4*10^8`; from
`2^30` on and below `2^31` for `5*10^8 <= F <= 8*10^8`; and from `2^31` on for
`F >= 9*10^8`. -/
theorem kernel_radius_real (F : Nat) (hF : 1 ≤ F) :
    1 ≤ Int.ceil (3 * (((F : Int) : ℝ) / Real.sqrt (2 * Real.log 2))) ∧
    (F ≤ 18187 → Int.ceil (3 * (((F : Int) : ℝ) / Real.sqrt (2 * Real.log 2))) ≤ 46340) ∧
    (F ≤ 4 * 10 ^ 8 → Int.ceil (3 * (((F : Int) : ℝ) / Real.sqrt (2 * Real.log 2))) < 2 ^ 30) ∧
    (5 * 10 ^ 8 ≤ F → F ≤ 8 * 10 ^ 8 →
      2 ^ 30 ≤ Int.ceil (3 * (((F : Int) : ℝ) / Real.sqrt (2 * Real.log 2))) ∧
      Int.ceil (3 * (((F : Int) : ℝ) / Real.sqrt (2 * Real.log 2))) < 2 ^ 31) ∧
    (9 * 10 ^ 8 ≤ F → 2 ^ 31 ≤ Int.ceil (3 * (((F : Int) : ℝ) / Real.sqrt (2 * Real.log 2)))) := by
  obtain ⟨hs1, hs2⟩ := sqrt_two_log_two_bounds
  have hs0 : 0 < Real.sqrt (2 * Real.log 2) := by linarith
  have hF1 : (1 : ℝ) ≤ (F : ℝ) := by exact_mod_cast hF
  have hval : 3 * (((F : Int) : ℝ) / Real.sqrt (2 * Real.log 2))
      = 3 * (F : ℝ) / Real.sqrt (2 * Real.log 2) := by
    rw [Int.cast_natCast]
    ring
  rw [hval]
  refine ⟨?_, ?_, ?_, ?_, ?_⟩
  · have : 0 < Int.ceil (3 * (F : ℝ) / Real.sqrt (2 * Real.log 2)) :=
      Int.ceil_pos.2 (div_pos (by linarith) hs0)
    omega
  · intro h
    have hF2 : (F : ℝ) ≤ 18187 := by exact_mod_cast h
    rw [Int.ceil_le, div_le_iff₀ hs0]
    push_cast
    nlinarith
  · intro h
    have hF2 : (F : ℝ) ≤ 4 * 10 ^ 8 := by exact_mod_cast h
    have : Int.ceil (3 * (F : ℝ) / Real.sqrt (2 * Real.log 2)) ≤ 2 ^ 30 - 1 := by
      rw [Int.ceil_le, div_le_iff₀ hs0]
      push_cast
      nlinarith
    omega
  · intro h5 h8
    have hF5 : (5 * 10 ^ 8 : ℝ) ≤ (F : ℝ) := by exact_mod_cast h5
    have hF8 : (F : ℝ) ≤ 8 * 10 ^ 8 := by exact_mod_cast h8
    constructor
    · have : (2 ^ 30 - 1 : Int) < Int.ceil (3 * (F : ℝ) / Real.sqrt (2 * Real.log 2)) := by
        rw [Int.lt_ceil, lt_div_iff₀ hs0]
        push_cast
        nlinarith
      omega
    · have : Int.ceil (3 * (F : ℝ) / Real.sqrt (2 * Real.log 2)) ≤ 2 ^ 31 - 1 := by
        rw [Int.ceil_le, div_le_iff₀ hs0]
        push_cast
        nlinarith
      omega
  · intro h9
    have hF9 : (9 * 10 ^ 8 : ℝ) ≤ (F : ℝ) := by exact_mod_cast h9
    have : (2 ^ 31 - 1 : Int) < Int.ceil (3 * (F : ℝ) / Real.sqrt (2 * Real.log 2)) := by
      rw [Int.lt_ceil, lt_div_iff₀ hs0]
      push_cast
      nlinarith
    omega

theorem sigma_real (factor : Int) :
    DownsampleFilter.sigma
      ({ sqrt := Real.sqrt, log := Real.log, exp := Real.exp, ceil := fun x => Int.ceil x,
         pi := Real.pi } : MathFns ℝ) factor = (factor : ℝ) / Real.sqrt (2 * Real.log 2) := by
  simp [DownsampleFilter.sigma]

/-! ## DownsampleFilter: the refresh with its faults and the refresh on its normal path -/

theorem toSizeT_factor_ne_zero (F : Nat) (hF : 1 ≤ F) (hmax : F < 2 ^ 63) :
    ¬ toSizeT (F : Int) = 0 := by
  rw [toSizeT_natCast F hmax]
  omega

/-- Without anti-aliasing, on a well-formed input and for a factor `1 <= F < 2^63`, the
refresh with its faults runs to the end and publishes what `DownsampleFilter.Refresh`
publishes, with the timescale product reduced to `int64_t`. -/
theorem refreshChecked_plain {α : Type} [DivisionRing α] (fn : MathFns α)
    (mkKernel : Int → Kernel α) (din : Waveform α) (hwf : din.WellFormed) (F : Nat)
    (hF : 1 ≤ F) (hmax : F < 2 ^ 63) (data : Option (Waveform α)) :
    DownsampleFilter.RefreshChecked fn (some din) (F : Int) false data
      = Except.ok ((DownsampleFilter.Refresh mkKernel (some din) (F : Int) false data).map
          (fun w => { w with m_timescale := wrapInt64 (din.m_timescale * (F : Int)) })) := by
  unfold DownsampleFilter.RefreshChecked
  simp only [Bool.false_eq_true, if_false]
  rw [if_neg (toSizeT_factor_ne_zero F hF hmax),
    plainPathChecked_ok din hwf (F : Int) _ _
      (by rw [toSizeT_natCast F hmax]; exact fun i hi => strided_index_lt _ F i hi)]
  rfl

/-- With anti-aliasing and a kernel that has been built, with a radius `r >= 0` and `2r+1`
taps, the same holds. -/
theorem refreshChecked_antialiased {α : Type} [DivisionRing α] (fn : MathFns α)
    (din : Waveform α) (hwf : din.WellFormed) (F : Nat)
    (hF : 1 ≤ F) (hmax : F < 2 ^ 63) (data : Option (Waveform α)) (k : Kernel α)
    (hk : DownsampleFilter.buildKernel fn (F : Int) = Except.ok k)
    (hr0 : 0 ≤ k.kernel_radius) (hr1 : k.kernel_radius < 2 ^ 31)
    (hlen : k.kernel.length = (2 * k.kernel_radius + 1).toNat) :
    DownsampleFilter.RefreshChecked fn (some din) (F : Int) true data
      = Except.ok ((DownsampleFilter.Refresh (fun _ => k) (some din) (F : Int) true data).map
          (fun w => { w with m_timescale := wrapInt64 (din.m_timescale * (F : Int)) })) := by
  unfold DownsampleFilter.RefreshChecked
  simp only [if_true, hk]
  rw [if_neg (toSizeT_factor_ne_zero F hF hmax),
    antialiasedLoopChecked_ok k din hwf (F : Int) _ _ (sized_resize _ _)
      (by rw [toSizeT_natCast F hmax]; exact fun i hi => strided_index_lt _ F i hi) hr0 hr1 hlen]
  rfl

/-- A kernel that cannot be built ends the anti-aliased refresh. -/
theorem refreshChecked_kernel_fault {α : Type} [DivisionRing α] (fn : MathFns α)
    (din : Waveform α) (factor : Int) (hz : ¬ toSizeT factor = 0) (data : Option (Waveform α))
    (e : RunFault) (hk : DownsampleFilter.buildKernel fn factor = Except.error e) :
    DownsampleFilter.RefreshChecked fn (some din) factor true data = Except.error e := by
  unfold DownsampleFilter.RefreshChecked
  simp only [if_true, hk]
  rw [if_neg hz]

/-- A factor of 0 ends the refresh at the division of line 118. -/
theorem refreshChecked_zero {α : Type} [DivisionRing α] (fn : MathFns α)
    (din : Waveform α) (aa : Bool) (data : Option (Waveform α)) :
    DownsampleFilter.RefreshChecked fn (some din) 0 aa data
      = Except.error RunFault.divisionByZero := by
  unfold DownsampleFilter.RefreshChecked
  simp only
  rw [if_pos (by decide)]

/-- Over the reals, for a factor `F >= 1` the kernel construction either stops at the
conversion of the radius to `int` (radius from `2^31` on), or at `kernel.resize` (radius
from `2^30` on, where `kernel_size` has wrapped), or builds a kernel of radius
`1 <= r < 2^30` with `2r+1` taps. -/
theorem buildKernel_real_cases (F : Nat) (hF : 1 ≤ F) :
    (2 ^ 31 ≤ Int.ceil (3 * (((F : Int) : ℝ) / Real.sqrt (2 * Real.log 2))) ∧
      DownsampleFilter.buildKernel
        ({ sqrt := Real.sqrt, log := Real.log, exp := Real.exp, ceil := fun x => Int.ceil x,
           pi := Real.pi } : MathFns ℝ) (F : Int) = Except.error RunFault.floatToInt) ∨
    (2 ^ 30 ≤ Int.ceil (3 * (((F : Int) : ℝ) / Real.sqrt (2 * Real.log 2))) ∧
      DownsampleFilter.buildKernel
        ({ sqrt := Real.sqrt, log := Real.log, exp := Real.exp, ceil := fun x => Int.ceil x,
           pi := Real.pi } : MathFns ℝ) (F : Int) = Except.error RunFault.lengthError) ∨
    (Int.ceil (3 * (((F : Int) : ℝ) / Real.sqrt (2 * Real.log 2))) < 2 ^ 30 ∧
      ∃ k, DownsampleFilter.buildKernel
        ({ sqrt := Real.sqrt, log := Real.log, exp := Real.exp, ceil := fun x => Int.ceil x,
           pi := Real.pi } : MathFns ℝ) (F : Int) = Except.ok k ∧
        1 ≤ k.kernel_radius ∧ k.kernel_radius < 2 ^ 30 ∧
        k.kernel.length = (2 * k.kernel_radius + 1).toNat) := by
  have hc1 := (kernel_radius_real F hF).1
  have hsig := sigma_real (F : Int)
  by_cases h31 : 2 ^ 31 ≤ Int.ceil (3 * (((F : Int) : ℝ) / Real.sqrt (2 * Real.log 2)))
  · left
    refine ⟨h31, ?_⟩
    apply buildKernel_floatToInt
    rw [hsig]
    exact Or.inr h31
  · by_cases h30 : 2 ^ 30 ≤ Int.ceil (3 * (((F : Int) : ℝ) / Real.sqrt (2 * Real.log 2)))
    · right; left
      refine ⟨h30, ?_⟩
      apply buildKernel_lengthError
      · rw [hsig]; exact h30
      · rw [hsig]; show Int.ceil _ < 2 ^ 31; omega
    · right; right
      refine ⟨by omega, ?_⟩
      obtain ⟨k, k1, k2, k3⟩ := buildKernel_ok
        ({ sqrt := Real.sqrt, log := Real.log, exp := Real.exp, ceil := fun x => Int.ceil x,
           pi := Real.pi } : MathFns ℝ) (F : Int)
        (by rw [hsig]; show 0 ≤ Int.ceil _; omega)
        (by rw [hsig]; show Int.ceil _ < 2 ^ 30; omega)
      rw [hsig] at k2
      have k2' : k.kernel_radius
          = Int.ceil (3 * (((F : Int) : ℝ) / Real.sqrt (2 * Real.log 2))) := k2
      exact ⟨k, k1, by omega, by omega, k3⟩

/-- Over the reals, on a well-formed input, for `1 <= F < 2^63` and `F <= 4*10^8` when
anti-aliasing is enabled, the refresh with its faults runs to the end, whatever the reused
output is, and publishes what `DownsampleFilter.Refresh` publishes for the kernel built,
with the timescale product reduced to `int64_t`. -/
theorem refreshChecked_real (din : Waveform ℝ) (hwf : din.WellFormed) (F : Nat)
    (hF : 1 ≤ F) (hmax : F < 2 ^ 63) (aa : Bool) (haa : aa = true → F ≤ 4 * 10 ^ 8) :
    ∃ k, ∀ data, DownsampleFilter.RefreshChecked
        ({ sqrt := Real.sqrt, log := Real.log, exp := Real.exp, ceil := fun x => Int.ceil x,
           pi := Real.pi } : MathFns ℝ) (some din) (F : Int) aa data
      = Except.ok ((DownsampleFilter.Refresh (fun _ => k) (some din) (F : Int) aa data).map
          (fun w => { w with m_timescale := wrapInt64 (din.m_timescale * (F : Int)) })) := by
  cases aa
  · exact ⟨⟨0, []⟩, fun data => refreshChecked_plain _ _ din hwf F hF hmax data⟩
  · have hlt := (kernel_radius_real F hF).2.2.1 (haa rfl)
    rcases buildKernel_real_cases F hF with h | h | h
    · omega
    · omega
    · obtain ⟨-, k, k1, k2, k3, k4⟩ := h
      exact ⟨k, fun data =>
        refreshChecked_antialiased _ din hwf F hF hmax data k k1 (by omega) (by omega) k4⟩

/-- With anti-aliasing, a factor from `5*10^8` to `8*10^8` ends the refresh at
`kernel.resize`: the radius is at least `2^30` and `kernel_size` has wrapped. -/
theorem refreshChecked_real_lengthError (din : Waveform ℝ) (F : Nat)
    (h5 : 5 * 10 ^ 8 ≤ F) (h8 : F ≤ 8 * 10 ^ 8) (data : Option (Waveform ℝ)) :
    DownsampleFilter.RefreshChecked
        ({ sqrt := Real.sqrt, log := Real.log, exp := Real.exp, ceil := fun x => Int.ceil x,
           pi := Real.pi } : MathFns ℝ) (some din) (F : Int) true data
      = Except.error RunFault.lengthError := by
  have hF : 1 ≤ F := by omega
  have hmax : F < 2 ^ 63 := by omega
  obtain ⟨c1, c2⟩ := (kernel_radius_real F hF).2.2.2.1 h5 h8
  have hsig := sigma_real (F : Int)
  refine refreshChecked_kernel_fault _ din _ (toSizeT_factor_ne_zero F hF hmax) data _ ?_
  apply buildKernel_lengthError
  · rw [hsig]; exact c1
  · rw [hsig]; exact c2

/-- Over the reals, for the factors 1 to 18187 no `int` of the kernel construction wraps:
the kernel built with the 32-bit variables of the source is `gaussianKernel`. -/
theorem buildKernel_real_gaussian (F : Nat) (hF : 1 ≤ F) (h : F ≤ 18187) :
    DownsampleFilter.buildKernel
        ({ sqrt := Real.sqrt, log := Real.log, exp := Real.exp, ceil := fun x => Int.ceil x,
           pi := Real.pi } : MathFns ℝ) (F : Int)
      = Except.ok (DownsampleFilter.gaussianKernel
        ({ sqrt := Real.sqrt, log := Real.log, exp := Real.exp, ceil := fun x => Int.ceil x,
           pi := Real.pi } : MathFns ℝ) (F : Int)) := by
  have h1 := (kernel_radius_real F hF).1
  have h2 := (kernel_radius_real F hF).2.1 h
  have hsig := sigma_real (F : Int)
  apply buildKernel_eq_gaussianKernel
  · rw [hsig]; show 0 ≤ Int.ceil _; omega
  · rw [hsig]; exact h2

set_option maxRecDepth 100000 in
/-- The refresh with its faults on concrete inputs, with math functions that give a radius
of 1: six dense samples decimated by 2 with anti-aliasing; four samples that are not
dense-packed decimated by 2 without anti-aliasing; the same input with only two offsets,
where the read `din->m_offsets[2]` is outside its vector; a factor of 0; a negative
factor with a radius of -2; and radii of `2^30` and `2^31`. -/
theorem refreshChecked_runs :
    (DownsampleFilter.RefreshChecked unitMath (some (sparseFour 10 20 30 40)) 2 false
        none).toOption.map
      (fun o => o.map (fun w => (w.m_timescale, w.m_samples, w.m_offsets, w.m_durations)))
      = some (some (10, [10, 30], [0, 3], [0, 1])) ∧
    faultOf (DownsampleFilter.RefreshChecked unitMath
        (some { sparseFour 10 20 30 40 with m_offsets := [0, 3] }) 2 false none)
      = some RunFault.outOfBounds ∧
    (DownsampleFilter.RefreshChecked unitMath (some (denseInput [0, 1, 2, 3, 4, 5])) 2 true
        none).toOption.map
      (fun o => o.map (fun w => (w.m_timescale, w.m_samples, w.m_offsets, w.m_durations)))
      = some (some (2, [1 / 3, 2, 4], [0, 1, 2], [0, 0, 0])) ∧
    faultOf (DownsampleFilter.RefreshChecked unitMath (some (denseInput [0, 1, 2, 3, 4, 5])) 0
        true none) = some RunFault.divisionByZero ∧
    faultOf (DownsampleFilter.RefreshChecked { unitMath with ceil := fun _ => -2 }
        (some (denseInput [0, 1, 2, 3, 4, 5])) (-1) true none) = some RunFault.lengthError ∧
    faultOf (DownsampleFilter.RefreshChecked { unitMath with ceil := fun _ => 2 ^ 30 }
        (some (denseInput [0, 1, 2, 3, 4, 5])) 2 true none) = some RunFault.lengthError ∧
    faultOf (DownsampleFilter.RefreshChecked { unitMath with ceil := fun _ => 2 ^ 31 }
        (some (denseInput [0, 1, 2, 3, 4, 5])) 2 true none) = some RunFault.floatToInt := by
  refine ⟨by decide!, by decide!, by decide!, by decide!, by decide!, by decide!, by decide!⟩

/-! ## DownsampleFilter: the claims about the refresh, with its faults -/

theorem wrapInt64_of_range (x : Int) (h1 : -2 ^ 63 ≤ x) (h2 : x < 2 ^ 63) : wrapInt64 x = x := by
  unfold wrapInt64
  have : (x + 2 ^ 63) % 2 ^ 64 = x + 2 ^ 63 := by
    apply Int.emod_eq_of_lt <;> omega
  rw [this]
  omega

theorem denseInput_samples {α : Type} (samples : List α) :
    (denseInput samples).m_samples = samples := rfl

/-- C1, corrected: over the reals, for a well-formed input of length L and a factor F with
1 <= F < 2^63, and F <= 4*10^8 when anti-aliasing is enabled, the refresh runs to the end
without a fault and publishes an output whose samples, offsets and durations all have
length floor(L/F), with anti-aliasing enabled and with it disabled, whatever the reused
output was. -/
theorem downsample_output_length (fn : MathFns ℝ)
    (hfn : fn = { sqrt := Real.sqrt, log := Real.log, exp := Real.exp,
                  ceil := fun x => Int.ceil x, pi := Real.pi })
    (din : Waveform ℝ) (hwf : din.WellFormed) (F : Nat) (hF : 1 ≤ F) (hmax : F < 2 ^ 63)
    (aa : Bool) (haa : aa = true → F ≤ 4 * 10 ^ 8) (data : Option (Waveform ℝ)) :
    ∃ out, DownsampleFilter.RefreshChecked fn (some din) (F : Int) aa data
        = Except.ok (some out) ∧
      out.m_samples.length = din.m_samples.length / F ∧
      out.m_offsets.length = din.m_samples.length / F ∧
      out.m_durations.length = din.m_samples.length / F := by
  subst hfn
  obtain ⟨k, hk⟩ := refreshChecked_real din hwf F hF hmax aa haa
  obtain ⟨out, ho, l1, l2, l3⟩ := refresh_lengths (fun _ => k) din F hmax aa data
  have h := hk data
  rw [ho] at h
  exact ⟨_, h, l1, l2, l3⟩

/-- Witness of C1: six samples, factor 2, anti-aliasing enabled, no earlier output. -/
theorem downsample_output_length_witness :
    ∃ out, DownsampleFilter.RefreshChecked
        ({ sqrt := Real.sqrt, log := Real.log, exp := Real.exp, ceil := fun x => Int.ceil x,
           pi := Real.pi } : MathFns ℝ)
        (some (denseInput [0, 1, 2, 3, 4, 5])) ((2 : Nat) : Int) true none
        = Except.ok (some out) ∧
      out.m_samples.length = (denseInput [(0 : ℝ), 1, 2, 3, 4, 5]).m_samples.length / 2 ∧
      out.m_offsets.length = (denseInput [(0 : ℝ), 1, 2, 3, 4, 5]).m_samples.length / 2 ∧
      out.m_durations.length = (denseInput [(0 : ℝ), 1, 2, 3, 4, 5]).m_samples.length / 2 :=
  downsample_output_length _ rfl (denseInput [0, 1, 2, 3, 4, 5]) ⟨rfl, rfl⟩ 2 (by decide)
    (by decide) true (fun _ => by decide) none

/-- C1 as stated fails for a large factor with anti-aliasing: for F = 5*10^8 the radius
`ceil(3*sigma)` is at least 2^30, `kernel_size = kernel_radius*2 + 1` does not fit the
`int` that holds it, and `kernel.resize` throws: the refresh publishes no output. -/
theorem downsample_output_length_overflow :
    DownsampleFilter.RefreshChecked
        ({ sqrt := Real.sqrt, log := Real.log, exp := Real.exp, ceil := fun x => Int.ceil x,
           pi := Real.pi } : MathFns ℝ)
        (some (denseInput [0, 1, 2, 3, 4, 5])) ((500000000 : Nat) : Int) true none
      = Except.error RunFault.lengthError :=
  refreshChecked_real_lengthError (denseInput [0, 1, 2, 3, 4, 5]) 500000000 (by norm_num)
    (by norm_num) none

/-- C4, corrected: over the reals, for a well-formed input and a factor F with
1 <= F < 2^63, and F <= 4*10^8 when anti-aliasing is enabled: on the anti-aliased path,
and on the path without anti-aliasing when the input is not dense-packed, the refresh runs
to the end and output offset i and output duration i are the input offset and duration at
index i*F divided by F with truncating integer division, for every i < floor(L/F); an
input duration of 1 gives an output duration of 0 when F >= 2. -/
theorem downsample_timestamps_divided (fn : MathFns ℝ)
    (hfn : fn = { sqrt := Real.sqrt, log := Real.log, exp := Real.exp,
                  ceil := fun x => Int.ceil x, pi := Real.pi })
    (din : Waveform ℝ) (hwf : din.WellFormed) (F : Nat) (hF : 1 ≤ F) (hmax : F < 2 ^ 63)
    (aa : Bool) (haa : aa = true → F ≤ 4 * 10 ^ 8) (data : Option (Waveform ℝ))
    (hpath : aa = true ∨ din.m_densePacked = false) (i : Nat)
    (hi : i < din.m_samples.length / F) :
    ∃ out a d, DownsampleFilter.RefreshChecked fn (some din) (F : Int) aa data
        = Except.ok (some out) ∧
      din.m_offsets[i * F]? = some a ∧ din.m_durations[i * F]? = some d ∧
      out.m_offsets[i]? = some (Int.tdiv a F) ∧ out.m_durations[i]? = some (Int.tdiv d F) ∧
      (2 ≤ F → d = 1 → out.m_durations[i]? = some 0) := by
  subst hfn
  obtain ⟨k, hk⟩ := refreshChecked_real din hwf F hF hmax aa haa
  obtain ⟨out, a, d, ho, h1, h2, h3, h4, h5⟩ :=
    refresh_timestamps (fun _ => k) din hwf F hmax aa data hpath i hi
  have h := hk data
  rw [ho] at h
  exact ⟨_, a, d, h, h1, h2, h3, h4, h5⟩

/-- Witness of C4: six dense samples, factor 2, anti-aliasing enabled, output index 1. -/
theorem downsample_timestamps_divided_witness :
    ∃ out a d, DownsampleFilter.RefreshChecked
        ({ sqrt := Real.sqrt, log := Real.log, exp := Real.exp, ceil := fun x => Int.ceil x,
           pi := Real.pi } : MathFns ℝ)
        (some (denseInput [0, 1, 2, 3, 4, 5])) ((2 : Nat) : Int) true none
        = Except.ok (some out) ∧
      (denseInput [(0 : ℝ), 1, 2, 3, 4, 5]).m_offsets[1 * 2]? = some a ∧
      (denseInput [(0 : ℝ), 1, 2, 3, 4, 5]).m_durations[1 * 2]? = some d ∧
      out.m_offsets[1]? = some (Int.tdiv a (2 : Nat)) ∧
      out.m_durations[1]? = some (Int.tdiv d (2 : Nat)) ∧
      (2 ≤ 2 → d = 1 → out.m_durations[1]? = some 0) :=
  downsample_timestamps_divided _ rfl (denseInput [0, 1, 2, 3, 4, 5]) ⟨rfl, rfl⟩ 2
    (by decide) (by decide) true (fun _ => by decide) none (Or.inl rfl) 1 (by decide)

/-- C4 as stated fails on the anti-aliased path for a large factor: on an input of 5*10^8
samples with F = 5*10^8 there is an output index, 0, but `kernel_size` does not fit its
`int`, `kernel.resize` throws and no timestamp is written. -/
theorem downsample_timestamps_divided_overflow :
    0 < (denseInput (List.replicate 500000000 (0 : ℝ))).m_samples.length / 500000000 ∧
    DownsampleFilter.RefreshChecked
        ({ sqrt := Real.sqrt, log := Real.log, exp := Real.exp, ceil := fun x => Int.ceil x,
           pi := Real.pi } : MathFns ℝ)
        (some (denseInput (List.replicate 500000000 (0 : ℝ)))) ((500000000 : Nat) : Int) true
        none
      = Except.error RunFault.lengthError := by
  constructor
  · rw [denseInput_samples, List.length_replicate]
    norm_num
  · exact refreshChecked_real_lengthError _ 500000000 (by norm_num) (by norm_num) none

/-- C5, corrected: over the reals, for a well-formed input and a factor F with
1 <= F < 2^63, and F <= 4*10^8 when anti-aliasing is enabled, on both paths the refresh
runs to the end, the output timescale is the `int64_t` product of the input timescale and
F, which is the product itself when that fits an `int64_t`, and the start timestamp and
start fractional ticks are those of the input. -/
theorem downsample_time_base (fn : MathFns ℝ)
    (hfn : fn = { sqrt := Real.sqrt, log := Real.log, exp := Real.exp,
                  ceil := fun x => Int.ceil x, pi := Real.pi })
    (din : Waveform ℝ) (hwf : din.WellFormed) (F : Nat) (hF : 1 ≤ F) (hmax : F < 2 ^ 63)
    (aa : Bool) (haa : aa = true → F ≤ 4 * 10 ^ 8) (data : Option (Waveform ℝ)) :
    ∃ out, DownsampleFilter.RefreshChecked fn (some din) (F : Int) aa data
        = Except.ok (some out) ∧
      out.m_timescale = wrapInt64 (din.m_timescale * F) ∧
      (-2 ^ 63 ≤ din.m_timescale * F → din.m_timescale * F < 2 ^ 63 →
        out.m_timescale = din.m_timescale * F) ∧
      out.m_startTimestamp = din.m_startTimestamp ∧
      out.m_startFemtoseconds = din.m_startFemtoseconds := by
  subst hfn
  obtain ⟨k, hk⟩ := refreshChecked_real din hwf F hF hmax aa haa
  have h := hk data
  rw [downsample_refresh_eq] at h
  exact ⟨_, h, rfl, fun h1 h2 => wrapInt64_of_range _ h1 h2, rfl, rfl⟩

/-- Witness of C5: six samples with timescale 1, factor 2, anti-aliasing enabled. -/
theorem downsample_time_base_witness :
    ∃ out, DownsampleFilter.RefreshChecked
        ({ sqrt := Real.sqrt, log := Real.log, exp := Real.exp, ceil := fun x => Int.ceil x,
           pi := Real.pi } : MathFns ℝ)
        (some (denseInput [0, 1, 2, 3, 4, 5])) ((2 : Nat) : Int) true none
        = Except.ok (some out) ∧
      out.m_timescale = wrapInt64 ((denseInput [(0 : ℝ), 1, 2, 3, 4, 5]).m_timescale * (2 : Nat)) ∧
      (-2 ^ 63 ≤ (denseInput [(0 : ℝ), 1, 2, 3, 4, 5]).m_timescale * (2 : Nat) →
        (denseInput [(0 : ℝ), 1, 2, 3, 4, 5]).m_timescale * (2 : Nat) < 2 ^ 63 →
        out.m_timescale = (denseInput [(0 : ℝ), 1, 2, 3, 4, 5]).m_timescale * (2 : Nat)) ∧
      out.m_startTimestamp = (denseInput [(0 : ℝ), 1, 2, 3, 4, 5]).m_startTimestamp ∧
      out.m_startFemtoseconds = (denseInput [(0 : ℝ), 1, 2, 3, 4, 5]).m_startFemtoseconds :=
  downsample_time_base _ rfl (denseInput [0, 1, 2, 3, 4, 5]) ⟨rfl, rfl⟩ 2 (by decide)
    (by decide) true (fun _ => by decide) none

/-- C5 as stated fails outside these bounds. With a factor of 0 the division of line 118
is a division by zero on either path; with anti-aliasing and F = 5*10^8 `kernel.resize`
throws; and with an input timescale of 2^62 and F = 2, without anti-aliasing, the product
2^63 does not fit an `int64_t` and the published timescale is -2^63. -/
theorem downsample_time_base_faults :
    DownsampleFilter.RefreshChecked
        ({ sqrt := Real.sqrt, log := Real.log, exp := Real.exp, ceil := fun x => Int.ceil x,
           pi := Real.pi } : MathFns ℝ)
        (some (denseInput [0, 1, 2, 3, 4, 5])) 0 false none
      = Except.error RunFault.divisionByZero ∧
    DownsampleFilter.RefreshChecked
        ({ sqrt := Real.sqrt, log := Real.log, exp := Real.exp, ceil := fun x => Int.ceil x,
           pi := Real.pi } : MathFns ℝ)
        (some (denseInput [0, 1, 2, 3, 4, 5])) 0 true none
      = Except.error RunFault.divisionByZero ∧
    DownsampleFilter.RefreshChecked
        ({ sqrt := Real.sqrt, log := Real.log, exp := Real.exp, ceil := fun x => Int.ceil x,
           pi := Real.pi } : MathFns ℝ)
        (some (denseInput [0, 1, 2, 3, 4, 5])) ((500000000 : Nat) : Int) true none
      = Except.error RunFault.lengthError ∧
    ∃ out, DownsampleFilter.RefreshChecked
        ({ sqrt := Real.sqrt, log := Real.log, exp := Real.exp, ceil := fun x => Int.ceil x,
           pi := Real.pi } : MathFns ℝ)
        (some { denseInput [0, 1, 2, 3, 4, 5] with m_timescale := 2 ^ 62 }) ((2 : Nat) : Int)
        false none
        = Except.ok (some out) ∧
      out.m_timescale = -2 ^ 63 ∧ (2 : Int) ^ 62 * (2 : Nat) = 2 ^ 63 := by
  refine ⟨refreshChecked_zero _ _ _ _, refreshChecked_zero _ _ _ _,
    refreshChecked_real_lengthError _ 500000000 (by norm_num) (by norm_num) none, ?_⟩
  rw [refreshChecked_plain _ (fun _ => ⟨0, []⟩) _ ⟨rfl, rfl⟩ 2 (by decide) (by decide) none,
    downsample_refresh_eq]
  exact ⟨_, rfl, by decide, by decide⟩

/-- C20, corrected: over the reals, for a well-formed input, a factor F with
1 <= F < 2^63, and F <= 4*10^8 when anti-aliasing is enabled, and every prior state of the
reused output: the refresh runs to the end, and a second refresh with the same input and
the same parameters, run on the output of the first, runs to the end and publishes the
same waveform again, in every field. -/
theorem downsample_refresh_idempotent (fn : MathFns ℝ)
    (hfn : fn = { sqrt := Real.sqrt, log := Real.log, exp := Real.exp,
                  ceil := fun x => Int.ceil x, pi := Real.pi })
    (din : Waveform ℝ) (hwf : din.WellFormed) (F : Nat) (hF : 1 ≤ F) (hmax : F < 2 ^ 63)
    (aa : Bool) (haa : aa = true → F ≤ 4 * 10 ^ 8) (data : Option (Waveform ℝ)) :
    ∃ out, DownsampleFilter.RefreshChecked fn (some din) (F : Int) aa data
        = Except.ok (some out) ∧
      DownsampleFilter.RefreshChecked fn (some din) (F : Int) aa (some out)
        = Except.ok (some out) := by
  subst hfn
  obtain ⟨k, hk⟩ := refreshChecked_real din hwf F hF hmax aa haa
  have h2 := refresh_twice (fun _ => k) din F aa data
  have h1 := hk data
  rw [downsample_refresh_eq (fun _ => k) din F aa data] at h1 h2
  refine ⟨_, h1, ?_⟩
  rw [hk]
  exact congrArg (fun r : Option (Waveform ℝ) => Except.ok (r.map
    (fun w => { w with m_timescale := wrapInt64 (din.m_timescale * (F : Int)) }))) h2

/-- Witness of C20: six dense samples, factor 2, anti-aliasing enabled, no earlier
output. -/
theorem downsample_refresh_idempotent_witness :
    ∃ out, DownsampleFilter.RefreshChecked
        ({ sqrt := Real.sqrt, log := Real.log, exp := Real.exp, ceil := fun x => Int.ceil x,
           pi := Real.pi } : MathFns ℝ)
        (some (denseInput [1, 2, 3, 4, 5, 6])) ((2 : Nat) : Int) true none
        = Except.ok (some out) ∧
      DownsampleFilter.RefreshChecked
        ({ sqrt := Real.sqrt, log := Real.log, exp := Real.exp, ceil := fun x => Int.ceil x,
           pi := Real.pi } : MathFns ℝ)
        (some (denseInput [1, 2, 3, 4, 5, 6])) ((2 : Nat) : Int) true (some out)
        = Except.ok (some out) :=
  downsample_refresh_idempotent _ rfl (denseInput [1, 2, 3, 4, 5, 6]) ⟨rfl, rfl⟩ 2
    (by decide) (by decide) true (fun _ => by decide) none

/-- C20 as stated fails for a large factor with anti-aliasing: for F = 5*10^8
`kernel.resize` throws in the first run, whatever the prior state of the output (none, or
an output of three samples), so no refresh publishes an output to compare. -/
theorem downsample_refresh_idempotent_overflow :
    DownsampleFilter.RefreshChecked
        ({ sqrt := Real.sqrt, log := Real.log, exp := Real.exp, ceil := fun x => Int.ceil x,
           pi := Real.pi } : MathFns ℝ)
        (some (denseInput [1, 2, 3, 4, 5, 6])) ((500000000 : Nat) : Int) true none
      = Except.error RunFault.lengthError ∧
    DownsampleFilter.RefreshChecked
        ({ sqrt := Real.sqrt, log := Real.log, exp := Real.exp, ceil := fun x => Int.ceil x,
           pi := Real.pi } : MathFns ℝ)
        (some (denseInput [1, 2, 3, 4, 5, 6])) ((500000000 : Nat) : Int) true
        (some (denseInput [1, 3, 5]))
      = Except.error RunFault.lengthError :=
  ⟨refreshChecked_real_lengthError _ 500000000 (by norm_num) (by norm_num) none,
   refreshChecked_real_lengthError _ 500000000 (by norm_num) (by norm_num) _⟩

/-! ## The numeric filters: every access is inside its vector -/

end ScopeHal
